import Mathlib

/-! # Points-to analysis and dependence graph of dg

A shallow embedding of `src/analysis/PointsTo/PointerAnalysis.cpp`, of
`src/DependenceGraph.h` and of the criterion handling of
`tools/llvm-slicer.cpp`.

* PS nodes are named by natural numbers (their addresses); the three sentinel
  nodes `NULLPTR`, `UNKNOWN_MEMORY`, `INVALIDATED` are fixed names.
* Offsets are 64-bit unsigned values, kept as naturals below `2^64`; sums that
  the source computes on `uint64_t` are reduced modulo `2^64`.
* `std::set<Pointer>` is a list kept in increasing order, `std::map<Offset, _>`
  an association list kept in increasing key order; the loops of the source
  run over these lists front to back.
* A failed `assert` or a call of `abort()` ends the analysis: the functions
  return `none` there. Fetching an operand that a node does not have is such a
  failure.
* A loop over the points-to set of an operand runs over the set as it is when
  the loop starts; a node is not its own operand, except for a PHI, where the
  union of a set into itself changes nothing.
* The object resolver `getMemoryObjects` is a function of the node and the
  pointer; the hooks `error`, `errorEmptyPointsTo` and `functionPointerCall`
  are recorded in a log.
* Dependence graphs, their nodes and the containers allocated with `new` are
  named by natural numbers and live in one `DGWorld`; a node pointer is an
  `Option`, `none` being `nullptr`. Dereferencing `nullptr` or an iterator that
  points at no element is undefined in the source: the functions return `none`
  there. `delete` records the name of the destroyed object.
* The reference count of a graph is an `int`: results are reduced to 32 bits in
  two's complement.
* Of the slicing driver, the graph that `slice` builds and analyses is given by
  what `slice` reads of it: the call sites that `getCallSites` finds and the
  exit node; a run of `slice` is its result and the start nodes it marks.
-/

namespace dg

/-! ## Offsets and pointers -/

/-- Modelled from the spec: `Offset.h` is not among the sources. An offset is a
non-negative 64-bit integer or the distinguished value `UNKNOWN`; the overflow
test of `processMemcpy` (`Offset::UNKNOWN - *destOffset <= ...`) uses `UNKNOWN`
as the largest 64-bit value. -/
def UNKNOWN : Nat := 18446744073709551615

/-- The number of values of `uint64_t`. -/
def WORD : Nat := 18446744073709551616

/-- Addition on `uint64_t`, as `*a + *b` computes it. -/
def u64add (a b : Nat) : Nat := (a + b) % WORD

/-- Subtraction on `uint64_t`, as `*a - *b` computes it. -/
def u64sub (a b : Nat) : Nat := (a + WORD - b % WORD) % WORD

/-- The node `NULLPTR_LOC` (source line 11). -/
def NULLPTR : Nat := 0

/-- The node `UNKNOWN_MEMLOC` (source line 13). -/
def UNKNOWN_MEMORY : Nat := 1

/-- The node `INVALIDATED_LOC` (source line 15). -/
def INVALIDATED : Nat := 2

/-- A pointer: the node it points to and the offset into it. -/
structure Pointer where
  target : Nat
  offset : Nat
deriving DecidableEq, Repr

/-- The constant `PointerUnknown` (source line 19). -/
def PointerUnknown : Pointer := ⟨UNKNOWN_MEMORY, UNKNOWN⟩

/-- The constant `PointerNull` (source line 20). -/
def PointerNull : Pointer := ⟨NULLPTR, 0⟩

/-- Modelled from the spec: the pointer that `addPointsTo(INVALIDATED)` inserts;
`Pointer.h` is not among the sources, the offset is taken as for `NULLPTR`. -/
def PointerInvalidated : Pointer := ⟨INVALIDATED, 0⟩

/-- Modelled from the spec: the predicate `isNull` of `Pointer.h`. -/
def Pointer.isNull (p : Pointer) : Bool := p.target == NULLPTR

/-- Modelled from the spec: the predicate `isUnknown` of `Pointer.h`. -/
def Pointer.isUnknown (p : Pointer) : Bool := p.target == UNKNOWN_MEMORY

/-- Modelled from the spec: the predicate `isInvalidated` of `Pointer.h`. -/
def Pointer.isInvalidated (p : Pointer) : Bool := p.target == INVALIDATED

/-- Modelled from the spec: `isValid = !isUnknown && target != null`. -/
def Pointer.isValid (p : Pointer) : Bool := !p.isUnknown && !p.isNull

/-- Modelled from the spec: the order of `std::set<Pointer>` (`Pointer.h` is
not among the sources): by target, then by offset. -/
def Pointer.le (a b : Pointer) : Prop :=
  a.target < b.target ∨ (a.target = b.target ∧ a.offset ≤ b.offset)

instance : DecidableRel Pointer.le := fun a b => by
  unfold Pointer.le; exact inferInstance

/-! ## Points-to sets -/

/-- A points-to set, `std::set<Pointer>`. -/
abbrev PointsToSet := List Pointer

/-- The call `pointsTo.insert(p)`: the new set and `.second`, whether `p` was
inserted. -/
def PointsToSet.insert (S : PointsToSet) (p : Pointer) : PointsToSet × Bool :=
  if p ∈ S then (S, false) else (S.orderedInsert Pointer.le p, true)

/-- Modelled from the spec: `PSNode::addPointsTo(const Pointer&)` of
`PointerSubgraph.h`, which is not among the sources. A points-to set has
set-insert semantics, and insertion returns whether the set changed. (The
comment of source lines 37-38 tells that the method of the repository hands
over to `addPointsToUnknownOffset` in some case; the spec does not say in
which, and the model keeps to the words of the spec.) -/
def addPointsTo (S : PointsToSet) (p : Pointer) : PointsToSet × Bool :=
  S.insert p

/-- Modelled from the spec: `PSNode::addPointsTo(const std::set<Pointer>&)`,
the union of a set into the points-to set, one insertion after the other. -/
def addPointsToSet (S : PointsToSet) : List Pointer → PointsToSet × Bool
  | [] => (S, false)
  | p :: ptrs =>
    let r := addPointsTo S p
    let r2 := addPointsToSet r.1 ptrs
    (r2.1, r.2 || r2.2)

/-- The erasing loop of `PSNode::addPointsToUnknownOffset` (source lines 27-35):
pointers to `target` with a concrete offset are erased; the flag tells whether
one was. -/
def eraseConcrete (target : Nat) : PointsToSet → PointsToSet × Bool
  | [] => ([], false)
  | cur :: rest =>
    let r := eraseConcrete target rest
    if cur.target = target ∧ cur.offset ≠ UNKNOWN then (r.1, true)
    else (cur :: r.1, r.2)

/-- The method `PSNode::addPointsToUnknownOffset` (source lines 24-42). -/
def addPointsToUnknownOffset (S : PointsToSet) (target : Nat) : PointsToSet × Bool :=
  let e := eraseConcrete target S
  let r := e.1.insert ⟨target, UNKNOWN⟩
  (r.1, e.2 || r.2)

/-! ## Memory objects -/

/-- The map `MemoryObject::pointsTo`, a `std::map<Offset, PointsToSet>`. -/
abbrev OffsetMap := List (Nat × PointsToSet)

/-- The call `pointsTo.count(off)` on the map of a memory object. -/
def OffsetMap.count (m : OffsetMap) (off : Nat) : Bool :=
  m.any (fun e => e.1 == off)

/-- The points-to set stored under `off`, if there is an entry. -/
def OffsetMap.find (m : OffsetMap) (off : Nat) : Option PointsToSet :=
  match m with
  | [] => none
  | e :: rest => if e.1 = off then some e.2 else OffsetMap.find rest off

/-- The read `pointsTo[off]`; the source reads it only after `count(off)`. -/
def OffsetMap.get (m : OffsetMap) (off : Nat) : PointsToSet :=
  (m.find off).getD []

/-- The map with `p` inserted into the set of its first entry under `off`. -/
def OffsetMap.insertAt (off : Nat) (p : Pointer) : OffsetMap → OffsetMap
  | [] => []
  | e :: rest =>
    if e.1 = off then (e.1, (e.2.insert p).1) :: rest
    else e :: OffsetMap.insertAt off p rest

/-- Modelled from the spec: `MemoryObject::addPointsTo(offset, pointer)` of
`Pointer.h`, which is not among the sources: the pointer is inserted into the
set stored under `offset` (the entry is created, in key order, when absent),
entries under other offsets are left in place; the result tells whether the
set changed. -/
def OffsetMap.addPointsTo (off : Nat) (p : Pointer) (m : OffsetMap) : OffsetMap × Bool :=
  match m.find off with
  | some S => (m.insertAt off p, (S.insert p).2)
  | none => (m.orderedInsert (fun a b => a.1 ≤ b.1) (off, [p]), true)

/-- A memory object: the allocation it belongs to and its map. -/
structure MemoryObject where
  node : Nat
  pointsTo : OffsetMap
deriving DecidableEq, Repr

/-- The method `MemoryObject::addPointsTo(offset, pointer)`. -/
def MemoryObject.addPointsTo (o : MemoryObject) (off : Nat) (p : Pointer) :
    MemoryObject × Bool :=
  let r := OffsetMap.addPointsTo off p o.pointsTo
  ({ o with pointsTo := r.1 }, r.2)

/-- The loop `for (to : set) changed |= o->addPointsTo(off, to)` (source lines
325-327).

Modelled from the spec: `MemoryObject::addPointsTo(offset, set)`, used by
`processMemcpy`, is the same insertion of every pointer of a set under one
offset. -/
def MemoryObject.addPointsToSet (o : MemoryObject) (off : Nat) :
    List Pointer → MemoryObject × Bool
  | [] => (o, false)
  | p :: ptrs =>
    let r := o.addPointsTo off p
    let r2 := MemoryObject.addPointsToSet r.1 off ptrs
    (r2.1, r.2 || r2.2)

/-! ## Pointer-subgraph nodes and the analysis state -/

/-- The kinds of PS nodes. -/
inductive PSNodeType
  | NULL_ADDR | UNKNOWN_MEM | INVALIDATED | ALLOC | DYN_ALLOC | FUNCTION
  | LOAD | STORE | GEP | CAST | PHI | CALL | CALL_FUNCPTR | CALL_RETURN
  | RETURN | MEMCPY | CONSTANT | ENTRY | NOOP | FREE | INVALIDATE_LOCALS
deriving DecidableEq, Repr

/-- A PS node with the fields the transfer functions read and write. -/
structure PSNode where
  type : PSNodeType
  operands : List Nat
  successors : List Nat
  parent : Nat
  pointsTo : PointsToSet
  /-- The value of `getSize()`. -/
  size : Nat
  /-- The value of `PSNodeGep::getOffset()`. -/
  offset : Nat
  /-- The value of `PSNodeMemcpy::getLength()`. -/
  len : Nat
  zeroInitialized : Bool
  is_heap : Bool
  is_global : Bool
deriving DecidableEq, Repr

/-- Modelled from the spec: `PSNodeAlloc::get` of `PointerSubgraph.h` yields the
node when it is a memory allocation and null otherwise (the asserts after its
calls read "Target is not memory allocation"). -/
def PSNode.isAlloc (n : PSNode) : Bool :=
  n.type == PSNodeType.ALLOC || n.type == PSNodeType.DYN_ALLOC

/-- What the analysis hands to its error hooks and to the function-pointer
hook. -/
inductive Report
  /-- The call `error(operand, "Load's operand has no points-to set")`. -/
  | emptyOperand (operand : Nat)
  /-- The call `errorEmptyPointsTo(from, to)`. -/
  | emptyPointsTo (source target : Nat)
  /-- The call `error(node, "Calling invalid pointer as a function!")`. -/
  | invalidFunctionCall (node : Nat)
  /-- The call `functionPointerCall(node, target)`. -/
  | functionPointerCall (node target : Nat)
deriving DecidableEq, Repr

/-- The state of a `PointerAnalysis`: the nodes, the memory objects (named by
naturals), the object resolver `getMemoryObjects`, the two configuration
values, and the calls of the hooks made so far, oldest first.

Modelled from the spec: the hooks `error`, `errorEmptyPointsTo` and
`functionPointerCall` are declared in `PointerAnalysis.h`, which is not among
the sources; errors are reported to a sink and the analysis continues, so the
error hooks return `false` and a hook call is recorded in `reports`. -/
structure PointerAnalysis where
  nodes : Nat → PSNode
  objects : Nat → MemoryObject
  getMemoryObjects : Nat → Pointer → List Nat
  max_offset : Nat
  invalidate_nodes : Bool
  reports : List Report

/-- The points-to set of a node, `pt(n)`. -/
def PointerAnalysis.pt (pa : PointerAnalysis) (n : Nat) : PointsToSet :=
  (pa.nodes n).pointsTo

/-- The state with the points-to set of `n` replaced. -/
def PointerAnalysis.setPointsTo (pa : PointerAnalysis) (n : Nat) (S : PointsToSet) :
    PointerAnalysis :=
  { pa with nodes := Function.update pa.nodes n { pa.nodes n with pointsTo := S } }

/-- The call `node->getOperand(i)`; a missing operand ends the analysis. -/
def PointerAnalysis.getOperand (pa : PointerAnalysis) (n i : Nat) : Option Nat :=
  (pa.nodes n).operands.get? i

/-! ## GEP -/

/-- The value of `new_offset` in `processGep` (source lines 282-287) for a
pointer with offset `o` and a GEP with offset `k`. -/
def gepNewOffset (o k : Nat) : Nat :=
  if o = UNKNOWN ∨ k = UNKNOWN then UNKNOWN else u64add o k

/-- The test of `processGep` on the new offset `off` of a pointer to `t`
(source lines 292-293): `(off == 0 || off < size) && off < max_offset`. -/
def gepInRange (size_of : Nat → Nat) (max_offset t off : Nat) : Prop :=
  (off = 0 ∨ off < size_of t) ∧ off < max_offset

instance (size_of : Nat → Nat) (max_offset t off : Nat) :
    Decidable (gepInRange size_of max_offset t off) := by
  unfold gepInRange; exact inferInstance

/-- The body of the loop of `processGep` (source lines 282-296) for one pointer
of the source: the points-to set of the node and the flag `changed`. -/
def processGepStep (size_of : Nat → Nat) (max_offset k : Nat)
    (acc : PointsToSet × Bool) (ptr : Pointer) : PointsToSet × Bool :=
  let new_offset := gepNewOffset ptr.offset k
  if gepInRange size_of max_offset ptr.target new_offset then
    let r := addPointsTo acc.1 ⟨ptr.target, new_offset⟩
    (r.1, acc.2 || r.2)
  else
    let r := addPointsToUnknownOffset acc.1 ptr.target
    (r.1, acc.2 || r.2)

/-- The loop of `processGep` over the points-to set of the source. -/
def processGepLoop (size_of : Nat → Nat) (max_offset k : Nat)
    (source : List Pointer) (S : PointsToSet) : PointsToSet × Bool :=
  source.foldl (processGepStep size_of max_offset k) (S, false)

/-- The method `PointerAnalysis::processGep` (source lines 275-300). -/
def processGep (pa : PointerAnalysis) (node : Nat) : Option (PointerAnalysis × Bool) :=
  if (pa.nodes node).type ≠ PSNodeType.GEP then none
  else
    match pa.getOperand node 0 with
    | none => none
    | some source =>
      let r := processGepLoop (fun t => (pa.nodes t).size) pa.max_offset
        (pa.nodes node).offset (pa.pt source) (pa.pt node)
      some (pa.setPointsTo node r.1, r.2)

/-! ## The accumulator of a transfer function -/

/-- What a transfer function on a node carries through its loops: the points-to
set of the node, the hook calls made so far, and the flag `changed`. -/
structure NodeAcc where
  pointsTo : PointsToSet
  reports : List Report
  changed : Bool
deriving DecidableEq, Repr

/-- The statement `changed |= node->addPointsTo(p)`. -/
def NodeAcc.add (a : NodeAcc) (p : Pointer) : NodeAcc :=
  { a with pointsTo := (addPointsTo a.pointsTo p).1,
           changed := a.changed || (addPointsTo a.pointsTo p).2 }

/-- The loop `for (p : set) changed |= node->addPointsTo(p)`, which is also
the statement `changed |= node->addPointsTo(set)`. -/
def NodeAcc.addAll (a : NodeAcc) : List Pointer → NodeAcc
  | [] => a
  | p :: ptrs => NodeAcc.addAll (a.add p) ptrs

/-- The statement `changed |= errorEmptyPointsTo(node, target)`. -/
def NodeAcc.errorEmptyPointsTo (a : NodeAcc) (node target : Nat) : NodeAcc :=
  { a with reports := a.reports ++ [Report.emptyPointsTo node target] }

/-- The state after a transfer function on `node` that ended with `a`. -/
def PointerAnalysis.commit (pa : PointerAnalysis) (node : Nat) (a : NodeAcc) :
    PointerAnalysis :=
  { pa.setPointsTo node a.pointsTo with reports := a.reports }

/-! ## LOAD -/

/-- The body of the loop over the memory objects in `processLoad` (source lines
85-136), for the object `o`; `zeroInit` is `target->isZeroInitialized()` and
`nobjects` is `objects.size()`. -/
def loadFromObject (zeroInit : Bool) (nobjects node : Nat) (ptr : Pointer)
    (o : MemoryObject) (a : NodeAcc) : NodeAcc :=
  if ptr.offset = UNKNOWN then
    let a1 :=
      if o.pointsTo.isEmpty then
        if zeroInit then a.add PointerNull
        else if nobjects = 1 then a.errorEmptyPointsTo node ptr.target
        else a
      else a
    o.pointsTo.foldl (fun acc it => acc.addAll it.2) a1
  else
    let a1 :=
      if !o.pointsTo.count ptr.offset then
        if zeroInit then a.add PointerNull
        else if !o.pointsTo.count UNKNOWN then a.errorEmptyPointsTo node ptr.target
        else a
      else a.addAll (o.pointsTo.get ptr.offset)
    if o.pointsTo.count UNKNOWN then a1.addAll (o.pointsTo.get UNKNOWN) else a1

/-- The body of the loop over the pointers of the operand in `processLoad`
(source lines 52-138). The assertion of line 69 fails when the target is not a
memory allocation. -/
def processLoadPtr (pa : PointerAnalysis) (node : Nat) (a : NodeAcc) (ptr : Pointer) :
    Option NodeAcc :=
  if !ptr.isValid || ptr.isInvalidated then some a
  else if ptr.isUnknown then some (a.add PointerUnknown)
  else if !(pa.nodes ptr.target).isAlloc then none
  else if (pa.getMemoryObjects node ptr).isEmpty then
    if (pa.nodes ptr.target).zeroInitialized then some (a.add PointerNull)
    else some (a.errorEmptyPointsTo node ptr.target)
  else
    some ((pa.getMemoryObjects node ptr).foldl
      (fun acc o => loadFromObject (pa.nodes ptr.target).zeroInitialized
        (pa.getMemoryObjects node ptr).length node ptr (pa.objects o) acc) a)

/-- The loop of `processLoad` over the points-to set of the operand. -/
def processLoadLoop (pa : PointerAnalysis) (node : Nat) :
    List Pointer → NodeAcc → Option NodeAcc
  | [], a => some a
  | ptr :: rest, a =>
    match processLoadPtr pa node a ptr with
    | none => none
    | some a1 => processLoadLoop pa node rest a1

/-- The method `PointerAnalysis::processLoad` (source lines 44-141). -/
def processLoad (pa : PointerAnalysis) (node : Nat) : Option (PointerAnalysis × Bool) :=
  match pa.getOperand node 0 with
  | none => none
  | some operand =>
    if (pa.pt operand).isEmpty then
      some ({ pa with reports := pa.reports ++ [Report.emptyOperand operand] }, false)
    else
      match processLoadLoop pa node (pa.pt operand) ⟨pa.pt node, pa.reports, false⟩ with
      | none => none
      | some a => some (pa.commit node a, a.changed)

/-! ## STORE -/

/-- The loops over the memory objects and over the points-to set of operand 0
in the STORE case (source lines 324-328). -/
def storeObjects (off : Nat) (values : List Pointer) :
    List Nat → (Nat → MemoryObject) × Bool → (Nat → MemoryObject) × Bool
  | [], acc => acc
  | o :: os, acc =>
    storeObjects off values os
      (Function.update acc.1 o ((acc.1 o).addPointsToSet off values).1,
        acc.2 || ((acc.1 o).addPointsToSet off values).2)

/-- The loop of the STORE case over the points-to set of operand 1 (source
lines 316-329); null pointers are skipped. -/
def processStoreLoop (pa : PointerAnalysis) (node : Nat) (values : List Pointer) :
    List Pointer → (Nat → MemoryObject) × Bool → (Nat → MemoryObject) × Bool
  | [], acc => acc
  | ptr :: rest, acc =>
    if ptr.isNull then processStoreLoop pa node values rest acc
    else
      processStoreLoop pa node values rest
        (storeObjects ptr.offset values (pa.getMemoryObjects node ptr) acc)

/-- The STORE case of `processNode` (source lines 315-330). Operand 1 is the
pointer stored through, operand 0 the value stored. -/
def processStore (pa : PointerAnalysis) (node : Nat) : Option (PointerAnalysis × Bool) :=
  match pa.getOperand node 1, pa.getOperand node 0 with
  | some op1, some op0 =>
    let r := processStoreLoop pa node (pa.pt op0) (pa.pt op1) (pa.objects, false)
    some ({ pa with objects := r.1 }, r.2)
  | _, _ => none

/-! ## CAST, PHI, RETURN, CALL_RETURN -/

/-- The loop `for (op : operands) changed |= node->addPointsTo(op->pointsTo)`
(source lines 369-370). -/
def processPhiLoop (pa : PointerAnalysis) : List Nat → NodeAcc → NodeAcc
  | [], a => a
  | op :: ops, a => processPhiLoop pa ops (a.addAll (pa.pt op))

/-- The loop of the CALL_RETURN case over the pointers of one operand (source
lines 356-361); the assertion fails on a target that is not a memory
allocation. -/
def callReturnPointers (pa : PointerAnalysis) : List Pointer → NodeAcc → Option NodeAcc
  | [], a => some a
  | ptr :: rest, a =>
    if !(pa.nodes ptr.target).isAlloc then none
    else if !(pa.nodes ptr.target).is_heap && !(pa.nodes ptr.target).is_global then
      callReturnPointers pa rest (a.add PointerInvalidated)
    else callReturnPointers pa rest a

/-- The loop of the CALL_RETURN case over the operands (source lines 355-362). -/
def callReturnOperands (pa : PointerAnalysis) : List Nat → NodeAcc → Option NodeAcc
  | [], a => some a
  | op :: ops, a =>
    match callReturnPointers pa (pa.pt op) a with
    | none => none
    | some a1 => callReturnOperands pa ops a1

/-- The CALL_RETURN case of `processNode` (source lines 353-371): the
invalidation when `invalidate_nodes` is set, then the union of PHI. -/
def processCallReturn (pa : PointerAnalysis) (node : Nat) :
    Option (PointerAnalysis × Bool) :=
  let start : NodeAcc := ⟨pa.pt node, pa.reports, false⟩
  let inv := if pa.invalidate_nodes then
      callReturnOperands pa (pa.nodes node).operands start
    else some start
  match inv with
  | none => none
  | some a =>
    let a2 := processPhiLoop pa (pa.nodes node).operands a
    some (pa.commit node a2, a2.changed)

/-! ## CALL_FUNCPTR -/

/-- The body of the loop of the CALL_FUNCPTR case (source lines 377-388). -/
def callFuncptrStep (node : Nat) (a : NodeAcc) (ptr : Pointer) : NodeAcc :=
  if (addPointsTo a.pointsTo ptr).2 then
    if ptr.isValid && !ptr.isInvalidated then
      { pointsTo := (addPointsTo a.pointsTo ptr).1,
        reports := a.reports ++ [Report.functionPointerCall node ptr.target],
        changed := true }
    else
      { pointsTo := (addPointsTo a.pointsTo ptr).1,
        reports := a.reports ++ [Report.invalidFunctionCall node],
        changed := true }
  else { a with pointsTo := (addPointsTo a.pointsTo ptr).1 }

/-- The CALL_FUNCPTR case of `processNode` (source lines 372-389). -/
def processCallFuncptr (pa : PointerAnalysis) (node : Nat) :
    Option (PointerAnalysis × Bool) :=
  match pa.getOperand node 0 with
  | none => none
  | some op =>
    let a := (pa.pt op).foldl (callFuncptrStep node) ⟨pa.pt node, pa.reports, false⟩
    some (pa.commit node a, a.changed)

/-! ## MEMCPY -/

/-- The statement `changed |= destO->addPointsTo(off, set)` on the memory
object named `o`. -/
def PointerAnalysis.addObjectPointsTo (pa : PointerAnalysis) (o off : Nat)
    (ptrs : List Pointer) : PointerAnalysis × Bool :=
  ({ pa with objects :=
      Function.update pa.objects o ((pa.objects o).addPointsToSet off ptrs).1 },
    ((pa.objects o).addPointsToSet off ptrs).2)

/-- The body of the innermost loop of `processMemcpy` (source lines 241-267)
for the entry `src` of a source object and the destination object `destO`. -/
def memcpyEntry (pa : PointerAnalysis) (destO srcOffset destOffset len : Nat)
    (src : Nat × PointsToSet) : PointerAnalysis × Bool :=
  if src.1 = UNKNOWN ∨ srcOffset = UNKNOWN ∨
      (srcOffset ≤ src.1 ∧ (len = UNKNOWN ∨ u64sub src.1 srcOffset < len)) then
    if src.1 ≠ UNKNOWN ∧ srcOffset ≠ UNKNOWN ∧ destOffset ≠ UNKNOWN then
      if UNKNOWN - destOffset ≤ u64sub src.1 srcOffset then
        pa.addObjectPointsTo destO UNKNOWN src.2
      else if u64add (u64sub src.1 srcOffset) destOffset ≥
            (pa.nodes (pa.objects destO).node).size ∨
          u64add (u64sub src.1 srcOffset) destOffset ≥ pa.max_offset then
        pa.addObjectPointsTo destO UNKNOWN src.2
      else
        pa.addObjectPointsTo destO (u64add (u64sub src.1 srcOffset) destOffset) src.2
    else pa.addObjectPointsTo destO UNKNOWN src.2
  else (pa, false)

/-- The entry of a map that an iterator reaches after the key `cursor` (the
first entry when there is no cursor). -/
def OffsetMap.next (m : OffsetMap) (cursor : Option Nat) : Option (Nat × PointsToSet) :=
  match cursor with
  | none => m.head?
  | some c => m.find? (fun e => decide (c < e.1))

/-- The loop `for (auto& src : so->pointsTo)` of `processMemcpy` (source lines
235-268). The map of `so` is read while the loop runs, as the iterator of the
source does: when `so` is also the destination, entries inserted behind the
iterator are visited. Keys grow from one round to the next, so `WORD` rounds
are enough for 64-bit keys. -/
def memcpyEntries (destO so srcOffset destOffset len : Nat) :
    Nat → Option Nat → PointerAnalysis × Bool → PointerAnalysis × Bool
  | 0, _, acc => acc
  | fuel + 1, cursor, acc =>
    match ((acc.1.objects so).pointsTo).next cursor with
    | none => acc
    | some src =>
      memcpyEntries destO so srcOffset destOffset len fuel (some src.1)
        ((memcpyEntry acc.1 destO srcOffset destOffset len src).1,
          acc.2 || (memcpyEntry acc.1 destO srcOffset destOffset len src).2)

/-- The loop over the source objects in `processMemcpy` (source line 234). -/
def memcpySources (destO srcOffset destOffset len : Nat) :
    List Nat → PointerAnalysis × Bool → PointerAnalysis × Bool
  | [], acc => acc
  | so :: rest, acc =>
    memcpySources destO srcOffset destOffset len rest
      (memcpyEntries destO so srcOffset destOffset len WORD none acc)

/-- The loop over the destination objects in `processMemcpy` (source lines
228-270). -/
def memcpyDests (contains_null_somewhere : Bool) (srcObjects : List Nat)
    (srcOffset destOffset len : Nat) :
    List Nat → PointerAnalysis × Bool → PointerAnalysis × Bool
  | [], acc => acc
  | destO :: rest, acc =>
    let acc1 : PointerAnalysis × Bool :=
      if contains_null_somewhere then
        ((acc.1.addObjectPointsTo destO UNKNOWN [PointerNull]).1,
          acc.2 || (acc.1.addObjectPointsTo destO UNKNOWN [PointerNull]).2)
      else acc
    memcpyDests contains_null_somewhere srcObjects srcOffset destOffset len rest
      (memcpySources destO srcOffset destOffset len srcObjects acc1)

/-- The state with the allocation `n` marked zero-initialised,
`setZeroInitialized()`. -/
def PointerAnalysis.setZeroInitialized (pa : PointerAnalysis) (n : Nat) : PointerAnalysis :=
  { pa with nodes := Function.update pa.nodes n { pa.nodes n with zeroInitialized := true } }

/-- The method `PointerAnalysis::processMemcpy(srcObjects, destObjects, sptr,
dptr, len)` (source lines 192-273). The assertions of lines 201, 204 and 206
fail on a length 0 and on targets that are not memory allocations. -/
def processMemcpyObjects (pa : PointerAnalysis) (srcObjects destObjects : List Nat)
    (sptr dptr : Pointer) (len : Nat) : Option (PointerAnalysis × Bool) :=
  if len = 0 then none
  else if !(pa.nodes sptr.target).isAlloc then none
  else if !(pa.nodes dptr.target).isAlloc then none
  else
    let whole : Bool :=
      decide ((pa.nodes sptr.target).size ≠ UNKNOWN ∧
        (pa.nodes sptr.target).size = (pa.nodes dptr.target).size ∧
        len = (pa.nodes sptr.target).size ∧ sptr.offset = 0)
    let pa1 :=
      if (pa.nodes sptr.target).zeroInitialized && whole then
        pa.setZeroInitialized dptr.target
      else pa
    let contains_null_somewhere : Bool :=
      (pa.nodes sptr.target).zeroInitialized && !whole
    some (memcpyDests contains_null_somewhere srcObjects sptr.offset dptr.offset len
      destObjects (pa1, false))

/-- The loop over the pointers of the destination in `processMemcpy(node)`
(source lines 169-186); `abort()` when a pointer has no memory object. -/
def processMemcpyDestPtrs (node : Nat) (sptr : Pointer) (len : Nat) :
    List Pointer → PointerAnalysis × Bool → Option (PointerAnalysis × Bool)
  | [], acc => some acc
  | dptr :: rest, acc =>
    if !dptr.isValid || dptr.isInvalidated then
      processMemcpyDestPtrs node sptr len rest acc
    else if (acc.1.getMemoryObjects node dptr).isEmpty then none
    else
      match processMemcpyObjects acc.1 (acc.1.getMemoryObjects node sptr)
          (acc.1.getMemoryObjects node dptr) sptr dptr len with
      | none => none
      | some r => processMemcpyDestPtrs node sptr len rest (r.1, acc.2 || r.2)

/-- The loop over the pointers of the source in `processMemcpy(node)` (source
lines 154-187); `abort()` when a pointer has no memory object. -/
def processMemcpySrcPtrs (node : Nat) (destPtrs : List Pointer) (len : Nat) :
    List Pointer → PointerAnalysis × Bool → Option (PointerAnalysis × Bool)
  | [], acc => some acc
  | ptr :: rest, acc =>
    if !ptr.isValid || ptr.isInvalidated then
      processMemcpySrcPtrs node destPtrs len rest acc
    else if (acc.1.getMemoryObjects node ptr).isEmpty then none
    else
      match processMemcpyDestPtrs node ptr len destPtrs acc with
      | none => none
      | some r => processMemcpySrcPtrs node destPtrs len rest r

/-- The method `PointerAnalysis::processMemcpy(node)` (source lines 143-190).

Modelled from the spec: `PSNodeMemcpy` is declared in `PointerSubgraph.h`,
which is not among the sources; the source of the copy is operand 0, the
destination operand 1. -/
def processMemcpy (pa : PointerAnalysis) (node : Nat) : Option (PointerAnalysis × Bool) :=
  match pa.getOperand node 0, pa.getOperand node 1 with
  | some srcNode, some destNode =>
    processMemcpySrcPtrs node (pa.pt destNode) (pa.nodes node).len (pa.pt srcNode)
      (pa, false)
  | _, _ => none

/-! ## processNode -/

/-- The state with the parent of `n` replaced, `setParent`. -/
def PointerAnalysis.setParent (pa : PointerAnalysis) (n parent : Nat) : PointerAnalysis :=
  { pa with nodes := Function.update pa.nodes n { pa.nodes n with parent := parent } }

/-- The method `PointerAnalysis::processNode` (source lines 302-418), without
the check under `DEBUG_ENABLED`. -/
def processNode (pa : PointerAnalysis) (node : Nat) : Option (PointerAnalysis × Bool) :=
  match (pa.nodes node).type with
  | PSNodeType.LOAD => processLoad pa node
  | PSNodeType.STORE => processStore pa node
  | PSNodeType.FREE => some (pa, false)
  | PSNodeType.INVALIDATE_LOCALS =>
    match pa.getOperand node 0 with
    | none => none
    | some op =>
      match (pa.nodes op).successors with
      | [succ] => some (pa.setParent node (pa.nodes succ).parent, false)
      | _ => none
  | PSNodeType.GEP => processGep pa node
  | PSNodeType.CAST =>
    match pa.getOperand node 0 with
    | none => none
    | some op =>
      let a := NodeAcc.addAll ⟨pa.pt node, pa.reports, false⟩ (pa.pt op)
      some (pa.commit node a, a.changed)
  | PSNodeType.CONSTANT =>
    if (pa.pt node).length = 1 then some (pa, false) else none
  | PSNodeType.CALL_RETURN => processCallReturn pa node
  | PSNodeType.RETURN | PSNodeType.PHI =>
    let a := processPhiLoop pa (pa.nodes node).operands ⟨pa.pt node, pa.reports, false⟩
    some (pa.commit node a, a.changed)
  | PSNodeType.CALL_FUNCPTR => processCallFuncptr pa node
  | PSNodeType.MEMCPY => processMemcpy pa node
  | PSNodeType.ALLOC | PSNodeType.DYN_ALLOC | PSNodeType.FUNCTION =>
    if (⟨node, 0⟩ : Pointer) ∈ pa.pt node ∧ (pa.pt node).length = 1 then some (pa, false)
    else none
  | PSNodeType.CALL | PSNodeType.ENTRY | PSNodeType.NOOP => some (pa, false)
  | PSNodeType.NULL_ADDR | PSNodeType.UNKNOWN_MEM | PSNodeType.INVALIDATED => none

/-! ## What a LOAD reads, in the words of the spec -/

/-- The pointers that a load through `ptr` reads from the object `o`, as the
spec defines it: with an `UNKNOWN` offset the pointers stored under any offset
of `o`; otherwise those of `o[ptr.offset]` and, additionally, of `o[UNKNOWN]`. -/
def specLoaded (ptr : Pointer) (o : MemoryObject) (q : Pointer) : Prop :=
  if ptr.offset = UNKNOWN then ∃ e ∈ o.pointsTo, q ∈ e.2
  else q ∈ o.pointsTo.get ptr.offset ∨ q ∈ o.pointsTo.get UNKNOWN

/-- The object `o` has nothing stored where a load through `ptr` looks first:
no entry at all for an `UNKNOWN` offset, no entry under the offset otherwise. -/
def nothingStored (ptr : Pointer) (o : MemoryObject) : Prop :=
  if ptr.offset = UNKNOWN then o.pointsTo = [] else o.pointsTo.count ptr.offset = false

/-- The calls of `errorEmptyPointsTo` that the loop body of `processLoad` makes
for the object `o`. -/
def loadObjectReports (zeroInit : Bool) (nobjects node : Nat) (ptr : Pointer)
    (o : MemoryObject) : List Report :=
  if ptr.offset = UNKNOWN then
    if o.pointsTo.isEmpty ∧ zeroInit = false ∧ nobjects = 1 then
      [Report.emptyPointsTo node ptr.target] else []
  else
    if o.pointsTo.count ptr.offset = false ∧ zeroInit = false ∧
        o.pointsTo.count UNKNOWN = false then
      [Report.emptyPointsTo node ptr.target] else []

/-- The calls of `errorEmptyPointsTo` that `processLoad` makes for the pointer
`ptr` of its operand. -/
def loadPtrReports (pa : PointerAnalysis) (node : Nat) (ptr : Pointer) : List Report :=
  if !ptr.isValid || ptr.isInvalidated then []
  else if (pa.getMemoryObjects node ptr).isEmpty then
    if (pa.nodes ptr.target).zeroInitialized then []
    else [Report.emptyPointsTo node ptr.target]
  else
    (pa.getMemoryObjects node ptr).flatMap (fun o =>
      loadObjectReports (pa.nodes ptr.target).zeroInitialized
        (pa.getMemoryObjects node ptr).length node ptr (pa.objects o))

/-- The pointer `q` is what a load at `node` through the pointer `ptr` of the
operand adds: `ptr` is valid and not invalidated, and either `q` is read from a
resolved object as the spec defines, or `q` is `NULLPTR`, the target is
zero-initialised and there is no object, or an object with nothing stored. -/
def loadContributes (pa : PointerAnalysis) (node : Nat) (ptr q : Pointer) : Prop :=
  ptr.isValid = true ∧ ptr.isInvalidated = false ∧
    ((pa.getMemoryObjects node ptr = [] ∧ q = PointerNull ∧
        (pa.nodes ptr.target).zeroInitialized = true) ∨
      ∃ o ∈ pa.getMemoryObjects node ptr,
        specLoaded ptr (pa.objects o) q ∨
          (q = PointerNull ∧ (pa.nodes ptr.target).zeroInitialized = true ∧
            nothingStored ptr (pa.objects o)))

/-- The scenario "GEP overflow": node 10 is `p = alloc(16)`, node 11 is
`q = gep(p, 32)`. -/
def gepExample : PointerAnalysis where
  nodes := fun n =>
    if n = 10 then
      { type := PSNodeType.ALLOC, operands := [], successors := [], parent := 0,
        pointsTo := [⟨10, 0⟩], size := 16, offset := 0, len := 0,
        zeroInitialized := false, is_heap := false, is_global := false }
    else
      { type := PSNodeType.GEP, operands := [10], successors := [], parent := 0,
        pointsTo := [], size := 0, offset := 32, len := 0,
        zeroInitialized := false, is_heap := false, is_global := false }
  objects := fun n => { node := n, pointsTo := [] }
  getMemoryObjects := fun _ p => [p.target]
  max_offset := UNKNOWN
  invalidate_nodes := false
  reports := []

/-- A GEP whose offset addition overflows: node 10 is `p = alloc(16)`, node 12
is `gep(p, 8)` with `pt = {(p, 8)}`, node 11 is `gep(node 12, 2^64 - 8)`. -/
def gepWrapExample : PointerAnalysis where
  nodes := fun n =>
    if n = 10 then
      { type := PSNodeType.ALLOC, operands := [], successors := [], parent := 0,
        pointsTo := [⟨10, 0⟩], size := 16, offset := 0, len := 0,
        zeroInitialized := false, is_heap := false, is_global := false }
    else if n = 12 then
      { type := PSNodeType.GEP, operands := [10], successors := [], parent := 0,
        pointsTo := [⟨10, 8⟩], size := 0, offset := 8, len := 0,
        zeroInitialized := false, is_heap := false, is_global := false }
    else
      { type := PSNodeType.GEP, operands := [12], successors := [], parent := 0,
        pointsTo := [], size := 0, offset := 18446744073709551608, len := 0,
        zeroInitialized := false, is_heap := false, is_global := false }
  objects := fun n => { node := n, pointsTo := [] }
  getMemoryObjects := fun _ p => [p.target]
  max_offset := UNKNOWN
  invalidate_nodes := false
  reports := []

/-! ## Comparing the memory objects of two states -/

/-- Every pointer stored in `before` is stored under the same offset of the
same object in `after`. -/
def objectsGrow (before after : Nat → MemoryObject) : Prop :=
  ∀ o off q, q ∈ (before o).pointsTo.get off → q ∈ (after o).pointsTo.get off

/-- Some object of `after` stores a pointer under an offset where `before` did
not: an insertion changed an object. -/
def objectsGained (before after : Nat → MemoryObject) : Prop :=
  ∃ o off q, q ∈ (after o).pointsTo.get off ∧ q ∉ (before o).pointsTo.get off

/-! ## What CALL_FUNCPTR hands to the hooks, in the words of the spec -/

/-- The hook call for a pointer newly inserted at a CALL_FUNCPTR node: the
function-pointer callback with `(n, p.target)` when `p` is valid and not
invalidated, the invalid-function-call error otherwise. -/
def callFuncptrReport (node : Nat) (p : Pointer) : Report :=
  if p.isValid && !p.isInvalidated then Report.functionPointerCall node p.target
  else Report.invalidFunctionCall node

/-- A node with no operands, an empty points-to set and all flags off. -/
def PSNode.blank (type : PSNodeType) : PSNode :=
  { type := type, operands := [], successors := [], parent := 0, pointsTo := [],
    size := 0, offset := 0, len := 0, zeroInitialized := false, is_heap := false,
    is_global := false }

/-- The nodes of `main` in `tests/sources/global8.c`: node 20 is the function
`setA`, node 21 the variable `f`, node 22 the store `f = setA`, node 23 the load
of `f`, node 24 the call `f()` through the loaded pointer. -/
def global8Nodes (n : Nat) : PSNode :=
  if n = 20 then { PSNode.blank PSNodeType.FUNCTION with pointsTo := [⟨20, 0⟩] }
  else if n = 21 then { PSNode.blank PSNodeType.ALLOC with pointsTo := [⟨21, 0⟩], size := 8 }
  else if n = 22 then { PSNode.blank PSNodeType.STORE with operands := [20, 21] }
  else if n = 23 then { PSNode.blank PSNodeType.LOAD with operands := [21] }
  else if n = 24 then { PSNode.blank PSNodeType.CALL_FUNCPTR with operands := [23] }
  else if n = NULLPTR then
    { PSNode.blank PSNodeType.NULL_ADDR with pointsTo := [PointerNull] }
  else if n = UNKNOWN_MEMORY then
    { PSNode.blank PSNodeType.UNKNOWN_MEM with pointsTo := [PointerUnknown] }
  else if n = INVALIDATED then
    { PSNode.blank PSNodeType.INVALIDATED with pointsTo := [PointerInvalidated] }
  else PSNode.blank PSNodeType.NOOP

/-- The analysis of `main` of `global8.c` before any node is processed, with
the resolver of a flow-insensitive backend, `{ obj(pointer.target) }`. -/
def global8Example : PointerAnalysis where
  nodes := global8Nodes
  objects := fun n => { node := n, pointsTo := [] }
  getMemoryObjects := fun _ p => [p.target]
  max_offset := UNKNOWN
  invalidate_nodes := false
  reports := []

/-- The analysis of `main` of `global8.c` once `f = setA` is stored: the object
of `f` holds `(setA, 0)` under offset 0. -/
def global8Stored : PointerAnalysis :=
  { global8Example with
    objects := fun n =>
      if n = 21 then { node := 21, pointsTo := [(0, [⟨20, 0⟩])] }
      else { node := n, pointsTo := [] } }

/-- The scenario "zero-init load absence": node 10 is `p = alloc(8, zero_init)`,
node 11 is `x = *p`, nothing is stored. -/
def zeroInitExample : PointerAnalysis where
  nodes := fun n =>
    if n = 10 then
      { PSNode.blank PSNodeType.ALLOC with
        pointsTo := [⟨10, 0⟩], size := 8, zeroInitialized := true }
    else if n = 11 then { PSNode.blank PSNodeType.LOAD with operands := [10] }
    else PSNode.blank PSNodeType.NOOP
  objects := fun n => { node := n, pointsTo := [] }
  getMemoryObjects := fun _ p => [p.target]
  max_offset := UNKNOWN
  invalidate_nodes := false
  reports := []

/-- A load through an unknown pointer: node 12 is a PHI with
`pt = {(UNKNOWN_MEMORY, UNKNOWN)}`, node 11 is the load `x = *node12`. -/
def loadUnknownExample : PointerAnalysis where
  nodes := fun n =>
    if n = 12 then { PSNode.blank PSNodeType.PHI with pointsTo := [PointerUnknown] }
    else if n = 11 then { PSNode.blank PSNodeType.LOAD with operands := [12] }
    else if n = UNKNOWN_MEMORY then
      { PSNode.blank PSNodeType.UNKNOWN_MEM with pointsTo := [PointerUnknown] }
    else PSNode.blank PSNodeType.NOOP
  objects := fun n => { node := n, pointsTo := [] }
  getMemoryObjects := fun _ p => [p.target]
  max_offset := UNKNOWN
  invalidate_nodes := false
  reports := []

/-- A store through an unknown pointer: node 20 is a function with
`pt = {(20, 0)}`, node 12 a PHI with `pt = {(UNKNOWN_MEMORY, UNKNOWN)}`, node 22
the store `*node12 = node20`; the resolver is that of a flow-insensitive
backend, `{ obj(pointer.target) }`. -/
def storeUnknownExample : PointerAnalysis where
  nodes := fun n =>
    if n = 20 then { PSNode.blank PSNodeType.FUNCTION with pointsTo := [⟨20, 0⟩] }
    else if n = 12 then { PSNode.blank PSNodeType.PHI with pointsTo := [PointerUnknown] }
    else if n = 22 then { PSNode.blank PSNodeType.STORE with operands := [20, 12] }
    else if n = UNKNOWN_MEMORY then
      { PSNode.blank PSNodeType.UNKNOWN_MEM with pointsTo := [PointerUnknown] }
    else PSNode.blank PSNodeType.NOOP
  objects := fun n => { node := n, pointsTo := [] }
  getMemoryObjects := fun _ p => [p.target]
  max_offset := UNKNOWN
  invalidate_nodes := false
  reports := []

/-- Two call returns with `invalidate_nodes` enabled: node 10 is a local
allocation (neither heap nor global); node 30 is a RETURN with `pt = {(10, 0)}`
and node 31 the CALL_RETURN over it; node 32 is a RETURN with
`pt = {(NULLPTR, 0)}`, as after `return NULL`, and node 33 the CALL_RETURN
over it. -/
def callReturnExample : PointerAnalysis where
  nodes := fun n =>
    if n = 10 then { PSNode.blank PSNodeType.ALLOC with pointsTo := [⟨10, 0⟩], size := 8 }
    else if n = 30 then { PSNode.blank PSNodeType.RETURN with pointsTo := [⟨10, 0⟩] }
    else if n = 31 then { PSNode.blank PSNodeType.CALL_RETURN with operands := [30] }
    else if n = 32 then { PSNode.blank PSNodeType.RETURN with pointsTo := [PointerNull] }
    else if n = 33 then { PSNode.blank PSNodeType.CALL_RETURN with operands := [32] }
    else if n = NULLPTR then
      { PSNode.blank PSNodeType.NULL_ADDR with pointsTo := [PointerNull] }
    else PSNode.blank PSNodeType.NOOP
  objects := fun n => { node := n, pointsTo := [] }
  getMemoryObjects := fun _ p => [p.target]
  max_offset := UNKNOWN
  invalidate_nodes := true
  reports := []

/-- The scenario "memcpy of a zero-initialised object": node 40 is `src`, 64
bytes, not zero-initialised, whose object holds `&x` under offset 0 and `&y`
under offset 8; node 41 is `dst`, 64 bytes, zero-initialised; nodes 42 and 43
are `x` and `y`; node 44 is `memcpy(dst, src, 64)`. -/
def memcpyExample : PointerAnalysis where
  nodes := fun n =>
    if n = 40 then
      { PSNode.blank PSNodeType.ALLOC with pointsTo := [⟨40, 0⟩], size := 64 }
    else if n = 41 then
      { PSNode.blank PSNodeType.ALLOC with
        pointsTo := [⟨41, 0⟩], size := 64, zeroInitialized := true }
    else if n = 42 then { PSNode.blank PSNodeType.ALLOC with pointsTo := [⟨42, 0⟩], size := 8 }
    else if n = 43 then { PSNode.blank PSNodeType.ALLOC with pointsTo := [⟨43, 0⟩], size := 8 }
    else if n = 44 then
      { PSNode.blank PSNodeType.MEMCPY with operands := [40, 41], len := 64 }
    else PSNode.blank PSNodeType.NOOP
  objects := fun n =>
    if n = 40 then { node := 40, pointsTo := [(0, [⟨42, 0⟩]), (8, [⟨43, 0⟩])] }
    else { node := n, pointsTo := [] }
  getMemoryObjects := fun _ p => [p.target]
  max_offset := UNKNOWN
  invalidate_nodes := false
  reports := []

/-- The state in which the node `n` has the kind `t` and is otherwise as it
was: the same operands, the same points-to set. -/
def PointerAnalysis.setType (pa : PointerAnalysis) (n : Nat) (t : PSNodeType) :
    PointerAnalysis :=
  { pa with nodes := Function.update pa.nodes n { pa.nodes n with type := t } }

/-- A CALL_RETURN with `invalidate_nodes` disabled: node 30 is a RETURN with
`pt = {(10, 0)}`, node 34 a RETURN with `pt = {(NULLPTR, 0)}`, node 31 the
CALL_RETURN over both; node 35 is a cast of node 30. -/
def unionExample : PointerAnalysis where
  nodes := fun n =>
    if n = 10 then { PSNode.blank PSNodeType.ALLOC with pointsTo := [⟨10, 0⟩], size := 8 }
    else if n = 30 then { PSNode.blank PSNodeType.RETURN with pointsTo := [⟨10, 0⟩] }
    else if n = 34 then { PSNode.blank PSNodeType.RETURN with pointsTo := [PointerNull] }
    else if n = 31 then { PSNode.blank PSNodeType.CALL_RETURN with operands := [30, 34] }
    else if n = 35 then { PSNode.blank PSNodeType.CAST with operands := [30] }
    else PSNode.blank PSNodeType.NOOP
  objects := fun n => { node := n, pointsTo := [] }
  getMemoryObjects := fun _ p => [p.target]
  max_offset := UNKNOWN
  invalidate_nodes := false
  reports := []

/-! ## What MEMCPY copies, in the words of the spec -/

/-- The entry under offset `e` of a source object is copied, as the spec
defines it, for a source pointer with offset `srcOffset` and the length `len`:
`e == UNKNOWN`, or `srcOffset == UNKNOWN`, or `srcOffset <= e < srcOffset + len`
(a length `UNKNOWN` means no upper bound). -/
def specMemcpyCopied (srcOffset len e : Nat) : Prop :=
  e = UNKNOWN ∨ srcOffset = UNKNOWN ∨
    (srcOffset ≤ e ∧ (len = UNKNOWN ∨ e < srcOffset + len))

instance (srcOffset len e : Nat) : Decidable (specMemcpyCopied srcOffset len e) := by
  unfold specMemcpyCopied; exact inferInstance

/-- The offset under which a copied entry lands, as the spec defines it:
`e - srcOffset + destOffset` when the three are concrete, the sum does not
overflow 64 bits and is below the size of the destination allocation and below
`max_offset`; `UNKNOWN` in every other case. -/
def specMemcpyLanding (size max_offset srcOffset destOffset e : Nat) : Nat :=
  if e ≠ UNKNOWN ∧ srcOffset ≠ UNKNOWN ∧ destOffset ≠ UNKNOWN ∧
      e - srcOffset + destOffset < WORD ∧ e - srcOffset + destOffset < size ∧
      e - srcOffset + destOffset < max_offset then
    e - srcOffset + destOffset
  else UNKNOWN

/-! ## Comparing two states of the analysis -/

/-- The state `pb` differs from `pa` in the memory objects only, and these
have grown. -/
def sameButObjects (pa pb : PointerAnalysis) : Prop :=
  pb.nodes = pa.nodes ∧ pb.getMemoryObjects = pa.getMemoryObjects ∧
    pb.max_offset = pa.max_offset ∧ pb.invalidate_nodes = pa.invalidate_nodes ∧
    pb.reports = pa.reports ∧ objectsGrow pa.objects pb.objects

/-- The state `pb` differs from `pa` in the memory objects, which have grown,
and in zero-initialised flags, which were set and not cleared; every other
field of every node is the same. -/
def memcpyFrame (pa pb : PointerAnalysis) : Prop :=
  pb.getMemoryObjects = pa.getMemoryObjects ∧
    pb.max_offset = pa.max_offset ∧ pb.invalidate_nodes = pa.invalidate_nodes ∧
    pb.reports = pa.reports ∧ objectsGrow pa.objects pb.objects ∧
    ∀ m, ({ pb.nodes m with zeroInitialized := true } : PSNode) =
        { pa.nodes m with zeroInitialized := true } ∧
      ((pa.nodes m).zeroInitialized = true → (pb.nodes m).zeroInitialized = true)

/-- A memcpy whose source has no valid pointer: node 45 is a PHI with
`pt = {(NULLPTR, 0)}`, node 41 is `dst` with `pt = {(41, 0)}`, node 44 is
`memcpy(dst, node 45, 8)`; the resolver returns no memory object for any
pointer. -/
def memcpyNoSourceExample : PointerAnalysis where
  nodes := fun n =>
    if n = 45 then { PSNode.blank PSNodeType.PHI with pointsTo := [PointerNull] }
    else if n = 41 then
      { PSNode.blank PSNodeType.ALLOC with pointsTo := [⟨41, 0⟩], size := 16 }
    else if n = 44 then
      { PSNode.blank PSNodeType.MEMCPY with operands := [45, 41], len := 8 }
    else if n = NULLPTR then
      { PSNode.blank PSNodeType.NULL_ADDR with pointsTo := [PointerNull] }
    else PSNode.blank PSNodeType.NOOP
  objects := fun n => { node := n, pointsTo := [] }
  getMemoryObjects := fun _ _ => []
  max_offset := UNKNOWN
  invalidate_nodes := false
  reports := []

/-- The state `pb` is what one transfer step on `node` may leave of `pa`: no
other node has a different points-to set; a pointer of `pt(node)` is still
there, or has given way to the pointer to its target with offset `UNKNOWN`; no
node has changed its kind; the memory objects have grown. -/
def stepFrame (pa : PointerAnalysis) (node : Nat) (pb : PointerAnalysis) : Prop :=
  (∀ m, m ≠ node → pb.pt m = pa.pt m) ∧
    (∀ p ∈ pa.pt node, p ∈ pb.pt node ∨ (⟨p.target, UNKNOWN⟩ : Pointer) ∈ pb.pt node) ∧
    (∀ m, (pb.nodes m).type = (pa.nodes m).type) ∧
    objectsGrow pa.objects pb.objects

/-- The kinds of nodes that point to themselves: "these two always points to
itself" (source lines 393-398). -/
def PSNodeType.pointsToItself (t : PSNodeType) : Bool :=
  t == PSNodeType.ALLOC || t == PSNodeType.DYN_ALLOC || t == PSNodeType.FUNCTION

/-! # The dependence graph -/

/-- The type `ContainerType`, a `std::map<KeyT, NodeT *>`: keys in increasing
order, each with a node pointer (`none` is `nullptr`). -/
abbrev ContainerType := List (Nat × Option Nat)

/-- The call `cont->find(k)`: the pointer stored under `k`, or `none` for
`cont->end()`. -/
def ContainerType.find (c : ContainerType) (k : Nat) : Option (Option Nat) :=
  match c with
  | [] => none
  | e :: rest => if e.1 = k then some e.2 else ContainerType.find rest k

/-- The call `cont->insert(std::make_pair(k, n))`: an existing entry under `k`
is kept; the flag is `.second`. -/
def ContainerType.insert (c : ContainerType) (k : Nat) (n : Option Nat) :
    ContainerType × Bool :=
  match ContainerType.find c k with
  | some _ => (c, false)
  | none => (c.orderedInsert (fun a b => a.1 ≤ b.1) (k, n), true)

/-- The call `cont->erase(it)` for an iterator at the key `k`. -/
def ContainerType.erase (c : ContainerType) (k : Nat) : ContainerType :=
  c.filter (fun e => e.1 != k)

/-- Modelled from the spec: a formal parameter, `DGParameter<NodeT>` of a
header that is not among the sources, with its `in` and `out` node. -/
structure DGParameter where
  inNode : Option Nat
  outNode : Option Nat
deriving DecidableEq, Repr

/-- Modelled from the spec: the call `formalParameters->find(k)` of
`DGParameters<NodeT>`, whose header is not among the sources: the parameter
for the key `k`, or `none` for a null result. -/
def DGParameters.find (ps : List (Nat × DGParameter)) (k : Nat) : Option DGParameter :=
  match ps with
  | [] => none
  | e :: rest => if e.1 = k then some e.2 else DGParameters.find rest k

/-- The fields of a `DependenceGraph<NodeT>` (source lines 367-407). -/
structure DependenceGraph where
  nodes : ContainerType
  /-- The name of the shared container, `none` for `nullptr`. -/
  global_nodes : Option Nat
  entryNode : Option Nat
  exitNode : Option Nat
  formalParameters : Option (List (Nat × DGParameter))
  callers : List Nat
  refcount : Int
  own_global_nodes : Bool
  slice_id : Nat
deriving DecidableEq, Repr

/-- The constructor `DependenceGraph<NodeT>()` (source lines 34-42). -/
def DependenceGraph.new : DependenceGraph :=
  { nodes := [], global_nodes := none, entryNode := none, exitNode := none,
    formalParameters := none, callers := [], refcount := 1, own_global_nodes := false,
    slice_id := 0 }

/-- The graphs, containers and nodes that exist, and what was destroyed.

Modelled from the spec: `Node.h` is not among the sources; a node has a key
(`getKey`), a back-pointer to its owning graph (`getDG`, `setDG`) and edges,
kept here as pairs of nodes. -/
structure DGWorld where
  graphs : Nat → DependenceGraph
  containers : Nat → ContainerType
  nodeKey : Nat → Nat
  nodeDG : Nat → Option Nat
  edges : List (Nat × Nat)
  deletedNodes : List Nat
  deletedGraphs : List Nat
  deletedContainers : List Nat
  /-- The name that the next `new ContainerType()` returns. -/
  freshContainer : Nat

/-- Modelled from the spec: `Node::isolate()`, which severs all edges incident
to the node. -/
def DGWorld.isolate (w : DGWorld) (n : Nat) : DGWorld :=
  { w with edges := w.edges.filter (fun e => e.1 != n && e.2 != n) }

/-- The statement `delete n` on a node pointer; deleting `nullptr` does
nothing. -/
def DGWorld.deleteNodePtr (w : DGWorld) (n : Option Nat) : DGWorld :=
  match n with
  | none => w
  | some x => { w with deletedNodes := x :: w.deletedNodes }

/-- A `ContainerType *`: the member `nodes` of a graph, or a container
allocated with `new`. -/
inductive ContainerRef
  | nodes (g : Nat)
  | heap (c : Nat)
deriving DecidableEq, Repr

/-- The container behind a `ContainerType *`. -/
def DGWorld.container (w : DGWorld) : ContainerRef → ContainerType
  | ContainerRef.nodes g => (w.graphs g).nodes
  | ContainerRef.heap c => w.containers c

/-- The world with the container behind a `ContainerType *` replaced. -/
def DGWorld.setContainer (w : DGWorld) (ref : ContainerRef) (c : ContainerType) : DGWorld :=
  match ref with
  | ContainerRef.nodes g =>
    { w with graphs := Function.update w.graphs g { w.graphs g with nodes := c } }
  | ContainerRef.heap h => { w with containers := Function.update w.containers h c }

/-- The method `getGlobalNode` (source lines 94-103). -/
def DependenceGraph.getGlobalNode (w : DGWorld) (g k : Nat) : Option Nat :=
  match (w.graphs g).global_nodes with
  | some c =>
    match ContainerType.find (w.containers c) k with
    | some n => n
    | none => none
  | none => none

/-- The method `getNode` (source lines 79-92). -/
def DependenceGraph.getNode (w : DGWorld) (g k : Nat) : Option Nat :=
  match ContainerType.find (w.graphs g).nodes k with
  | some n => n
  | none =>
    match (w.graphs g).formalParameters with
    | some ps =>
      match DGParameters.find ps k with
      | some p => p.inNode
      | none => DependenceGraph.getGlobalNode w g k
    | none => DependenceGraph.getGlobalNode w g k

/-- The method `size` (source lines 105-108). -/
def DependenceGraph.size (w : DGWorld) (g : Nat) : Nat :=
  (w.graphs g).nodes.length

/-- The method `addNode(KeyT, NodeT *)` (source lines 226-233). -/
def DependenceGraph.addNode (w : DGWorld) (g k n : Nat) : DGWorld × Bool :=
  if (ContainerType.insert (w.graphs g).nodes k (some n)).2 then
    ({ w with
        graphs := Function.update w.graphs g
          { w.graphs g with nodes := (ContainerType.insert (w.graphs g).nodes k (some n)).1 },
        nodeDG := Function.update w.nodeDG n (some g) }, true)
  else (w, false)

/-- The method `_removeNode(iterator&, ContainerType *)` (source lines
377-384), for an iterator at the key `it`. -/
def DependenceGraph._removeNode_iterator (w : DGWorld) (it : Nat) (cont : ContainerRef) :
    Option (DGWorld × Option Nat) :=
  match ContainerType.find (w.container cont) it with
  | some (some n) =>
    some ((w.isolate n).setContainer cont (ContainerType.erase (w.container cont) it), some n)
  | _ => none

/-- The method `_removeNode(KeyT, ContainerType *)` (source lines 386-394). -/
def DependenceGraph._removeNode (w : DGWorld) (k : Nat) (cont : ContainerRef) :
    Option (DGWorld × Option Nat) :=
  match ContainerType.find (w.container cont) k with
  | none => some (w, none)
  | some _ => DependenceGraph._removeNode_iterator w k cont

/-- The method `removeNode(KeyT)` (source lines 272-275). -/
def DependenceGraph.removeNode (w : DGWorld) (g k : Nat) : Option (DGWorld × Option Nat) :=
  DependenceGraph._removeNode w k (ContainerRef.nodes g)

/-- The method `removeNode(NodeT *)` (source lines 277-280). -/
def DependenceGraph.removeNode_node (w : DGWorld) (g n : Nat) :
    Option (DGWorld × Option Nat) :=
  DependenceGraph.removeNode w g (w.nodeKey n)

/-- The method `removeNode(iterator&)` (source lines 282-285). -/
def DependenceGraph.removeNode_iterator (w : DGWorld) (g it : Nat) :
    Option (DGWorld × Option Nat) :=
  DependenceGraph._removeNode_iterator w it (ContainerRef.nodes g)

/-- The method `removeGlobalNode(KeyT)` (source lines 287-293). -/
def DependenceGraph.removeGlobalNode (w : DGWorld) (g k : Nat) :
    Option (DGWorld × Option Nat) :=
  match (w.graphs g).global_nodes with
  | none => some (w, none)
  | some c => DependenceGraph._removeNode w k (ContainerRef.heap c)

/-- The method `removeGlobalNode(iterator&)` (source lines 300-306). -/
def DependenceGraph.removeGlobalNode_iterator (w : DGWorld) (g it : Nat) :
    Option (DGWorld × Option Nat) :=
  match (w.graphs g).global_nodes with
  | none => some (w, none)
  | some c => DependenceGraph._removeNode_iterator w it (ContainerRef.heap c)

/-- The method `deleteNode(NodeT *)` (source lines 308-311): the pointer that
`removeNode` returns is converted to `bool`. -/
def DependenceGraph.deleteNode_node (w : DGWorld) (g n : Nat) : Option (DGWorld × Bool) :=
  match DependenceGraph.removeNode w g (w.nodeKey n) with
  | none => none
  | some r => some (r.1, r.2.isSome)

/-- The method `deleteNode(KeyT)` (source lines 313-319). -/
def DependenceGraph.deleteNode (w : DGWorld) (g k : Nat) : Option (DGWorld × Bool) :=
  match DependenceGraph.removeNode w g k with
  | none => none
  | some r => some (r.1.deleteNodePtr r.2, r.2.isSome)

/-- The method `deleteNode(iterator&)` (source lines 321-327). -/
def DependenceGraph.deleteNode_iterator (w : DGWorld) (g it : Nat) :
    Option (DGWorld × Bool) :=
  match DependenceGraph.removeNode_iterator w g it with
  | none => none
  | some r => some (r.1.deleteNodePtr r.2, r.2.isSome)

/-- The method `deleteGlobalNode(KeyT)` (source lines 329-335). -/
def DependenceGraph.deleteGlobalNode (w : DGWorld) (g k : Nat) : Option (DGWorld × Bool) :=
  match DependenceGraph.removeGlobalNode w g k with
  | none => none
  | some r => some (r.1.deleteNodePtr r.2, r.2.isSome)

/-- The method `deleteGlobalNode(NodeT *)` (source lines 337-340). -/
def DependenceGraph.deleteGlobalNode_node (w : DGWorld) (g n : Nat) :
    Option (DGWorld × Bool) :=
  DependenceGraph.deleteGlobalNode w g (w.nodeKey n)

/-- The method `deleteGlobalNode(iterator&)` (source lines 342-348). -/
def DependenceGraph.deleteGlobalNode_iterator (w : DGWorld) (g it : Nat) :
    Option (DGWorld × Bool) :=
  match DependenceGraph.removeGlobalNode_iterator w g it with
  | none => none
  | some r => some (r.1.deleteNodePtr r.2, r.2.isSome)

/-- A world with one graph, graph 0: its local nodes hold node 101 under key 1
and node 105 under key 5; its formal parameters have the `in` nodes 201 and
202 for the keys 1 and 2; the shared container 7 holds the nodes 301, 302, 303
under the keys 1, 2, 3. The key of a node is its name modulo 100. Nodes 101
and 105 are joined by an edge, and so are 105 and 303. -/
def dgExample : DGWorld where
  graphs := fun _ =>
    { DependenceGraph.new with
      nodes := [(1, some 101), (5, some 105)]
      global_nodes := some 7
      formalParameters := some [(1, ⟨some 201, none⟩), (2, ⟨some 202, none⟩)] }
  containers := fun c =>
    if c = 7 then [(1, some 301), (2, some 302), (3, some 303)] else []
  nodeKey := fun n => n % 100
  nodeDG := fun n => if n = 101 ∨ n = 105 then some 0 else none
  edges := [(101, 105), (105, 303)]
  deletedNodes := []
  deletedGraphs := []
  deletedContainers := []
  freshContainer := 8

/-! ## Callers and the reference count -/

/-- Modelled from the spec: `DGContainer<NodeT>::insert` of `ADT/DGContainer.h`,
which is not among the sources. The callers of a graph are a set of call-site
nodes; the insertion tells whether the node was new. -/
def DGContainer.insert (c : List Nat) (n : Nat) : List Nat × Bool :=
  if n ∈ c then (c, false) else (c ++ [n], true)

/-- The method `addCaller` (source line 354): `return callers.insert(sg);`. -/
def DependenceGraph.addCaller (w : DGWorld) (g sg : Nat) : DGWorld × Bool :=
  ({ w with
      graphs := Function.update w.graphs g
        { w.graphs g with callers := (DGContainer.insert (w.graphs g).callers sg).1 } },
    (DGContainer.insert (w.graphs g).callers sg).2)

/-- The calls `addCaller(c)` for the call sites of a list, one after the
other. -/
def DependenceGraph.addCallers (w : DGWorld) (g : Nat) : List Nat → DGWorld
  | [] => w
  | c :: cs => DependenceGraph.addCallers (DependenceGraph.addCaller w g c).1 g cs

/-- The greatest value of an `int`. -/
def INT_MAX : Int := 2147483647

/-- The least value of an `int`. -/
def INT_MIN : Int := -2147483648

/-- The value an `int` holds after an arithmetic result `x`: the result reduced
to 32 bits in two's complement. -/
def wrapInt (x : Int) : Int := (x + 2147483648) % 4294967296 - 2147483648

/-- The method `ref` (source lines 134-138). -/
def DependenceGraph.ref (w : DGWorld) (g : Nat) : DGWorld × Int :=
  ({ w with
      graphs := Function.update w.graphs g
        { w.graphs g with refcount := wrapInt ((w.graphs g).refcount + 1) } },
    wrapInt ((w.graphs g).refcount + 1))

/-- The statement `delete this` of a `DependenceGraph<NodeT>`: the destructor
(source lines 46-50) deletes the container of global nodes when the graph owns
it (deleting `nullptr` does nothing), then the graph is gone. -/
def DependenceGraph.deleteThis (w : DGWorld) (g : Nat) : DGWorld :=
  { w with
    deletedContainers :=
      if (w.graphs g).own_global_nodes then
        match (w.graphs g).global_nodes with
        | some c => c :: w.deletedContainers
        | none => w.deletedContainers
      else w.deletedContainers
    deletedGraphs := g :: w.deletedGraphs }

/-- The world with the reference count of the graph `g` replaced. -/
def DGWorld.setRefcount (w : DGWorld) (g : Nat) (c : Int) : DGWorld :=
  { w with graphs := Function.update w.graphs g { w.graphs g with refcount := c } }

/-- The method `unref` (source lines 142-153); the argument `deleteOnZero` is
`true` when the caller gives none. A failed assertion ends the run. -/
def DependenceGraph.unref (w : DGWorld) (g : Nat) (deleteOnZero : Bool) :
    Option (DGWorld × Int) :=
  let c := wrapInt ((w.graphs g).refcount - 1)
  if deleteOnZero = true ∧ c = 0 then
    some (DependenceGraph.deleteThis (w.setRefcount g c) g, 0)
  else if 0 ≤ c then some (w.setRefcount g c, c)
  else none

/-- A world in which every graph is freshly constructed and no container has
been allocated. -/
def DGWorld.fresh : DGWorld where
  graphs := fun _ => DependenceGraph.new
  containers := fun _ => []
  nodeKey := fun n => n
  nodeDG := fun _ => none
  edges := []
  deletedNodes := []
  deletedGraphs := []
  deletedContainers := []
  freshContainer := 0

/-! ## The shared container of global nodes -/

/-- The expression `new ContainerType()`: an empty container under a name not
used before. -/
def DGWorld.newContainer (w : DGWorld) : DGWorld × Nat :=
  ({ w with
      containers := Function.update w.containers w.freshContainer []
      freshContainer := w.freshContainer + 1 },
    w.freshContainer)

/-- The method `getGlobalNodes` (source lines 210-213). -/
def DependenceGraph.getGlobalNodes (w : DGWorld) (g : Nat) : Option Nat :=
  (w.graphs g).global_nodes

/-- The method `ownsGlobalNodes` (source line 350). -/
def DependenceGraph.ownsGlobalNodes (w : DGWorld) (g : Nat) : Bool :=
  (w.graphs g).own_global_nodes

/-- The method `setGlobalNodes` (source lines 183-188): the pointer is
replaced and the old one returned; `own_global_nodes` is left as it is. -/
def DependenceGraph.setGlobalNodes (w : DGWorld) (g : Nat) (ngn : Option Nat) :
    DGWorld × Option Nat :=
  ({ w with graphs := Function.update w.graphs g { w.graphs g with global_nodes := ngn } },
    (w.graphs g).global_nodes)

/-- The world in which the graph `g` has allocated a container of its own:
`global_nodes = new ContainerType(); own_global_nodes = true;` (source lines
194-195 and 247-248). -/
def DGWorld.allocGlobalNodes (w : DGWorld) (g : Nat) : DGWorld :=
  { w.newContainer.1 with
    graphs := Function.update w.graphs g
      { w.graphs g with
        global_nodes := some w.newContainer.2
        own_global_nodes := true } }

/-- The method `createGlobalNodes` (source lines 191-198); the assertion fails
when the graph has a container already. -/
def DependenceGraph.createGlobalNodes (w : DGWorld) (g : Nat) :
    Option (DGWorld × Option Nat) :=
  match (w.graphs g).global_nodes with
  | some _ => none
  | none => some (w.allocGlobalNodes g, DependenceGraph.getGlobalNodes (w.allocGlobalNodes g) g)

/-- The value of `owner` in `addGlobalNode` (source lines 251-258) for a graph
whose container is `c`: the graph itself when it owns the container, else the
graph of the first node of the container. The outer `none` stands for the
dereference of `begin()` of an empty container or of a null node pointer. -/
def DependenceGraph.globalOwner (w : DGWorld) (g c : Nat) : Option (Option Nat) :=
  if (w.graphs g).own_global_nodes then some (some g)
  else
    match w.containers c with
    | (_, some tmp) :: _ => some (w.nodeDG tmp)
    | _ => none

/-- The method `addGlobalNode(KeyT, NodeT *)` (source lines 244-265). -/
def DependenceGraph.addGlobalNode (w : DGWorld) (g k n : Nat) : Option (DGWorld × Bool) :=
  let w1 := if (w.graphs g).global_nodes = none then w.allocGlobalNodes g else w
  match (w1.graphs g).global_nodes with
  | none => none
  | some c =>
    match DependenceGraph.globalOwner w1 g c with
    | none => none
    | some owner =>
      if (ContainerType.insert (w1.containers c) k (some n)).2 then
        some ({ w1 with
          containers := Function.update w1.containers c
            (ContainerType.insert (w1.containers c) k (some n)).1
          nodeDG := Function.update w1.nodeDG n owner }, true)
      else some (w1, false)

/-- A family of dependence graphs together with the record of which graph
allocated which container of global nodes. -/
structure GlobalsFamily where
  world : DGWorld
  /-- The pairs (container, graph) of the allocations made so far. -/
  creator : List (Nat × Nat)

/-- A call of one of the three methods that touch the pointer to the global
nodes of a graph. -/
inductive GlobalsCall
  | createGlobalNodes (g : Nat)
  | setGlobalNodes (g : Nat) (ngn : Option Nat)
  | addGlobalNode (g k n : Nat)
deriving DecidableEq, Repr

/-- The graph on which a call is made. -/
def GlobalsCall.graph : GlobalsCall → Nat
  | GlobalsCall.createGlobalNodes g => g
  | GlobalsCall.setGlobalNodes g _ => g
  | GlobalsCall.addGlobalNode g _ _ => g

/-- The world after a call; `none` when an assertion fails or a pointer that
points at nothing is dereferenced. -/
def GlobalsCall.world (w : DGWorld) : GlobalsCall → Option DGWorld
  | GlobalsCall.createGlobalNodes g => (DependenceGraph.createGlobalNodes w g).map Prod.fst
  | GlobalsCall.setGlobalNodes g ngn => some (DependenceGraph.setGlobalNodes w g ngn).1
  | GlobalsCall.addGlobalNode g k n => (DependenceGraph.addGlobalNode w g k n).map Prod.fst

/-- One call on a family: the world changes as the method says, and an
allocation made during the call is recorded for the graph that was called. -/
def GlobalsCall.run (s : GlobalsFamily) (call : GlobalsCall) : Option GlobalsFamily :=
  match call.world s.world with
  | none => none
  | some w2 =>
    some { world := w2
           creator :=
             if w2.freshContainer = s.world.freshContainer then s.creator
             else (s.world.freshContainer, call.graph) :: s.creator }

/-- A sequence of calls on a family, front to back. -/
def GlobalsCall.runAll (s : GlobalsFamily) : List GlobalsCall → Option GlobalsFamily
  | [] => some s
  | call :: rest =>
    match call.run s with
    | none => none
    | some s2 => GlobalsCall.runAll s2 rest

/-- The claim on the owner of the shared container, in the words of the spec:
every container that some graph references has exactly one graph that owns it
and references it, and a graph that owns references a container it allocated
itself. -/
def singleOwner (s : GlobalsFamily) : Prop :=
  (∀ g c, (s.world.graphs g).global_nodes = some c →
    ∃ o, ((s.world.graphs o).own_global_nodes = true ∧
        (s.world.graphs o).global_nodes = some c) ∧
      ∀ o2, (s.world.graphs o2).own_global_nodes = true ∧
        (s.world.graphs o2).global_nodes = some c → o2 = o) ∧
  (∀ g, (s.world.graphs g).own_global_nodes = true →
    ∃ c, (s.world.graphs g).global_nodes = some c ∧ (c, g) ∈ s.creator)

/-- What the methods leave to their caller: `setGlobalNodes` is called on a
graph that does not own a container, with `nullptr` or with the container of a
graph of the family. -/
def GlobalsCall.sharesOnly (w : DGWorld) : GlobalsCall → Prop
  | GlobalsCall.setGlobalNodes g ngn =>
    (w.graphs g).own_global_nodes = false ∧
      (ngn = none ∨ ∃ o, (w.graphs o).global_nodes = ngn)
  | _ => True

/-- Every call of a sequence is made as `sharesOnly` says, in the state in
which it is made. -/
def GlobalsCall.allShareOnly (s : GlobalsFamily) : List GlobalsCall → Prop
  | [] => True
  | call :: rest =>
    call.sharesOnly s.world ∧
      match call.run s with
      | none => True
      | some s2 => GlobalsCall.allShareOnly s2 rest

/-- The family of freshly constructed graphs of a world. -/
def GlobalsFamily.fresh : GlobalsFamily := { world := DGWorld.fresh, creator := [] }

/-- What holds of a family between calls that are made as `sharesOnly` says: a
graph that owns references a container that the record gives to it; a
container of the record is owned and referenced by the graph that allocated
it; every referenced container is in the record; the containers of the record
have names that are used up; and the record gives a container to one graph
only. -/
def globalsInv (s : GlobalsFamily) : Prop :=
  (∀ g, (s.world.graphs g).own_global_nodes = true →
    ∃ c, (s.world.graphs g).global_nodes = some c ∧ (c, g) ∈ s.creator) ∧
  (∀ c o, (c, o) ∈ s.creator →
    (s.world.graphs o).own_global_nodes = true ∧ (s.world.graphs o).global_nodes = some c) ∧
  (∀ g c, (s.world.graphs g).global_nodes = some c → ∃ o, (c, o) ∈ s.creator) ∧
  (∀ c o, (c, o) ∈ s.creator → c < s.world.freshContainer) ∧
  (∀ c o o2, (c, o) ∈ s.creator → (c, o2) ∈ s.creator → o = o2)

/-! ## Lookups that insert -/

/-- The expression `nodes[k]` of a `std::map`: when the key has no entry, an
entry with a null pointer is inserted; the result is the world and the pointer
stored under `k`. -/
def DependenceGraph.nodesAt (w : DGWorld) (g k : Nat) : DGWorld × Option Nat :=
  match ContainerType.find (w.graphs g).nodes k with
  | some n => (w, n)
  | none =>
    ({ w with
        graphs := Function.update w.graphs g
          { w.graphs g with nodes := (ContainerType.insert (w.graphs g).nodes k none).1 } },
      none)

/-- The method `operator[]` (source line 58): `return nodes[k];`. -/
def DependenceGraph.subscript (w : DGWorld) (g k : Nat) : DGWorld × Option Nat :=
  DependenceGraph.nodesAt w g k

/-- The method `getRef` (source line 61): `return nodes[k];`, a reference to
the pointer stored under `k`, whose value is given here. -/
def DependenceGraph.getRef (w : DGWorld) (g k : Nat) : DGWorld × Option Nat :=
  DependenceGraph.nodesAt w g k

/-- The method `contains` (source line 62): `nodes.count(k) != 0`. -/
def DependenceGraph.contains (w : DGWorld) (g k : Nat) : Bool :=
  (ContainerType.find (w.graphs g).nodes k).isSome

/-- The key `k` has a node in the local nodes of the graph `g`. -/
def hasLocalNode (w : DGWorld) (g k : Nat) : Prop :=
  ∃ n, ContainerType.find (w.graphs g).nodes k = some (some n)

/-- The key `k` has a formal parameter in the graph `g`. -/
def hasFormalParameter (w : DGWorld) (g k : Nat) : Prop :=
  ∃ ps p, (w.graphs g).formalParameters = some ps ∧ DGParameters.find ps k = some p

/-- The key `k` has a node in the shared global nodes of the graph `g`. -/
def hasGlobalNode (w : DGWorld) (g k : Nat) : Prop :=
  ∃ c n, (w.graphs g).global_nodes = some c ∧
    ContainerType.find (w.containers c) k = some (some n)

/-- No place in which `getNode` looks for the key `k` holds a null pointer:
not the local entry, not the `in` node of the formal parameter, not the entry
of the shared global nodes. -/
def noNullEntry (w : DGWorld) (g k : Nat) : Prop :=
  ContainerType.find (w.graphs g).nodes k ≠ some none ∧
  (∀ ps p, (w.graphs g).formalParameters = some ps → DGParameters.find ps k = some p →
    p.inNode ≠ none) ∧
  (∀ c, (w.graphs g).global_nodes = some c →
    ContainerType.find (w.containers c) k ≠ some none)

/-! # The slicing driver -/

/-- A `std::set<LLVMNode *>`, the set `callsites` of `slice`; a node pointer is
an `Option`, `none` being `nullptr`. The order of the list is not the order in
which the source visits the set (that of the addresses); only membership is
meant. -/
abbrev NodeSet := List (Option Nat)

/-- The call `callsites.insert(n)`. -/
def NodeSet.insert (S : NodeSet) (n : Option Nat) : NodeSet :=
  if n ∈ S then S else S ++ [n]

/-- Modelled from the spec: what `slice` reads of its `LLVMDependenceGraph`,
whose header `llvm/LLVMDependenceGraph.h` is not among the sources, after the
graph is built and the points-to analysis has run: the method
`getCallSites(names, &callsites)`, given by the set it leaves in `callsites`
and the flag it returns, and the value of `getExit()`, the exit node of the
entry procedure. -/
structure LLVMDependenceGraph where
  getCallSites : List String → NodeSet → NodeSet × Bool
  getExit : Option Nat

/-- Modelled from the spec: `LLVMDependenceGraph::getCallSites` for a graph
whose call sites are the pairs (name of the called function, node): the call
sites that call a function of one of the names are inserted into the set, and
the result tells whether the set holds a call site. -/
def getCallSitesOf (calls : List (String × Nat)) (names : List String) (callsites : NodeSet) :
    NodeSet × Bool :=
  let found := calls.foldl
    (fun S c => if c.1 ∈ names then NodeSet.insert S (some c.2) else S) callsites
  (found, !found.isEmpty)

/-- What a run of `slice` shows: the value it returns and the start nodes it
hands to `Slicer::mark` (source lines 114-115). -/
structure SliceRun where
  result : Bool
  marked : NodeSet
deriving DecidableEq, Repr

/-- The function `slice` (source lines 34-127), as far as the slicing criterion
decides it (lines 62-85 and 113-126); `d` is the graph after lines 41-58. -/
def slice (d : LLVMDependenceGraph) (slicing_criterion : String) : SliceRun :=
  let sc := [slicing_criterion, "klee_assume"]
  let found := d.getCallSites sc []
  if !found.2 then
    if slicing_criterion = "ret" then
      { result := true, marked := NodeSet.insert found.1 d.getExit }
    else { result := false, marked := [] }
  else { result := true, marked := found.1 }

/-- The exit code of `main` (source lines 197-250). The criterion is `none`
when the command line names none; the module is `none` when the command line
names none or `ParseIRFile` fails, else it is given by the graph that `slice`
builds of it. `write_module` always returns true. -/
def main (slicing_criterion : Option String) (module : Option LLVMDependenceGraph) : Nat :=
  match slicing_criterion, module with
  | some c, some M => if !(slice M c).result then 1 else 0
  | _, _ => 1

/-- A module that calls `klee_assume` at the node 5 and whose entry procedure
has the exit node 9. -/
def kleeAssumeModule : LLVMDependenceGraph where
  getCallSites := getCallSitesOf [("klee_assume", 5)]
  getExit := some 9

/-- A module that calls the function `foo` at the node 4 and nothing else, and
whose entry procedure has the exit node 9. -/
def fooModule : LLVMDependenceGraph where
  getCallSites := getCallSitesOf [("foo", 4)]
  getExit := some 9

/-- A memcpy of a whole zero-initialised source into a destination of the same
size: node 40 is `src`, 8 bytes, zero-initialised; node 41 is `dst`, 8 bytes,
not zero-initialised; node 44 is `memcpy(dst, src, 8)`; nothing is stored in
either object. -/
def memcpyFlagExample : PointerAnalysis where
  nodes := fun n =>
    if n = 40 then
      { PSNode.blank PSNodeType.ALLOC with
        pointsTo := [⟨40, 0⟩], size := 8, zeroInitialized := true }
    else if n = 41 then
      { PSNode.blank PSNodeType.ALLOC with pointsTo := [⟨41, 0⟩], size := 8 }
    else if n = 44 then
      { PSNode.blank PSNodeType.MEMCPY with operands := [40, 41], len := 8 }
    else PSNode.blank PSNodeType.NOOP
  objects := fun n => { node := n, pointsTo := [] }
  getMemoryObjects := fun _ p => [p.target]
  max_offset := UNKNOWN
  invalidate_nodes := false
  reports := []

/-- A GEP over a source with two pointers to one target: node 10 is
`p = alloc(16)`, node 12 is a PHI with `pt = {(p, 0), (p, 8)}`, node 11 is
`gep(node 12, 8)` with an empty points-to set. The pointer `(p, 0)` is shifted
to `(p, 8)`, in range; `(p, 8)` is shifted to offset 16, out of range. -/
def gepMixedExample : PointerAnalysis where
  nodes := fun n =>
    if n = 10 then { PSNode.blank PSNodeType.ALLOC with pointsTo := [⟨10, 0⟩], size := 16 }
    else if n = 12 then
      { PSNode.blank PSNodeType.PHI with pointsTo := [⟨10, 0⟩, ⟨10, 8⟩] }
    else if n = 11 then
      { PSNode.blank PSNodeType.GEP with operands := [12], offset := 8 }
    else PSNode.blank PSNodeType.NOOP
  objects := fun n => { node := n, pointsTo := [] }
  getMemoryObjects := fun _ p => [p.target]
  max_offset := UNKNOWN
  invalidate_nodes := false
  reports := []

/-- The same GEP over a source whose pointers are both shifted in range: node
12 has `pt = {(p, 0), (p, 4)}`. -/
def gepInRangeExample : PointerAnalysis :=
  gepMixedExample.setPointsTo 12 [⟨10, 0⟩, ⟨10, 4⟩]

/-- The accumulator `b`, reached from `a` in a transfer function, has recorded
every change of the points-to set: when `changed` is false in `b`, it was
false in `a` and the points-to set is the same. -/
def NodeAcc.recorded (a b : NodeAcc) : Prop :=
  b.changed = false → a.changed = false ∧ b.pointsTo = a.pointsTo

/-- The points-to sets of all nodes and the memory objects are the same in the
two states. -/
def unchangedState (pa pb : PointerAnalysis) : Prop :=
  (∀ m, pb.pt m = pa.pt m) ∧ pb.objects = pa.objects

/-- A load through `ptr` finds nothing to read in the object `o`, so that the
empty-points-to error is raised when the target is not zero-initialised: with
an `UNKNOWN` offset the object is empty and is the only object resolved
(source lines 92-96); with a concrete offset the object has no entry under the
offset and none under `UNKNOWN` (source lines 113-122). -/
def nothingToRead (nobjects : Nat) (ptr : Pointer) (o : MemoryObject) : Prop :=
  if ptr.offset = UNKNOWN then o.pointsTo.isEmpty = true ∧ nobjects = 1
  else o.pointsTo.count ptr.offset = false ∧ o.pointsTo.count UNKNOWN = false

/-- A load from an allocation that is not zero-initialised and whose object
holds `NULLPTR` under the offset `UNKNOWN` only: node 10 is `p = alloc(8)`,
node 11 is `x = *p`. -/
def loadNullUnknownExample : PointerAnalysis where
  nodes := fun n =>
    if n = 10 then { PSNode.blank PSNodeType.ALLOC with pointsTo := [⟨10, 0⟩], size := 8 }
    else if n = 11 then { PSNode.blank PSNodeType.LOAD with operands := [10] }
    else PSNode.blank PSNodeType.NOOP
  objects := fun n =>
    if n = 10 then { node := 10, pointsTo := [(UNKNOWN, [PointerNull])] }
    else { node := n, pointsTo := [] }
  getMemoryObjects := fun _ p => [p.target]
  max_offset := UNKNOWN
  invalidate_nodes := false
  reports := []

/-- The keys of the map of a memory object, in the order of iteration. -/
def OffsetMap.keys (m : OffsetMap) : List Nat := m.map Prod.fst

/-- The invariant of a `std::map<Offset, PointsToSet>`: one entry for a key,
the entries in ascending order of the keys, every key a 64-bit value. -/
def OffsetMap.ordered (m : OffsetMap) : Prop :=
  m.keys.Pairwise (fun a b => a < b) ∧ ∀ k ∈ m.keys, k < WORD

instance (m : OffsetMap) : Decidable m.ordered := by
  unfold OffsetMap.ordered; exact inferInstance

/-- The key `k` comes after the position `cursor` of an iterator. -/
def afterCursor (cursor : Option Nat) (k : Nat) : Prop :=
  ∀ c, cursor = some c → c < k

/-- What the loops of `processMemcpy` keep of a state: `max_offset`, the size
of the allocation of every memory object, and the invariant of every map. -/
def memcpyInv (size_of : Nat → Nat) (max_offset : Nat) (p : PointerAnalysis) : Prop :=
  p.max_offset = max_offset ∧ (∀ o, (p.nodes (p.objects o).node).size = size_of o) ∧
    ∀ o, (p.objects o).pointsTo.ordered

/-- The flag `contains_null_somewhere` of `processMemcpy` (source lines
209-226): the source allocation is zero-initialised and the copy is not one of
the whole source object into a destination of the same size. -/
def memcpyNullSomewhere (pa : PointerAnalysis) (sptr dptr : Pointer) (len : Nat) : Prop :=
  (pa.nodes sptr.target).zeroInitialized = true ∧
    ¬ ((pa.nodes sptr.target).size ≠ UNKNOWN ∧
      (pa.nodes sptr.target).size = (pa.nodes dptr.target).size ∧
      len = (pa.nodes sptr.target).size ∧ sptr.offset = 0)

/-! # Properties -/

/-! ## Points-to sets -/

theorem mem_insert (S : PointsToSet) (p q : Pointer) :
    q ∈ (S.insert p).1 ↔ q ∈ S ∨ q = p := by
  unfold PointsToSet.insert
  by_cases h : p ∈ S
  · simp only [h, if_true]
    constructor
    · intro hq; exact Or.inl hq
    · rintro (hq | rfl)
      · exact hq
      · exact h
  · simp only [h, if_false, List.mem_orderedInsert]
    tauto

theorem insert_snd (S : PointsToSet) (p : Pointer) :
    (S.insert p).2 = true ↔ p ∉ S := by
  unfold PointsToSet.insert
  by_cases h : p ∈ S <;> simp [h]

theorem insert_of_mem (S : PointsToSet) (p : Pointer) (h : p ∈ S) :
    S.insert p = (S, false) := by
  unfold PointsToSet.insert
  simp [h]

theorem mem_eraseConcrete (t : Nat) (S : PointsToSet) (q : Pointer) :
    q ∈ (eraseConcrete t S).1 ↔ q ∈ S ∧ ¬ (q.target = t ∧ q.offset ≠ UNKNOWN) := by
  induction S with
  | nil => simp [eraseConcrete]
  | cons cur rest ih =>
    unfold eraseConcrete
    by_cases h : cur.target = t ∧ cur.offset ≠ UNKNOWN
    · rw [if_pos h]
      simp only [ih, List.mem_cons]
      constructor
      · rintro ⟨h1, h2⟩; exact ⟨Or.inr h1, h2⟩
      · rintro ⟨h1 | h1, h2⟩
        · subst h1; exact absurd h h2
        · exact ⟨h1, h2⟩
    · rw [if_neg h]
      simp only [List.mem_cons, ih]
      constructor
      · rintro (h1 | ⟨h1, h2⟩)
        · subst h1; exact ⟨Or.inl rfl, h⟩
        · exact ⟨Or.inr h1, h2⟩
      · rintro ⟨h1 | h1, h2⟩
        · exact Or.inl h1
        · exact Or.inr ⟨h1, h2⟩

theorem eraseConcrete_snd (t : Nat) (S : PointsToSet) :
    (eraseConcrete t S).2 = true ↔ ∃ q ∈ S, q.target = t ∧ q.offset ≠ UNKNOWN := by
  induction S with
  | nil => simp [eraseConcrete]
  | cons cur rest ih =>
    unfold eraseConcrete
    by_cases h : cur.target = t ∧ cur.offset ≠ UNKNOWN
    · rw [if_pos h]
      simp only [true_iff]
      exact ⟨cur, List.mem_cons_self _ _, h⟩
    · rw [if_neg h]
      simp only [ih, List.mem_cons]
      constructor
      · rintro ⟨q, hq, hc⟩; exact ⟨q, Or.inr hq, hc⟩
      · rintro ⟨q, hq | hq, hc⟩
        · subst hq; exact absurd hc h
        · exact ⟨q, hq, hc⟩

theorem eraseConcrete_of_none (t : Nat) (S : PointsToSet)
    (h : ∀ q ∈ S, ¬ (q.target = t ∧ q.offset ≠ UNKNOWN)) :
    eraseConcrete t S = (S, false) := by
  induction S with
  | nil => rfl
  | cons cur rest ih =>
    unfold eraseConcrete
    have hc := h cur (List.mem_cons_self _ _)
    have hr := ih (fun q hq => h q (List.mem_cons_of_mem _ hq))
    rw [if_neg hc, hr]

theorem mem_addPointsToUnknownOffset (S : PointsToSet) (t : Nat) (q : Pointer) :
    q ∈ (addPointsToUnknownOffset S t).1 ↔
      (q ∈ S ∧ ¬ (q.target = t ∧ q.offset ≠ UNKNOWN)) ∨ q = ⟨t, UNKNOWN⟩ := by
  unfold addPointsToUnknownOffset
  simp only [mem_insert, mem_eraseConcrete]

/-! ## GEP -/

theorem gepNewOffset_concrete (o k : Nat) (ho : o ≠ UNKNOWN) (hk : k ≠ UNKNOWN)
    (h : o + k < WORD) : gepNewOffset o k = o + k := by
  unfold gepNewOffset u64add
  rw [if_neg (by tauto), Nat.mod_eq_of_lt h]

theorem gepNewOffset_unknown (o k : Nat) (h : o = UNKNOWN ∨ k = UNKNOWN) :
    gepNewOffset o k = UNKNOWN := by
  unfold gepNewOffset
  rw [if_pos h]

theorem processGepStep_inRange (size_of : Nat → Nat) (max_offset k : Nat)
    (acc : PointsToSet × Bool) (ptr : Pointer)
    (h : gepInRange size_of max_offset ptr.target (gepNewOffset ptr.offset k)) :
    processGepStep size_of max_offset k acc ptr =
      ((addPointsTo acc.1 ⟨ptr.target, gepNewOffset ptr.offset k⟩).1,
        acc.2 || (addPointsTo acc.1 ⟨ptr.target, gepNewOffset ptr.offset k⟩).2) := by
  unfold processGepStep
  simp only [h, if_true]

theorem processGepStep_outOfRange (size_of : Nat → Nat) (max_offset k : Nat)
    (acc : PointsToSet × Bool) (ptr : Pointer)
    (h : ¬ gepInRange size_of max_offset ptr.target (gepNewOffset ptr.offset k)) :
    processGepStep size_of max_offset k acc ptr =
      ((addPointsToUnknownOffset acc.1 ptr.target).1,
        acc.2 || (addPointsToUnknownOffset acc.1 ptr.target).2) := by
  unfold processGepStep
  simp only [h, if_false]

/-- A pointer to `t` that is in the set stays, or gives way to `(t, UNKNOWN)`,
in one step of the loop of `processGep`. -/
theorem processGepStep_keeps (size_of : Nat → Nat) (max_offset k : Nat)
    (acc : PointsToSet × Bool) (ptr x : Pointer)
    (h : (⟨x.target, UNKNOWN⟩ : Pointer) ∈ acc.1 ∨ x ∈ acc.1) :
    (⟨x.target, UNKNOWN⟩ : Pointer) ∈ (processGepStep size_of max_offset k acc ptr).1 ∨
      x ∈ (processGepStep size_of max_offset k acc ptr).1 := by
  by_cases hr : gepInRange size_of max_offset ptr.target (gepNewOffset ptr.offset k)
  · rw [processGepStep_inRange _ _ _ _ _ hr]
    simp only [addPointsTo, mem_insert]
    tauto
  · rw [processGepStep_outOfRange _ _ _ _ _ hr]
    simp only [mem_addPointsToUnknownOffset]
    rcases h with h | h
    · left; left
      exact ⟨h, fun hc => hc.2 rfl⟩
    · by_cases hx : x.target = ptr.target ∧ x.offset ≠ UNKNOWN
      · left; right; rw [hx.1]
      · right; left; exact ⟨h, hx⟩

theorem processGepLoop_keeps (size_of : Nat → Nat) (max_offset k : Nat)
    (source : List Pointer) (acc : PointsToSet × Bool) (x : Pointer)
    (h : (⟨x.target, UNKNOWN⟩ : Pointer) ∈ acc.1 ∨ x ∈ acc.1) :
    (⟨x.target, UNKNOWN⟩ : Pointer) ∈
        (source.foldl (processGepStep size_of max_offset k) acc).1 ∨
      x ∈ (source.foldl (processGepStep size_of max_offset k) acc).1 := by
  induction source generalizing acc with
  | nil => exact h
  | cons ptr rest ih =>
    rw [List.foldl_cons]
    exact ih _ (processGepStep_keeps _ _ _ _ _ _ h)

/-- After the loop of `processGep`, every pointer `ptr` of the source has left
`(ptr.target, UNKNOWN)` in the set, or its shifted offset was in range and the
shifted pointer is in the set. -/
theorem processGepLoop_covers (size_of : Nat → Nat) (max_offset k : Nat)
    (source : List Pointer) (acc : PointsToSet × Bool) (ptr : Pointer)
    (h : ptr ∈ source) :
    (⟨ptr.target, UNKNOWN⟩ : Pointer) ∈
        (source.foldl (processGepStep size_of max_offset k) acc).1 ∨
      (gepInRange size_of max_offset ptr.target (gepNewOffset ptr.offset k) ∧
        (⟨ptr.target, gepNewOffset ptr.offset k⟩ : Pointer) ∈
          (source.foldl (processGepStep size_of max_offset k) acc).1) := by
  induction source generalizing acc with
  | nil => exact absurd h (List.not_mem_nil _)
  | cons p rest ih =>
    rw [List.foldl_cons]
    rcases List.mem_cons.mp h with rfl | hrest
    · by_cases hr : gepInRange size_of max_offset ptr.target (gepNewOffset ptr.offset k)
      · have hin : (⟨ptr.target, gepNewOffset ptr.offset k⟩ : Pointer) ∈
            (processGepStep size_of max_offset k acc ptr).1 := by
          rw [processGepStep_inRange _ _ _ _ _ hr]
          simp [addPointsTo, mem_insert]
        rcases processGepLoop_keeps size_of max_offset k rest _
          ⟨ptr.target, gepNewOffset ptr.offset k⟩ (Or.inr hin) with h1 | h1
        · exact Or.inl h1
        · exact Or.inr ⟨hr, h1⟩
      · have hin : (⟨ptr.target, UNKNOWN⟩ : Pointer) ∈
            (processGepStep size_of max_offset k acc ptr).1 := by
          rw [processGepStep_outOfRange _ _ _ _ _ hr]
          simp [mem_addPointsToUnknownOffset]
        rcases processGepLoop_keeps size_of max_offset k rest _
          ⟨ptr.target, UNKNOWN⟩ (Or.inr hin) with h1 | h1
        · exact Or.inl h1
        · exact Or.inl h1
    · exact ih _ hrest

theorem pt_setPointsTo_same (pa : PointerAnalysis) (n : Nat) (S : PointsToSet) :
    (pa.setPointsTo n S).pt n = S := by
  simp [PointerAnalysis.pt, PointerAnalysis.setPointsTo]

theorem pt_setPointsTo_other (pa : PointerAnalysis) (n m : Nat) (S : PointsToSet)
    (h : m ≠ n) : (pa.setPointsTo n S).pt m = pa.pt m := by
  simp [PointerAnalysis.pt, PointerAnalysis.setPointsTo, Function.update_noteq h]

/-- C1: the GEP transfer. For a GEP node with offset `k` and a pointer `(t, o)`
of `pt(op0)`: when `o` and `k` are concrete and `o + k` does not overflow, the
loop body inserts `(t, o + k)` if `(o + k == 0 || o + k < size(t))` and
`o + k < max_offset`, and otherwise replaces the pointers to `t` by
`(t, UNKNOWN)`; when `o` or `k` is `UNKNOWN` it replaces them by `(t, UNKNOWN)`.
`processGep` returns, and afterwards `pt(n)` holds `(t, UNKNOWN)` or the shifted
pointer that was in range. For `p = alloc(16); q = gep(p, 32)` the result is
`pt(q) = {(p, UNKNOWN)}`. -/
theorem processGep_transfer (pa : PointerAnalysis) (node source t o : Nat)
    (acc : PointsToSet × Bool)
    (htype : (pa.nodes node).type = PSNodeType.GEP)
    (hop : pa.getOperand node 0 = some source)
    (hmax : pa.max_offset ≤ UNKNOWN) :
    (o ≠ UNKNOWN → (pa.nodes node).offset ≠ UNKNOWN → o + (pa.nodes node).offset < WORD →
      ((((o + (pa.nodes node).offset = 0 ∨ o + (pa.nodes node).offset < (pa.nodes t).size) ∧
            o + (pa.nodes node).offset < pa.max_offset) →
          ∀ q, q ∈ (processGepStep (fun x => (pa.nodes x).size) pa.max_offset
              (pa.nodes node).offset acc ⟨t, o⟩).1 ↔
            q ∈ acc.1 ∨ q = ⟨t, o + (pa.nodes node).offset⟩) ∧
       (¬ ((o + (pa.nodes node).offset = 0 ∨ o + (pa.nodes node).offset < (pa.nodes t).size) ∧
            o + (pa.nodes node).offset < pa.max_offset) →
          ∀ q, q ∈ (processGepStep (fun x => (pa.nodes x).size) pa.max_offset
              (pa.nodes node).offset acc ⟨t, o⟩).1 ↔
            (q ∈ acc.1 ∧ ¬ (q.target = t ∧ q.offset ≠ UNKNOWN)) ∨ q = ⟨t, UNKNOWN⟩))) ∧
    (o = UNKNOWN ∨ (pa.nodes node).offset = UNKNOWN →
      ∀ q, q ∈ (processGepStep (fun x => (pa.nodes x).size) pa.max_offset
          (pa.nodes node).offset acc ⟨t, o⟩).1 ↔
        (q ∈ acc.1 ∧ ¬ (q.target = t ∧ q.offset ≠ UNKNOWN)) ∨ q = ⟨t, UNKNOWN⟩) ∧
    (⟨t, o⟩ ∈ pa.pt source →
      ∃ r, processGep pa node = some r ∧
        r.1.pt node = (List.foldl (processGepStep (fun x => (pa.nodes x).size) pa.max_offset
          (pa.nodes node).offset) (pa.pt node, false) (pa.pt source)).1 ∧
        ((⟨t, UNKNOWN⟩ : Pointer) ∈ r.1.pt node ∨
          (gepInRange (fun x => (pa.nodes x).size) pa.max_offset t
              (gepNewOffset o (pa.nodes node).offset) ∧
            (⟨t, gepNewOffset o (pa.nodes node).offset⟩ : Pointer) ∈ r.1.pt node))) ∧
    ((processGep gepExample 11).map (fun r => (r.1.pt 11, r.2)) =
      some ([⟨10, UNKNOWN⟩], true)) := by
  refine ⟨?_, ?_, ?_, by decide⟩
  · intro ho hk hsum
    have hoff := gepNewOffset_concrete o _ ho hk hsum
    constructor
    · intro hin q
      have hr : gepInRange (fun x => (pa.nodes x).size) pa.max_offset
          (⟨t, o⟩ : Pointer).target
          (gepNewOffset (⟨t, o⟩ : Pointer).offset (pa.nodes node).offset) := by
        simp only [hoff]; exact hin
      rw [processGepStep_inRange _ _ _ _ _ hr]
      simp only [addPointsTo, mem_insert, hoff]
    · intro hout q
      have hr : ¬ gepInRange (fun x => (pa.nodes x).size) pa.max_offset
          (⟨t, o⟩ : Pointer).target
          (gepNewOffset (⟨t, o⟩ : Pointer).offset (pa.nodes node).offset) := by
        simp only [hoff]; exact hout
      rw [processGepStep_outOfRange _ _ _ _ _ hr]
      simp only [mem_addPointsToUnknownOffset]
  · intro hunk q
    have hoff := gepNewOffset_unknown o _ hunk
    have hr : ¬ gepInRange (fun x => (pa.nodes x).size) pa.max_offset
        (⟨t, o⟩ : Pointer).target
        (gepNewOffset (⟨t, o⟩ : Pointer).offset (pa.nodes node).offset) := by
      simp only [hoff]
      intro hc
      exact absurd hc.2 (by omega)
    rw [processGepStep_outOfRange _ _ _ _ _ hr]
    simp only [mem_addPointsToUnknownOffset]
  · intro hmem
    refine ⟨(pa.setPointsTo node (processGepLoop (fun x => (pa.nodes x).size) pa.max_offset
      (pa.nodes node).offset (pa.pt source) (pa.pt node)).1,
      (processGepLoop (fun x => (pa.nodes x).size) pa.max_offset
      (pa.nodes node).offset (pa.pt source) (pa.pt node)).2), ?_, ?_, ?_⟩
    · unfold processGep
      rw [if_neg (by simp [htype]), hop]
    · simp only [pt_setPointsTo_same, processGepLoop]
    · simp only [pt_setPointsTo_same, processGepLoop]
      exact processGepLoop_covers _ _ _ _ _ ⟨t, o⟩ hmem

/-- C1, at the scenario `p = alloc(16); q = gep(p, 32)`: the offset 32 is past
the size, the loop body leaves exactly `(p, UNKNOWN)`. -/
theorem processGep_transfer_witness :
    (gepExample.nodes 11).type = PSNodeType.GEP ∧
    gepExample.getOperand 11 0 = some 10 ∧
    gepExample.max_offset ≤ UNKNOWN ∧
    (∀ q, q ∈ (processGepStep (fun x => (gepExample.nodes x).size) gepExample.max_offset
          (gepExample.nodes 11).offset ([], false) ⟨10, 0⟩).1 ↔
        (q ∈ ([] : PointsToSet) ∧ ¬ (q.target = 10 ∧ q.offset ≠ UNKNOWN)) ∨
          q = ⟨10, UNKNOWN⟩) :=
  ⟨by decide, by decide, by decide,
    ((processGep_transfer gepExample 11 10 10 0 ([], false) (by decide) (by decide)
      (by decide)).1 (by decide) (by decide) (by decide)).2 (by decide)⟩

/-- C2: at a GEP whose addition overflows (`8 + (2^64 - 8)`, both concrete) the
source adds on `uint64_t`, the sum wraps to 0 and `processGep` inserts the
concrete pointer `(t, 0)`; `(t, UNKNOWN)` is not in the result. -/
theorem processGep_overflow_wraps :
    (8 : Nat) ≠ UNKNOWN ∧ (gepWrapExample.nodes 11).offset ≠ UNKNOWN ∧
    WORD ≤ 8 + (gepWrapExample.nodes 11).offset ∧
    gepWrapExample.pt 12 = [⟨10, 8⟩] ∧
    (processGep gepWrapExample 11).map (fun r => (r.1.pt 11, r.2)) =
      some ([⟨10, 0⟩], true) := by
  decide

/-- C3: the postcondition of `addPointsToUnknownOffset(target)`. Afterwards the
set holds `(t, UNKNOWN)`, no `(t, c)` with concrete `c`, and of the pointers to
other targets exactly those of the set before; the result is `true` iff the
set differs from the one before (it is the same list when the result is
`false`), and a second call returns `false` and leaves the set as it is. -/
theorem addPointsToUnknownOffset_post (S : PointsToSet) (t : Nat) :
    (⟨t, UNKNOWN⟩ : Pointer) ∈ (addPointsToUnknownOffset S t).1 ∧
    (∀ c, c ≠ UNKNOWN → (⟨t, c⟩ : Pointer) ∉ (addPointsToUnknownOffset S t).1) ∧
    (∀ q : Pointer, q.target ≠ t → (q ∈ (addPointsToUnknownOffset S t).1 ↔ q ∈ S)) ∧
    ((addPointsToUnknownOffset S t).2 = true ↔
      ¬ (∀ q, q ∈ (addPointsToUnknownOffset S t).1 ↔ q ∈ S)) ∧
    ((addPointsToUnknownOffset S t).2 = false → (addPointsToUnknownOffset S t).1 = S) ∧
    addPointsToUnknownOffset (addPointsToUnknownOffset S t).1 t =
      ((addPointsToUnknownOffset S t).1, false) := by
  have hmem := mem_addPointsToUnknownOffset S t
  refine ⟨?_, ?_, ?_, ?_, ?_, ?_⟩
  · exact (hmem _).2 (Or.inr rfl)
  · intro c hc hin
    rcases (hmem _).1 hin with ⟨_, h2⟩ | h2
    · exact h2 ⟨rfl, hc⟩
    · exact hc (congrArg Pointer.offset h2)
  · intro q hq
    rw [hmem]
    constructor
    · rintro (⟨h1, _⟩ | h1)
      · exact h1
      · exact absurd (congrArg Pointer.target h1) hq
    · intro h1
      exact Or.inl ⟨h1, fun hc => hq hc.1⟩
  · have hflag : (addPointsToUnknownOffset S t).2 = true ↔
        (∃ q ∈ S, q.target = t ∧ q.offset ≠ UNKNOWN) ∨ (⟨t, UNKNOWN⟩ : Pointer) ∉ S := by
      unfold addPointsToUnknownOffset
      simp only [Bool.or_eq_true, eraseConcrete_snd, insert_snd, mem_eraseConcrete]
      constructor
      · rintro (h1 | h1)
        · exact Or.inl h1
        · exact Or.inr (fun hc => h1 ⟨hc, fun h => h.2 rfl⟩)
      · rintro (h1 | h1)
        · exact Or.inl h1
        · exact Or.inr (fun hc => h1 hc.1)
    rw [hflag]
    constructor
    · rintro (⟨q, hq, hc⟩ | h1) hall
      · rcases (hmem q).1 ((hall q).2 hq) with ⟨_, h2⟩ | h2
        · exact h2 hc
        · exact hc.2 (congrArg Pointer.offset h2)
      · exact h1 ((hall _).1 ((hmem _).2 (Or.inr rfl)))
    · intro hne
      by_contra hcon
      push_neg at hcon
      apply hne
      intro q
      rw [hmem]
      constructor
      · rintro (⟨h1, _⟩ | h1)
        · exact h1
        · rw [h1]; exact hcon.2
      · intro h1
        by_cases hc : q.target = t ∧ q.offset ≠ UNKNOWN
        · exact absurd hc.2 (not_not.mpr (hcon.1 q h1 hc.1))
        · exact Or.inl ⟨h1, hc⟩
  · intro hfalse
    unfold addPointsToUnknownOffset at hfalse ⊢
    simp only [Bool.or_eq_false_iff] at hfalse
    have h1 : ∀ q ∈ S, ¬ (q.target = t ∧ q.offset ≠ UNKNOWN) := by
      intro q hq hc
      have := (eraseConcrete_snd t S).2 ⟨q, hq, hc⟩
      rw [hfalse.1] at this
      exact Bool.false_ne_true this
    have h2 := eraseConcrete_of_none t S h1
    rw [h2] at hfalse ⊢
    have h3 : (⟨t, UNKNOWN⟩ : Pointer) ∈ S := by
      by_contra hc
      have := (insert_snd S ⟨t, UNKNOWN⟩).2 hc
      rw [hfalse.2] at this
      exact Bool.false_ne_true this
    simp only [insert_of_mem S _ h3]
  · have h1 : ∀ q ∈ (addPointsToUnknownOffset S t).1,
        ¬ (q.target = t ∧ q.offset ≠ UNKNOWN) := by
      intro q hq hc
      rcases (hmem q).1 hq with ⟨_, h2⟩ | h2
      · exact h2 hc
      · exact hc.2 (congrArg Pointer.offset h2)
    have h3 : (⟨t, UNKNOWN⟩ : Pointer) ∈ (addPointsToUnknownOffset S t).1 :=
      (hmem _).2 (Or.inr rfl)
    generalize (addPointsToUnknownOffset S t).1 = L at h1 h3
    unfold addPointsToUnknownOffset
    simp only [eraseConcrete_of_none t L h1, insert_of_mem L _ h3, Bool.or_self]

/-! ## Accumulators -/

theorem NodeAcc.mem_add (a : NodeAcc) (p q : Pointer) :
    q ∈ (a.add p).pointsTo ↔ q ∈ a.pointsTo ∨ q = p := by
  simp only [NodeAcc.add, addPointsTo, mem_insert]

theorem NodeAcc.reports_add (a : NodeAcc) (p : Pointer) :
    (a.add p).reports = a.reports := rfl

theorem NodeAcc.mem_addAll (L : List Pointer) (a : NodeAcc) (q : Pointer) :
    q ∈ (a.addAll L).pointsTo ↔ q ∈ a.pointsTo ∨ q ∈ L := by
  induction L generalizing a with
  | nil => simp [NodeAcc.addAll]
  | cons p ps ih =>
    simp only [NodeAcc.addAll, ih, NodeAcc.mem_add, List.mem_cons]
    tauto

theorem NodeAcc.reports_addAll (L : List Pointer) (a : NodeAcc) :
    (a.addAll L).reports = a.reports := by
  induction L generalizing a with
  | nil => rfl
  | cons p ps ih => simp only [NodeAcc.addAll, ih, NodeAcc.reports_add]

theorem mem_foldl_addAll (m : OffsetMap) (a : NodeAcc) (q : Pointer) :
    q ∈ (m.foldl (fun acc it => acc.addAll it.2) a).pointsTo ↔
      q ∈ a.pointsTo ∨ ∃ e ∈ m, q ∈ e.2 := by
  induction m generalizing a with
  | nil => simp
  | cons e rest ih =>
    simp only [List.foldl_cons, ih, NodeAcc.mem_addAll, List.mem_cons, exists_eq_or_imp]
    tauto

theorem reports_foldl_addAll (m : OffsetMap) (a : NodeAcc) :
    (m.foldl (fun acc it => acc.addAll it.2) a).reports = a.reports := by
  induction m generalizing a with
  | nil => rfl
  | cons e rest ih => simp only [List.foldl_cons, ih, NodeAcc.reports_addAll]

/-! ## Maps of memory objects -/

theorem OffsetMap.count_eq_isSome (m : OffsetMap) (off : Nat) :
    m.count off = (m.find off).isSome := by
  induction m with
  | nil => rfl
  | cons e rest ih =>
    unfold OffsetMap.count at ih ⊢
    unfold OffsetMap.find
    by_cases h : e.1 = off
    · simp [h]
    · simp [h, ih]

theorem OffsetMap.get_of_count_false (m : OffsetMap) (off : Nat)
    (h : m.count off = false) : m.get off = [] := by
  rw [OffsetMap.count_eq_isSome] at h
  unfold OffsetMap.get
  cases hf : m.find off with
  | none => rfl
  | some S => rw [hf] at h; simp at h

/-! ## LOAD -/

theorem mem_loadFromObject (zeroInit : Bool) (nobjects node : Nat) (ptr : Pointer)
    (o : MemoryObject) (a : NodeAcc) (q : Pointer) :
    q ∈ (loadFromObject zeroInit nobjects node ptr o a).pointsTo ↔
      q ∈ a.pointsTo ∨ specLoaded ptr o q ∨
        (q = PointerNull ∧ zeroInit = true ∧ nothingStored ptr o) := by
  unfold loadFromObject specLoaded nothingStored
  by_cases hu : ptr.offset = UNKNOWN
  · simp only [hu, if_true]
    rw [mem_foldl_addAll]
    cases hm : o.pointsTo with
    | nil =>
      cases zeroInit with
      | true => simp [NodeAcc.mem_add]
      | false =>
        by_cases hn : nobjects = 1 <;> simp [hn, NodeAcc.errorEmptyPointsTo]
    | cons e rest => simp
  · simp only [hu, if_false]
    cases hc : o.pointsTo.count ptr.offset <;> cases hk : o.pointsTo.count UNKNOWN <;>
      cases zeroInit <;>
      simp [NodeAcc.mem_add, NodeAcc.mem_addAll, NodeAcc.errorEmptyPointsTo,
        OffsetMap.get_of_count_false, hc, hk] <;> tauto

theorem reports_loadFromObject (zeroInit : Bool) (nobjects node : Nat) (ptr : Pointer)
    (o : MemoryObject) (a : NodeAcc) :
    (loadFromObject zeroInit nobjects node ptr o a).reports =
      a.reports ++ loadObjectReports zeroInit nobjects node ptr o := by
  unfold loadFromObject loadObjectReports
  by_cases hu : ptr.offset = UNKNOWN
  · simp only [hu, if_true]
    rw [reports_foldl_addAll]
    cases hm : o.pointsTo with
    | nil =>
      cases zeroInit with
      | true => simp [NodeAcc.reports_add]
      | false =>
        by_cases hn : nobjects = 1 <;> simp [hn, NodeAcc.errorEmptyPointsTo]
    | cons e rest => simp
  · simp only [hu, if_false]
    cases hc : o.pointsTo.count ptr.offset <;> cases hk : o.pointsTo.count UNKNOWN <;>
      cases zeroInit <;>
      simp [NodeAcc.reports_add, NodeAcc.reports_addAll, NodeAcc.errorEmptyPointsTo]

theorem mem_foldl_loadFromObject (objects : Nat → MemoryObject) (zeroInit : Bool)
    (nobjects node : Nat) (ptr : Pointer) (objs : List Nat) (a : NodeAcc) (q : Pointer) :
    q ∈ (objs.foldl (fun acc o =>
          loadFromObject zeroInit nobjects node ptr (objects o) acc) a).pointsTo ↔
      q ∈ a.pointsTo ∨ ∃ o ∈ objs, specLoaded ptr (objects o) q ∨
        (q = PointerNull ∧ zeroInit = true ∧ nothingStored ptr (objects o)) := by
  induction objs generalizing a with
  | nil => simp
  | cons o rest ih =>
    simp only [List.foldl_cons, ih, mem_loadFromObject, List.mem_cons, exists_eq_or_imp,
      or_assoc]

theorem reports_foldl_loadFromObject (objects : Nat → MemoryObject) (zeroInit : Bool)
    (nobjects node : Nat) (ptr : Pointer) (objs : List Nat) (a : NodeAcc) :
    (objs.foldl (fun acc o =>
          loadFromObject zeroInit nobjects node ptr (objects o) acc) a).reports =
      a.reports ++ objs.flatMap (fun o =>
        loadObjectReports zeroInit nobjects node ptr (objects o)) := by
  induction objs generalizing a with
  | nil => simp
  | cons o rest ih =>
    simp only [List.foldl_cons, ih, reports_loadFromObject, List.flatMap_cons,
      List.append_assoc]

theorem Pointer.not_isValid_of_isUnknown (p : Pointer) (h : p.isUnknown = true) :
    p.isValid = false := by
  simp [Pointer.isValid, h]

theorem processLoadPtr_some (pa : PointerAnalysis) (node : Nat) (a : NodeAcc) (ptr : Pointer)
    (h : ptr.isValid = true → ptr.isInvalidated = false →
      (pa.nodes ptr.target).isAlloc = true) :
    ∃ b, processLoadPtr pa node a ptr = some b := by
  unfold processLoadPtr
  by_cases hv : ptr.isValid = true
  · by_cases hi : ptr.isInvalidated = true
    · simp [hi]
    · have hi2 : ptr.isInvalidated = false := by simpa using hi
      have halloc := h hv hi2
      have hu : ptr.isUnknown = false := by
        cases hx : ptr.isUnknown with
        | false => rfl
        | true => rw [Pointer.not_isValid_of_isUnknown ptr hx] at hv; simp at hv
      simp only [hv, hi2, hu, halloc]
      by_cases he : (pa.getMemoryObjects node ptr).isEmpty = true
      · cases hz : (pa.nodes ptr.target).zeroInitialized <;> simp [he]
      · simp [he]
  · have hv2 : ptr.isValid = false := by simpa using hv
    simp [hv2]

theorem processLoadPtr_spec (pa : PointerAnalysis) (node : Nat) (a b : NodeAcc)
    (ptr : Pointer) (h : processLoadPtr pa node a ptr = some b) :
    (∀ q, q ∈ b.pointsTo ↔ q ∈ a.pointsTo ∨ loadContributes pa node ptr q) ∧
      b.reports = a.reports ++ loadPtrReports pa node ptr := by
  unfold processLoadPtr at h
  unfold loadContributes loadPtrReports
  by_cases hv : ptr.isValid = true
  · by_cases hi : ptr.isInvalidated = true
    · simp only [hv, hi, Bool.not_true, Bool.false_or, if_true, Option.some.injEq] at h
      subst h
      simp [hv, hi]
    · have hi2 : ptr.isInvalidated = false := by simpa using hi
      have hu : ptr.isUnknown = false := by
        cases hx : ptr.isUnknown with
        | false => rfl
        | true => rw [Pointer.not_isValid_of_isUnknown ptr hx] at hv; simp at hv
      simp only [hv, hi2, hu, Bool.not_true, Bool.or_self, Bool.false_eq_true,
        if_false] at h
      by_cases halloc : (pa.nodes ptr.target).isAlloc = true
      · simp only [halloc, Bool.not_true, Bool.false_eq_true, if_false] at h
        cases hobjs : pa.getMemoryObjects node ptr with
        | nil =>
          rw [hobjs] at h
          cases hz : (pa.nodes ptr.target).zeroInitialized with
          | true =>
            simp only [hz, List.isEmpty_nil, if_true, Option.some.injEq] at h
            subst h
            simp [hv, hi2, NodeAcc.mem_add, NodeAcc.reports_add]
          | false =>
            simp only [hz, List.isEmpty_nil, if_true, Bool.false_eq_true, if_false,
              Option.some.injEq] at h
            subst h
            simp [hv, hi2, NodeAcc.errorEmptyPointsTo]
        | cons o rest =>
          rw [hobjs] at h
          simp only [List.isEmpty_cons, Bool.false_eq_true, if_false,
            Option.some.injEq] at h
          subst h
          refine ⟨fun q => ?_, ?_⟩
          · rw [mem_foldl_loadFromObject]
            simp [hv, hi2]
          · rw [reports_foldl_loadFromObject]
            simp [hv, hi2]
      · have halloc2 : (pa.nodes ptr.target).isAlloc = false := by simpa using halloc
        simp [halloc2] at h
  · have hv2 : ptr.isValid = false := by simpa using hv
    simp only [hv2, Bool.not_false, Bool.true_or, if_true, Option.some.injEq] at h
    subst h
    simp [hv2]

theorem processLoadLoop_some (pa : PointerAnalysis) (node : Nat) (ptrs : List Pointer)
    (a : NodeAcc)
    (h : ∀ p ∈ ptrs, p.isValid = true → p.isInvalidated = false →
      (pa.nodes p.target).isAlloc = true) :
    ∃ b, processLoadLoop pa node ptrs a = some b := by
  induction ptrs generalizing a with
  | nil => exact ⟨a, rfl⟩
  | cons ptr rest ih =>
    obtain ⟨a1, ha1⟩ := processLoadPtr_some pa node a ptr (h ptr (List.mem_cons_self _ _))
    obtain ⟨b, hb⟩ := ih a1 (fun p hp => h p (List.mem_cons_of_mem _ hp))
    exact ⟨b, by simp only [processLoadLoop, ha1, hb]⟩

theorem processLoadLoop_spec (pa : PointerAnalysis) (node : Nat) (ptrs : List Pointer)
    (a b : NodeAcc) (h : processLoadLoop pa node ptrs a = some b) :
    (∀ q, q ∈ b.pointsTo ↔ q ∈ a.pointsTo ∨ ∃ p ∈ ptrs, loadContributes pa node p q) ∧
      b.reports = a.reports ++ ptrs.flatMap (loadPtrReports pa node) := by
  induction ptrs generalizing a with
  | nil =>
    simp only [processLoadLoop, Option.some.injEq] at h
    subst h
    simp
  | cons ptr rest ih =>
    simp only [processLoadLoop] at h
    cases h1 : processLoadPtr pa node a ptr with
    | none => rw [h1] at h; simp at h
    | some a1 =>
      rw [h1] at h
      obtain ⟨hm1, hr1⟩ := processLoadPtr_spec pa node a a1 ptr h1
      obtain ⟨hm2, hr2⟩ := ih a1 h
      refine ⟨fun q => ?_, ?_⟩
      · rw [hm2, hm1]
        simp only [List.mem_cons, exists_eq_or_imp, or_assoc]
      · rw [hr2, hr1, List.flatMap_cons, List.append_assoc]

theorem pt_commit_same (pa : PointerAnalysis) (n : Nat) (a : NodeAcc) :
    (pa.commit n a).pt n = a.pointsTo := by
  simp [PointerAnalysis.commit, PointerAnalysis.pt, PointerAnalysis.setPointsTo]

theorem pt_commit_other (pa : PointerAnalysis) (n m : Nat) (a : NodeAcc) (h : m ≠ n) :
    (pa.commit n a).pt m = pa.pt m := by
  simp [PointerAnalysis.commit, PointerAnalysis.pt, PointerAnalysis.setPointsTo,
    Function.update_noteq h]

theorem processLoad_result (pa : PointerAnalysis) (node operand : Nat)
    (hop : pa.getOperand node 0 = some operand)
    (halloc : ∀ p ∈ pa.pt operand, p.isValid = true → p.isInvalidated = false →
      (pa.nodes p.target).isAlloc = true) :
    ∃ r, processLoad pa node = some r ∧
      (∀ q, q ∈ r.1.pt node ↔
        q ∈ pa.pt node ∨ ∃ p ∈ pa.pt operand, loadContributes pa node p q) ∧
      r.1.reports = pa.reports ++
        (if (pa.pt operand).isEmpty then [Report.emptyOperand operand]
          else (pa.pt operand).flatMap (loadPtrReports pa node)) ∧
      r.1.objects = pa.objects := by
  unfold processLoad
  rw [hop]
  by_cases he : (pa.pt operand).isEmpty = true
  · simp only [he, if_true]
    refine ⟨_, rfl, fun q => ?_, rfl, rfl⟩
    have : pa.pt operand = [] := List.isEmpty_iff.mp he
    rw [this]
    simp only [List.not_mem_nil, false_and, exists_false, or_false]
    exact Iff.rfl
  · simp only [he]
    obtain ⟨b, hb⟩ := processLoadLoop_some pa node (pa.pt operand)
      ⟨pa.pt node, pa.reports, false⟩ halloc
    obtain ⟨hm, hr⟩ := processLoadLoop_spec pa node _ _ b hb
    simp only [hb]
    refine ⟨_, rfl, fun q => ?_, ?_, rfl⟩
    · rw [pt_commit_same, hm]
    · simp only [PointerAnalysis.commit, hr]
      simp

/-- C4: the LOAD transfer. `processLoad` returns when every valid pointer of
the operand targets a memory allocation; for every valid, non-invalidated
pointer `p` of `pt(op0)` and every object `o` the resolver returns for
`(n, p)`: with `p.offset` `UNKNOWN` every pointer stored under any offset of
`o` is in `pt(n)` afterwards, otherwise the pointers of `o[p.offset]` and those
of `o[UNKNOWN]` are. Every pointer of `pt(n)` afterwards was there before, or
is read from a resolved object in this way, or is the `NULLPTR` of the
zero-initialisation fallback. Memory objects are not written. -/
theorem processLoad_transfer (pa : PointerAnalysis) (node operand : Nat)
    (hop : pa.getOperand node 0 = some operand)
    (halloc : ∀ p ∈ pa.pt operand, p.isValid = true → p.isInvalidated = false →
      (pa.nodes p.target).isAlloc = true) :
    ∃ r, processLoad pa node = some r ∧
      (∀ p ∈ pa.pt operand, p.isValid = true → p.isInvalidated = false →
        ∀ o ∈ pa.getMemoryObjects node p,
          (p.offset = UNKNOWN →
            ∀ e ∈ (pa.objects o).pointsTo, ∀ q ∈ e.2, q ∈ r.1.pt node) ∧
          (p.offset ≠ UNKNOWN →
            (∀ q ∈ (pa.objects o).pointsTo.get p.offset, q ∈ r.1.pt node) ∧
            (∀ q ∈ (pa.objects o).pointsTo.get UNKNOWN, q ∈ r.1.pt node))) ∧
      (∀ q ∈ r.1.pt node, q ∈ pa.pt node ∨
        (∃ p ∈ pa.pt operand, p.isValid = true ∧ p.isInvalidated = false ∧
          ∃ o ∈ pa.getMemoryObjects node p, specLoaded p (pa.objects o) q) ∨
        (q = PointerNull ∧ ∃ p ∈ pa.pt operand, p.isValid = true ∧
          p.isInvalidated = false ∧ (pa.nodes p.target).zeroInitialized = true)) ∧
      (∀ q ∈ pa.pt node, q ∈ r.1.pt node) ∧
      r.1.objects = pa.objects := by
  obtain ⟨r, hr, hmem, _, hobj⟩ := processLoad_result pa node operand hop halloc
  refine ⟨r, hr, ?_, ?_, ?_, hobj⟩
  · intro p hp hv hi o ho
    constructor
    · intro hu e he q hq
      refine (hmem q).2 (Or.inr ⟨p, hp, hv, hi, Or.inr ⟨o, ho, Or.inl ?_⟩⟩)
      unfold specLoaded
      rw [if_pos hu]
      exact ⟨e, he, hq⟩
    · intro hu
      constructor
      · intro q hq
        refine (hmem q).2 (Or.inr ⟨p, hp, hv, hi, Or.inr ⟨o, ho, Or.inl ?_⟩⟩)
        unfold specLoaded
        rw [if_neg hu]
        exact Or.inl hq
      · intro q hq
        refine (hmem q).2 (Or.inr ⟨p, hp, hv, hi, Or.inr ⟨o, ho, Or.inl ?_⟩⟩)
        unfold specLoaded
        rw [if_neg hu]
        exact Or.inr hq
  · intro q hq
    rcases (hmem q).1 hq with h | ⟨p, hp, hv, hi, hc⟩
    · exact Or.inl h
    · rcases hc with ⟨_, hn, hz⟩ | ⟨o, ho, hl | ⟨hn, hz, _⟩⟩
      · exact Or.inr (Or.inr ⟨hn, p, hp, hv, hi, hz⟩)
      · exact Or.inr (Or.inl ⟨p, hp, hv, hi, o, ho, hl⟩)
      · exact Or.inr (Or.inr ⟨hn, p, hp, hv, hi, hz⟩)
  · intro q hq
    exact (hmem q).2 (Or.inl hq)

/-- C4, at the load of `f` in `global8.c` after `f = setA` was stored: the
load returns and reads `(setA, 0)` from the object of `f`. -/
theorem processLoad_transfer_witness :
    global8Stored.getOperand 23 0 = some 21 ∧
    (∀ p ∈ global8Stored.pt 21, p.isValid = true → p.isInvalidated = false →
      (global8Stored.nodes p.target).isAlloc = true) ∧
    ∃ r, processLoad global8Stored 23 = some r ∧
      (∀ q ∈ (global8Stored.objects 21).pointsTo.get 0, q ∈ r.1.pt 23) :=
  ⟨by decide, by decide, by
    obtain ⟨r, hr, hin, _⟩ := processLoad_transfer global8Stored 23 21 (by decide) (by decide)
    exact ⟨r, hr, ((hin ⟨21, 0⟩ (by decide) (by decide) (by decide) 21 (by decide)).2
      (by decide)).1⟩⟩

theorem mem_loadObjectReports (zeroInit : Bool) (nobjects node : Nat) (ptr : Pointer)
    (o : MemoryObject) (r : Report)
    (h : r ∈ loadObjectReports zeroInit nobjects node ptr o) :
    r = Report.emptyPointsTo node ptr.target ∧ zeroInit = false := by
  unfold loadObjectReports at h
  split at h
  · split at h
    · rename_i hc
      simp only [List.mem_singleton] at h
      exact ⟨h, hc.2.1⟩
    · simp at h
  · split at h
    · rename_i hc
      simp only [List.mem_singleton] at h
      exact ⟨h, hc.2.1⟩
    · simp at h

theorem mem_loadPtrReports (pa : PointerAnalysis) (node : Nat) (ptr : Pointer) (r : Report)
    (h : r ∈ loadPtrReports pa node ptr) :
    r = Report.emptyPointsTo node ptr.target ∧
      (pa.nodes ptr.target).zeroInitialized = false := by
  unfold loadPtrReports at h
  split at h
  · simp at h
  · split at h
    · split at h
      · simp at h
      · rename_i hz
        simp only [List.mem_singleton] at h
        exact ⟨h, by simpa using hz⟩
    · obtain ⟨o, _, ho⟩ := List.mem_flatMap.mp h
      exact mem_loadObjectReports _ _ _ _ _ _ ho

theorem mem_loadObjectReports_iff (zeroInit : Bool) (nobjects node : Nat) (ptr : Pointer)
    (o : MemoryObject) (r : Report) :
    r ∈ loadObjectReports zeroInit nobjects node ptr o ↔
      r = Report.emptyPointsTo node ptr.target ∧ zeroInit = false ∧
        nothingToRead nobjects ptr o := by
  unfold loadObjectReports nothingToRead
  by_cases hu : ptr.offset = UNKNOWN
  · simp only [hu, if_true]
    by_cases hc : o.pointsTo.isEmpty = true ∧ zeroInit = false ∧ nobjects = 1
    · rw [if_pos hc]
      simp only [List.mem_singleton]
      exact ⟨fun h => ⟨h, hc.2.1, hc.1, hc.2.2⟩, fun h => h.1⟩
    · rw [if_neg hc]
      simp only [List.not_mem_nil, false_iff]
      rintro ⟨_, h2, h3, h4⟩
      exact hc ⟨h3, h2, h4⟩
  · simp only [hu, if_false]
    by_cases hc : o.pointsTo.count ptr.offset = false ∧ zeroInit = false ∧
        o.pointsTo.count UNKNOWN = false
    · rw [if_pos hc]
      simp only [List.mem_singleton]
      exact ⟨fun h => ⟨h, hc.2.1, hc.1, hc.2.2⟩, fun h => h.1⟩
    · rw [if_neg hc]
      simp only [List.not_mem_nil, false_iff]
      rintro ⟨_, h2, h3, h4⟩
      exact hc ⟨h3, h2, h4⟩

theorem mem_loadPtrReports_iff (pa : PointerAnalysis) (node : Nat) (ptr : Pointer)
    (r : Report) :
    r ∈ loadPtrReports pa node ptr ↔
      r = Report.emptyPointsTo node ptr.target ∧ ptr.isValid = true ∧
        ptr.isInvalidated = false ∧ (pa.nodes ptr.target).zeroInitialized = false ∧
        (pa.getMemoryObjects node ptr = [] ∨
          ∃ o ∈ pa.getMemoryObjects node ptr,
            nothingToRead (pa.getMemoryObjects node ptr).length ptr (pa.objects o)) := by
  unfold loadPtrReports
  by_cases hv : ptr.isValid = true
  · by_cases hi : ptr.isInvalidated = true
    · simp [hv, hi]
    · have hi2 : ptr.isInvalidated = false := by simpa using hi
      simp only [hv, hi2, Bool.not_true, Bool.or_self, Bool.false_eq_true, if_false, true_and]
      cases hl : pa.getMemoryObjects node ptr with
      | nil =>
        simp only [List.isEmpty_nil, if_true, List.not_mem_nil, false_and, exists_false,
          or_false, and_true]
        cases hz : (pa.nodes ptr.target).zeroInitialized with
        | true => simp
        | false => simp
      | cons x xs =>
        simp only [List.isEmpty_cons, Bool.false_eq_true, if_false, List.mem_flatMap,
          mem_loadObjectReports_iff]
        constructor
        · rintro ⟨o, ho, h1, h2, h3⟩
          exact ⟨h1, h2, Or.inr ⟨o, ho, h3⟩⟩
        · rintro ⟨h1, h2, h3 | ⟨o, ho, h3⟩⟩
          · cases h3
          · exact ⟨o, ho, h1, h2, h3⟩
  · have hv2 : ptr.isValid = false := by simpa using hv
    simp [hv2]

/-- C5 (counterexample): `p = alloc(8)` is not zero-initialised and its object
has no entry under offset 0 but holds `NULLPTR` under `UNKNOWN`; the load
`x = *p` adds `NULLPTR` to `pt(x)` and reports no error, although `p` is not
zero-initialised. -/
theorem processLoad_null_without_zeroInit :
    (loadNullUnknownExample.nodes 10).zeroInitialized = false ∧
    loadNullUnknownExample.pt 10 = [⟨10, 0⟩] ∧
    (⟨10, 0⟩ : Pointer).isValid = true ∧
    loadNullUnknownExample.getMemoryObjects 11 ⟨10, 0⟩ = [10] ∧
    (loadNullUnknownExample.objects 10).pointsTo.count 0 = false ∧
    loadNullUnknownExample.pt 11 = [] ∧
    (processLoad loadNullUnknownExample 11).map (fun r => (r.1.pt 11, r.1.reports, r.2)) =
      some ([PointerNull], [], true) := by
  refine ⟨by decide, by decide, by decide, by decide, by decide, by decide, by decide⟩

/-- C5 (amended): the zero-initialisation fallback of a LOAD. Let `(a, off)` be
a valid pointer of the operand, `off` concrete, such that the resolver returns
no object or an object without an entry under `off`. The load returns. When
`a` is zero-initialised, `NULLPTR` is in `pt(n)` afterwards and no
empty-points-to error for `a` is reported. When `a` is not zero-initialised,
the error for `a` is reported if and only if some valid pointer to `a` of the
operand has no object or an object with nothing to read (for a concrete
offset: no entry under the offset and none under `UNKNOWN`); so it is reported
when `(a, off)` has no object or an object without an entry under `off` and
under `UNKNOWN`. `NULLPTR` is in `pt(n)` afterwards if and only if it was there
before, or a valid pointer of the operand reads it from memory (stored under
its offset or under `UNKNOWN` in a resolved object), or a valid pointer of the
operand has a zero-initialised target and no object or an object with nothing
stored under its offset. For `p = alloc(8, zero_init); x = *p` the result is
`pt(x) = {NULLPTR}` and no report. -/
theorem processLoad_zeroInit (pa : PointerAnalysis) (node operand a off : Nat)
    (hop : pa.getOperand node 0 = some operand)
    (halloc : ∀ p ∈ pa.pt operand, p.isValid = true → p.isInvalidated = false →
      (pa.nodes p.target).isAlloc = true)
    (hp : (⟨a, off⟩ : Pointer) ∈ pa.pt operand)
    (hv : (⟨a, off⟩ : Pointer).isValid = true)
    (hi : (⟨a, off⟩ : Pointer).isInvalidated = false)
    (hoff : off ≠ UNKNOWN)
    (hmiss : pa.getMemoryObjects node ⟨a, off⟩ = [] ∨
      ∃ o ∈ pa.getMemoryObjects node ⟨a, off⟩, (pa.objects o).pointsTo.count off = false) :
    (∃ r news, processLoad pa node = some r ∧ r.1.reports = pa.reports ++ news ∧
      ((pa.nodes a).zeroInitialized = true →
        PointerNull ∈ r.1.pt node ∧ Report.emptyPointsTo node a ∉ news) ∧
      ((pa.nodes a).zeroInitialized = false →
        (Report.emptyPointsTo node a ∈ news ↔
          ∃ p ∈ pa.pt operand, p.target = a ∧ p.isValid = true ∧ p.isInvalidated = false ∧
            (pa.getMemoryObjects node p = [] ∨
              ∃ o ∈ pa.getMemoryObjects node p,
                nothingToRead (pa.getMemoryObjects node p).length p (pa.objects o))) ∧
        ((pa.getMemoryObjects node ⟨a, off⟩ = [] ∨
          ∃ o ∈ pa.getMemoryObjects node ⟨a, off⟩,
            (pa.objects o).pointsTo.count off = false ∧
              (pa.objects o).pointsTo.count UNKNOWN = false) →
          Report.emptyPointsTo node a ∈ news)) ∧
      (PointerNull ∈ r.1.pt node ↔
        PointerNull ∈ pa.pt node ∨
          ∃ p ∈ pa.pt operand, loadContributes pa node p PointerNull)) ∧
    (processLoad zeroInitExample 11).map (fun r => (r.1.pt 11, r.1.reports, r.2)) =
      some ([PointerNull], [], true) := by
  refine ⟨?_, by decide⟩
  obtain ⟨r, hr, hmem, hrep, _⟩ := processLoad_result pa node operand hop halloc
  have hne : (pa.pt operand).isEmpty = false := by
    cases hl : pa.pt operand with
    | nil => rw [hl] at hp; exact absurd hp (List.not_mem_nil _)
    | cons x xs => rfl
  simp only [hne, Bool.false_eq_true, if_false] at hrep
  have herr : Report.emptyPointsTo node a ∈ (pa.pt operand).flatMap (loadPtrReports pa node) ↔
      ∃ p ∈ pa.pt operand, p.target = a ∧ p.isValid = true ∧ p.isInvalidated = false ∧
        (pa.nodes a).zeroInitialized = false ∧
        (pa.getMemoryObjects node p = [] ∨
          ∃ o ∈ pa.getMemoryObjects node p,
            nothingToRead (pa.getMemoryObjects node p).length p (pa.objects o)) := by
    simp only [List.mem_flatMap, mem_loadPtrReports_iff]
    constructor
    · rintro ⟨p, hp2, heq, h1, h2, h3, h4⟩
      have ht : a = p.target := by
        injection heq with _ h5
      subst ht
      exact ⟨p, hp2, rfl, h1, h2, h3, h4⟩
    · rintro ⟨p, hp2, ht, h1, h2, h3, h4⟩
      subst ht
      exact ⟨p, hp2, rfl, h1, h2, h3, h4⟩
  refine ⟨r, _, hr, hrep, ?_, ?_, hmem _⟩
  · intro hz
    constructor
    · refine (hmem _).2 (Or.inr ⟨⟨a, off⟩, hp, hv, hi, ?_⟩)
      rcases hmiss with hnone | ⟨o, ho, hc⟩
      · exact Or.inl ⟨hnone, rfl, hz⟩
      · refine Or.inr ⟨o, ho, Or.inr ⟨rfl, hz, ?_⟩⟩
        unfold nothingStored
        rw [if_neg hoff]
        exact hc
    · intro hin
      obtain ⟨p, _, _, _, _, hzf, _⟩ := herr.1 hin
      rw [hz] at hzf
      exact Bool.noConfusion hzf
  · intro hz
    have hiff : Report.emptyPointsTo node a ∈
          (pa.pt operand).flatMap (loadPtrReports pa node) ↔
        ∃ p ∈ pa.pt operand, p.target = a ∧ p.isValid = true ∧ p.isInvalidated = false ∧
          (pa.getMemoryObjects node p = [] ∨
            ∃ o ∈ pa.getMemoryObjects node p,
              nothingToRead (pa.getMemoryObjects node p).length p (pa.objects o)) := by
      rw [herr]
      constructor
      · rintro ⟨p, h1, h2, h3, h4, _, h6⟩
        exact ⟨p, h1, h2, h3, h4, h6⟩
      · rintro ⟨p, h1, h2, h3, h4, h6⟩
        exact ⟨p, h1, h2, h3, h4, hz, h6⟩
    refine ⟨hiff, ?_⟩
    intro hcase
    refine hiff.2 ⟨⟨a, off⟩, hp, rfl, hv, hi, ?_⟩
    rcases hcase with hnone | ⟨o, ho, hc1, hc2⟩
    · exact Or.inl hnone
    · refine Or.inr ⟨o, ho, ?_⟩
      unfold nothingToRead
      rw [if_neg hoff]
      exact ⟨hc1, hc2⟩

/-- C5 (witness): at the scenario `p = alloc(8, zero_init); x = *p` the object
of `p` has no entry under offset 0, `p` is zero-initialised, so `NULLPTR` is in
`pt(x)` and no error is among the new reports. -/
theorem processLoad_zeroInit_witness :
    zeroInitExample.getOperand 11 0 = some 10 ∧
    (⟨10, 0⟩ : Pointer) ∈ zeroInitExample.pt 10 ∧
    (zeroInitExample.nodes 10).zeroInitialized = true ∧
    ∃ r news, processLoad zeroInitExample 11 = some r ∧
      r.1.reports = zeroInitExample.reports ++ news ∧
      PointerNull ∈ r.1.pt 11 ∧ Report.emptyPointsTo 11 10 ∉ news :=
  ⟨by decide, by decide, by decide, by
    obtain ⟨r, news, hr, hrep, hz, _⟩ :=
      (processLoad_zeroInit zeroInitExample 11 10 10 0 (by decide) (by decide) (by decide)
        (by decide) (by decide) (by decide)
        (Or.inr ⟨10, by decide, by decide⟩)).1
    exact ⟨r, news, hr, hrep, hz (by decide)⟩⟩

/-- C6: a LOAD through a pointer to `UNKNOWN_MEMORY`. Such a pointer is not
valid, so the loop of `processLoad` skips it at the test of line 54 and never
reaches the branch of line 57: with `pt(op0) = {(UNKNOWN_MEMORY, UNKNOWN)}` the
load leaves `pt(n)` empty and returns `false`. -/
theorem processLoad_skips_unknown :
    (∀ (pa : PointerAnalysis) (node : Nat) (a : NodeAcc) (off : Nat),
      processLoadPtr pa node a ⟨UNKNOWN_MEMORY, off⟩ = some a) ∧
    PointerUnknown.isUnknown = true ∧
    loadUnknownExample.pt 12 = [PointerUnknown] ∧
    (processLoad loadUnknownExample 11).map (fun r => (r.1.pt 11, r.1.reports, r.2)) =
      some ([], [], false) := by
  refine ⟨?_, by decide, by decide, by decide⟩
  intro pa node a off
  unfold processLoadPtr
  simp [Pointer.isValid, Pointer.isUnknown]

/-! ## Insertion into memory objects -/

theorem OffsetMap.find_insertAt (off : Nat) (p : Pointer) (m : OffsetMap) (off2 : Nat) :
    (OffsetMap.insertAt off p m).find off2 =
      if off2 = off then (m.find off).map (fun S => (S.insert p).1) else m.find off2 := by
  induction m with
  | nil => simp [OffsetMap.insertAt, OffsetMap.find]
  | cons e rest ih =>
    unfold OffsetMap.insertAt
    by_cases h : e.1 = off
    · rw [if_pos h]
      unfold OffsetMap.find
      by_cases h2 : off2 = off
      · simp [h, h2]
      · have h3 : ¬ e.1 = off2 := fun hc => h2 (hc.symm.trans h)
        simp [h2, h3]
    · rw [if_neg h]
      unfold OffsetMap.find
      by_cases h2 : off2 = off
      · subst h2
        simp only [h, if_false, if_true] at ih ⊢
        exact ih
      · simp only [h2, if_false] at ih ⊢
        rw [ih]

theorem OffsetMap.find_orderedInsert (off : Nat) (S : PointsToSet) (m : OffsetMap)
    (off2 : Nat) (h : m.find off = none) :
    OffsetMap.find (m.orderedInsert (fun a b => a.1 ≤ b.1) (off, S)) off2 =
      if off2 = off then some S else m.find off2 := by
  induction m with
  | nil =>
    by_cases h2 : off2 = off
    · simp [OffsetMap.find, h2]
    · have h3 : ¬ off = off2 := fun hc => h2 hc.symm
      simp [OffsetMap.find, h2, h3]
  | cons e rest ih =>
    have hne : ¬ e.1 = off := by
      intro hc
      unfold OffsetMap.find at h
      simp [hc] at h
    have hrest : OffsetMap.find rest off = none := by
      unfold OffsetMap.find at h
      simpa [hne] using h
    simp only [List.orderedInsert]
    by_cases hle : off ≤ e.1
    · simp only [hle, if_true]
      by_cases h2 : off2 = off
      · simp [OffsetMap.find, h2]
      · have h3 : ¬ off = off2 := fun hc => h2 hc.symm
        simp [OffsetMap.find, h2, h3]
    · simp only [hle, if_false]
      unfold OffsetMap.find
      rw [ih hrest]
      by_cases h2 : off2 = off
      · subst h2
        simp [hne]
      · simp [h2]

theorem OffsetMap.mem_get_addPointsTo (off : Nat) (p : Pointer) (m : OffsetMap)
    (off2 : Nat) (q : Pointer) :
    q ∈ (OffsetMap.addPointsTo off p m).1.get off2 ↔
      q ∈ m.get off2 ∨ (off2 = off ∧ q = p) := by
  unfold OffsetMap.addPointsTo OffsetMap.get
  cases hf : m.find off with
  | none =>
    simp only [OffsetMap.find_orderedInsert off [p] m off2 hf]
    by_cases h2 : off2 = off
    · subst h2
      simp [hf]
    · simp [h2]
  | some S =>
    simp only [OffsetMap.find_insertAt]
    by_cases h2 : off2 = off
    · subst h2
      simp [hf, mem_insert]
    · simp [h2]

theorem OffsetMap.addPointsTo_snd (off : Nat) (p : Pointer) (m : OffsetMap) :
    (OffsetMap.addPointsTo off p m).2 = true ↔ p ∉ m.get off := by
  unfold OffsetMap.addPointsTo OffsetMap.get
  cases hf : m.find off with
  | none => simp
  | some S => simp [insert_snd]

theorem MemoryObject.mem_get_addPointsToSet (off : Nat) (ptrs : List Pointer)
    (o : MemoryObject) (off2 : Nat) (q : Pointer) :
    q ∈ (o.addPointsToSet off ptrs).1.pointsTo.get off2 ↔
      q ∈ o.pointsTo.get off2 ∨ (off2 = off ∧ q ∈ ptrs) := by
  induction ptrs generalizing o with
  | nil => simp [MemoryObject.addPointsToSet]
  | cons p rest ih =>
    simp only [MemoryObject.addPointsToSet, ih, MemoryObject.addPointsTo,
      OffsetMap.mem_get_addPointsTo, List.mem_cons]
    tauto

theorem MemoryObject.addPointsToSet_snd (off : Nat) (ptrs : List Pointer)
    (o : MemoryObject) :
    (o.addPointsToSet off ptrs).2 = true ↔ ∃ q ∈ ptrs, q ∉ o.pointsTo.get off := by
  induction ptrs generalizing o with
  | nil => simp [MemoryObject.addPointsToSet]
  | cons p rest ih =>
    simp only [MemoryObject.addPointsToSet, Bool.or_eq_true, ih, MemoryObject.addPointsTo,
      OffsetMap.addPointsTo_snd, OffsetMap.mem_get_addPointsTo, List.mem_cons,
      exists_eq_or_imp]
    constructor
    · rintro (h | ⟨q, hq, hn⟩)
      · exact Or.inl h
      · exact Or.inr ⟨q, hq, fun hc => hn (Or.inl hc)⟩
    · rintro (h | ⟨q, hq, hn⟩)
      · exact Or.inl h
      · by_cases hqp : q = p
        · subst hqp; exact Or.inl hn
        · exact Or.inr ⟨q, hq, fun hc => hc.elim hn (fun h2 => hqp h2.2)⟩

theorem objectsGrow_refl (A : Nat → MemoryObject) : objectsGrow A A :=
  fun _ _ _ h => h

theorem objectsGained_trans_iff (A B C : Nat → MemoryObject)
    (hAB : objectsGrow A B) (hBC : objectsGrow B C) :
    objectsGained A C ↔ objectsGained A B ∨ objectsGained B C := by
  constructor
  · rintro ⟨o, off, q, h1, h2⟩
    by_cases hB : q ∈ (B o).pointsTo.get off
    · exact Or.inl ⟨o, off, q, hB, h2⟩
    · exact Or.inr ⟨o, off, q, h1, hB⟩
  · rintro (⟨o, off, q, h1, h2⟩ | ⟨o, off, q, h1, h2⟩)
    · exact ⟨o, off, q, hBC _ _ _ h1, h2⟩
    · exact ⟨o, off, q, h1, fun hc => h2 (hAB _ _ _ hc)⟩

/-! ## STORE -/

theorem mem_get_update_addPointsToSet (A : Nat → MemoryObject) (o off : Nat)
    (vals : List Pointer) (o2 off2 : Nat) (q : Pointer) :
    q ∈ ((Function.update A o ((A o).addPointsToSet off vals).1) o2).pointsTo.get off2 ↔
      q ∈ (A o2).pointsTo.get off2 ∨ (o2 = o ∧ off2 = off ∧ q ∈ vals) := by
  by_cases h : o2 = o
  · subst h
    simp only [Function.update_same, MemoryObject.mem_get_addPointsToSet, true_and]
  · simp only [Function.update_noteq h, h, false_and, or_false]

theorem addPointsToSet_snd_iff_gained (A : Nat → MemoryObject) (o off : Nat)
    (vals : List Pointer) :
    ((A o).addPointsToSet off vals).2 = true ↔
      objectsGained A (Function.update A o ((A o).addPointsToSet off vals).1) := by
  rw [MemoryObject.addPointsToSet_snd]
  unfold objectsGained
  constructor
  · rintro ⟨q, hq, hn⟩
    exact ⟨o, off, q, (mem_get_update_addPointsToSet A o off vals o off q).2
      (Or.inr ⟨rfl, rfl, hq⟩), hn⟩
  · rintro ⟨o2, off2, q, h1, h2⟩
    rcases (mem_get_update_addPointsToSet A o off vals o2 off2 q).1 h1 with h | ⟨ho, hoff, hq⟩
    · exact absurd h h2
    · subst ho; subst hoff
      exact ⟨q, hq, h2⟩

theorem mem_get_storeObjects (off : Nat) (vals : List Pointer) (os : List Nat)
    (acc : (Nat → MemoryObject) × Bool) (o2 off2 : Nat) (q : Pointer) :
    q ∈ ((storeObjects off vals os acc).1 o2).pointsTo.get off2 ↔
      q ∈ (acc.1 o2).pointsTo.get off2 ∨ (o2 ∈ os ∧ off2 = off ∧ q ∈ vals) := by
  induction os generalizing acc with
  | nil => simp [storeObjects]
  | cons o rest ih =>
    simp only [storeObjects, ih, mem_get_update_addPointsToSet, List.mem_cons]
    tauto

theorem storeObjects_grow (off : Nat) (vals : List Pointer) (os : List Nat)
    (acc : (Nat → MemoryObject) × Bool) :
    objectsGrow acc.1 (storeObjects off vals os acc).1 :=
  fun o2 off2 q h => (mem_get_storeObjects off vals os acc o2 off2 q).2 (Or.inl h)

theorem storeObjects_snd (off : Nat) (vals : List Pointer) (os : List Nat)
    (acc : (Nat → MemoryObject) × Bool) :
    (storeObjects off vals os acc).2 = true ↔
      acc.2 = true ∨ objectsGained acc.1 (storeObjects off vals os acc).1 := by
  induction os generalizing acc with
  | nil =>
    simp only [storeObjects]
    constructor
    · exact Or.inl
    · rintro (h | ⟨o, off2, q, h1, h2⟩)
      · exact h
      · exact absurd h1 h2
  | cons o rest ih =>
    simp only [storeObjects]
    rw [ih]
    have hgrow1 : objectsGrow acc.1
        (Function.update acc.1 o ((acc.1 o).addPointsToSet off vals).1) :=
      fun o2 off2 q h => (mem_get_update_addPointsToSet acc.1 o off vals o2 off2 q).2 (Or.inl h)
    have hgrow2 := storeObjects_grow off vals rest
      (Function.update acc.1 o ((acc.1 o).addPointsToSet off vals).1,
        acc.2 || ((acc.1 o).addPointsToSet off vals).2)
    rw [objectsGained_trans_iff acc.1 _ _ hgrow1 hgrow2]
    simp only [Bool.or_eq_true, addPointsToSet_snd_iff_gained, or_assoc]

theorem mem_get_processStoreLoop (pa : PointerAnalysis) (node : Nat) (vals : List Pointer)
    (ptrs : List Pointer) (acc : (Nat → MemoryObject) × Bool) (o2 off2 : Nat) (q : Pointer) :
    q ∈ ((processStoreLoop pa node vals ptrs acc).1 o2).pointsTo.get off2 ↔
      q ∈ (acc.1 o2).pointsTo.get off2 ∨
        ∃ p ∈ ptrs, p.isNull = false ∧ o2 ∈ pa.getMemoryObjects node p ∧
          off2 = p.offset ∧ q ∈ vals := by
  induction ptrs generalizing acc with
  | nil => simp [processStoreLoop]
  | cons p rest ih =>
    unfold processStoreLoop
    by_cases hn : p.isNull = true
    · simp only [hn, if_true, ih, List.mem_cons, exists_eq_or_imp]
      simp
    · have hn2 : p.isNull = false := by simpa using hn
      simp only [hn2, Bool.false_eq_true, if_false, ih, mem_get_storeObjects, List.mem_cons,
        exists_eq_or_imp, true_and, or_assoc]

theorem processStoreLoop_grow (pa : PointerAnalysis) (node : Nat) (vals : List Pointer)
    (ptrs : List Pointer) (acc : (Nat → MemoryObject) × Bool) :
    objectsGrow acc.1 (processStoreLoop pa node vals ptrs acc).1 :=
  fun o2 off2 q h => (mem_get_processStoreLoop pa node vals ptrs acc o2 off2 q).2 (Or.inl h)

theorem processStoreLoop_snd (pa : PointerAnalysis) (node : Nat) (vals : List Pointer)
    (ptrs : List Pointer) (acc : (Nat → MemoryObject) × Bool) :
    (processStoreLoop pa node vals ptrs acc).2 = true ↔
      acc.2 = true ∨ objectsGained acc.1 (processStoreLoop pa node vals ptrs acc).1 := by
  induction ptrs generalizing acc with
  | nil =>
    simp only [processStoreLoop]
    constructor
    · exact Or.inl
    · rintro (h | ⟨o, off2, q, h1, h2⟩)
      · exact h
      · exact absurd h1 h2
  | cons p rest ih =>
    unfold processStoreLoop
    by_cases hn : p.isNull = true
    · simp only [hn, if_true]
      exact ih acc
    · have hn2 : p.isNull = false := by simpa using hn
      simp only [hn2, Bool.false_eq_true, if_false]
      rw [ih]
      have hgrow1 := storeObjects_grow p.offset vals (pa.getMemoryObjects node p) acc
      have hgrow2 := processStoreLoop_grow pa node vals rest
        (storeObjects p.offset vals (pa.getMemoryObjects node p) acc)
      rw [objectsGained_trans_iff acc.1 _ _ hgrow1 hgrow2, storeObjects_snd, or_assoc]

theorem processNode_store_eq (pa : PointerAnalysis) (node op0 op1 : Nat)
    (htype : (pa.nodes node).type = PSNodeType.STORE)
    (h0 : pa.getOperand node 0 = some op0) (h1 : pa.getOperand node 1 = some op1) :
    processNode pa node =
      some ({ pa with objects :=
          (processStoreLoop pa node (pa.pt op0) (pa.pt op1) (pa.objects, false)).1 },
        (processStoreLoop pa node (pa.pt op0) (pa.pt op1) (pa.objects, false)).2) := by
  unfold processNode
  rw [htype]
  simp only [processStore, h0, h1]

/-- C7, as amended: the STORE transfer skips null pointers only. For a STORE
node `n`, `processNode` returns; afterwards, for every pointer `p` of `pt(op1)`
that is not null (valid or not), every object `o` the resolver returns for
`(n, p)` and every `q` of `pt(op0)`, `q` is in `o[p.offset]`; a pointer is in an
object afterwards only if it was there before or was written in this way; the
nodes (so `pt(n)`) and the reports are unchanged; the result is `true` iff
an object holds a pointer it did not hold before. -/
theorem processNode_store (pa : PointerAnalysis) (node op0 op1 : Nat)
    (htype : (pa.nodes node).type = PSNodeType.STORE)
    (h0 : pa.getOperand node 0 = some op0) (h1 : pa.getOperand node 1 = some op1) :
    ∃ r, processNode pa node = some r ∧
      (∀ p ∈ pa.pt op1, p.isNull = false → ∀ o ∈ pa.getMemoryObjects node p,
        ∀ q ∈ pa.pt op0, q ∈ (r.1.objects o).pointsTo.get p.offset) ∧
      (∀ o off q, q ∈ (r.1.objects o).pointsTo.get off →
        q ∈ (pa.objects o).pointsTo.get off ∨
          ∃ p ∈ pa.pt op1, p.isNull = false ∧ o ∈ pa.getMemoryObjects node p ∧
            off = p.offset ∧ q ∈ pa.pt op0) ∧
      objectsGrow pa.objects r.1.objects ∧
      r.1.nodes = pa.nodes ∧ r.1.reports = pa.reports ∧
      (r.2 = true ↔ objectsGained pa.objects r.1.objects) := by
  refine ⟨_, processNode_store_eq pa node op0 op1 htype h0 h1, ?_, ?_, ?_, rfl, rfl, ?_⟩
  · intro p hp hn o ho q hq
    exact (mem_get_processStoreLoop pa node _ _ _ o p.offset q).2
      (Or.inr ⟨p, hp, hn, ho, rfl, hq⟩)
  · intro o off q hq
    exact (mem_get_processStoreLoop pa node _ _ _ o off q).1 hq
  · exact processStoreLoop_grow pa node _ _ (pa.objects, false)
  · have := processStoreLoop_snd pa node (pa.pt op0) (pa.pt op1) (pa.objects, false)
    simpa using this

/-- C7, as amended, at the store `f = setA` of `global8.c`: the pointer
`(f, 0)` is not null and `(setA, 0)` is in the object of `f` under offset 0
afterwards. -/
theorem processNode_store_witness :
    (global8Example.nodes 22).type = PSNodeType.STORE ∧
    global8Example.getOperand 22 0 = some 20 ∧
    global8Example.getOperand 22 1 = some 21 ∧
    ∃ r, processNode global8Example 22 = some r ∧
      (⟨20, 0⟩ : Pointer) ∈ (r.1.objects 21).pointsTo.get 0 :=
  ⟨by decide, by decide, by decide, by
    obtain ⟨r, hr, hin, _⟩ :=
      processNode_store global8Example 22 20 21 (by decide) (by decide) (by decide)
    exact ⟨r, hr, hin ⟨21, 0⟩ (by decide) (by decide) 21 (by decide) ⟨20, 0⟩ (by decide)⟩⟩

/-- C7, as stated, fails: the pointer `(UNKNOWN_MEMORY, UNKNOWN)` of `pt(op1)`
is not valid, and the STORE still writes `pt(op0)` into the object that the
resolver returns for it and reports a change. -/
theorem processNode_store_writes_through_unknown :
    PointerUnknown ∈ storeUnknownExample.pt 12 ∧
    PointerUnknown.isValid = false ∧
    storeUnknownExample.getMemoryObjects 22 PointerUnknown = [UNKNOWN_MEMORY] ∧
    (storeUnknownExample.objects UNKNOWN_MEMORY).pointsTo = [] ∧
    (processNode storeUnknownExample 22).map
        (fun r => ((r.1.objects UNKNOWN_MEMORY).pointsTo, r.2)) =
      some ([(UNKNOWN, [⟨20, 0⟩])], true) := by
  decide

theorem OffsetMap.mem_of_find (m : OffsetMap) (off : Nat) (S : PointsToSet)
    (h : m.find off = some S) : (off, S) ∈ m := by
  induction m with
  | nil => simp [OffsetMap.find] at h
  | cons e rest ih =>
    unfold OffsetMap.find at h
    by_cases he : e.1 = off
    · simp only [he, if_true, Option.some.injEq] at h
      have : e = (off, S) := Prod.ext he h
      rw [this]
      exact List.mem_cons_self _ _
    · simp only [he, if_false] at h
      exact List.mem_cons_of_mem _ (ih h)

theorem specLoaded_of_mem_get (ptr : Pointer) (o : MemoryObject) (q : Pointer)
    (h : q ∈ o.pointsTo.get ptr.offset) : specLoaded ptr o q := by
  unfold specLoaded
  by_cases hu : ptr.offset = UNKNOWN
  · rw [if_pos hu]
    unfold OffsetMap.get at h
    cases hf : o.pointsTo.find ptr.offset with
    | none => rw [hf] at h; simp at h
    | some S =>
      rw [hf] at h
      exact ⟨(ptr.offset, S), OffsetMap.mem_of_find _ _ _ hf, h⟩
  · rw [if_neg hu]
    exact Or.inl h

theorem Pointer.isNull_of_isValid (p : Pointer) (h : p.isValid = true) :
    p.isNull = false := by
  unfold Pointer.isValid at h
  cases hn : p.isNull with
  | false => rfl
  | true => rw [hn] at h; simp at h

/-- C8: store then load. Let `(a, off)` be a valid, non-invalidated pointer of
`pt(p)` for which the resolver returns a common memory object at the STORE
`*p <- v` and at the LOAD `x = *p`, and let every valid pointer of `pt(p)`
target a memory allocation. Then `processNode` returns on the STORE and, in the
resulting state, on the LOAD, and every pointer of `pt(v)` is in `pt(x)`
afterwards. In `global8.c`, after `f = setA` the load of `f` has
`pt = {(setA, 0)}`. -/
theorem store_load_roundtrip (pa : PointerAnalysis) (store load p v a off : Nat)
    (hts : (pa.nodes store).type = PSNodeType.STORE)
    (htl : (pa.nodes load).type = PSNodeType.LOAD)
    (hs0 : pa.getOperand store 0 = some v) (hs1 : pa.getOperand store 1 = some p)
    (hl0 : pa.getOperand load 0 = some p)
    (hin : (⟨a, off⟩ : Pointer) ∈ pa.pt p)
    (hvalid : (⟨a, off⟩ : Pointer).isValid = true)
    (hinv : (⟨a, off⟩ : Pointer).isInvalidated = false)
    (halloc : ∀ x ∈ pa.pt p, x.isValid = true → x.isInvalidated = false →
      (pa.nodes x.target).isAlloc = true)
    (hsame : ∃ o, o ∈ pa.getMemoryObjects store ⟨a, off⟩ ∧
      o ∈ pa.getMemoryObjects load ⟨a, off⟩) :
    (∃ r1 r2, processNode pa store = some r1 ∧ processNode r1.1 load = some r2 ∧
      ∀ q ∈ pa.pt v, q ∈ r2.1.pt load) ∧
    ((processNode global8Example 22).bind (fun r => processNode r.1 23)).map
        (fun r => r.1.pt 23) = some [⟨20, 0⟩] := by
  refine ⟨?_, by decide⟩
  obtain ⟨o, hos, hol⟩ := hsame
  have hr1 := processNode_store_eq pa store v p hts hs0 hs1
  generalize hS : processStoreLoop pa store (pa.pt v) (pa.pt p) (pa.objects, false) = S at hr1
  have hl0b : ({ pa with objects := S.1 } : PointerAnalysis).getOperand load 0 = some p := hl0
  obtain ⟨r2, hr2, hld, _⟩ :=
    processLoad_result { pa with objects := S.1 } load p hl0b halloc
  have hr2b : processNode { pa with objects := S.1 } load = some r2 := by
    unfold processNode
    rw [show (({ pa with objects := S.1 } : PointerAnalysis).nodes load).type =
      PSNodeType.LOAD from htl]
    exact hr2
  refine ⟨_, r2, hr1, hr2b, ?_⟩
  intro q hq
  have hstored : q ∈ (S.1 o).pointsTo.get off := by
    rw [← hS]
    exact (mem_get_processStoreLoop pa store _ _ _ o off q).2
      (Or.inr ⟨⟨a, off⟩, hin, Pointer.isNull_of_isValid _ hvalid, hos, rfl, hq⟩)
  refine (hld q).2 (Or.inr ⟨⟨a, off⟩, hin, hvalid, hinv, Or.inr ⟨o, hol, Or.inl ?_⟩⟩)
  exact specLoaded_of_mem_get ⟨a, off⟩ (S.1 o) q hstored

/-- C8, at `global8.c`: the store `f = setA` (node 22) and the load of `f`
(node 23) meet the conditions, so both return and `(setA, 0)` is in the
points-to set of the load. -/
theorem store_load_roundtrip_witness :
    (⟨21, 0⟩ : Pointer) ∈ global8Example.pt 21 ∧
    (⟨20, 0⟩ : Pointer) ∈ global8Example.pt 20 ∧
    ∃ r1 r2, processNode global8Example 22 = some r1 ∧ processNode r1.1 23 = some r2 ∧
      ∀ q ∈ global8Example.pt 20, q ∈ r2.1.pt 23 :=
  ⟨by decide, by decide,
    (store_load_roundtrip global8Example 22 23 21 20 21 0 (by decide) (by decide) (by decide)
      (by decide) (by decide) (by decide) (by decide) (by decide) (by decide)
      ⟨21, by decide, by decide⟩).1⟩

/-! ## CALL_FUNCPTR -/

theorem callFuncptrStep_of_mem (node : Nat) (a : NodeAcc) (p : Pointer)
    (h : p ∈ a.pointsTo) : callFuncptrStep node a p = a := by
  unfold callFuncptrStep addPointsTo
  rw [insert_of_mem _ _ h]
  simp

theorem callFuncptrStep_of_not_mem (node : Nat) (a : NodeAcc) (p : Pointer)
    (h : p ∉ a.pointsTo) :
    callFuncptrStep node a p =
      { pointsTo := (addPointsTo a.pointsTo p).1,
        reports := a.reports ++ [callFuncptrReport node p],
        changed := true } := by
  have h2 : (addPointsTo a.pointsTo p).2 = true := (insert_snd _ _).2 h
  unfold callFuncptrStep callFuncptrReport
  rw [if_pos h2]
  by_cases hv : (p.isValid && !p.isInvalidated) = true
  · rw [if_pos hv, if_pos hv]
  · rw [if_neg hv, if_neg hv]

theorem mem_callFuncptrStep (node : Nat) (a : NodeAcc) (p q : Pointer) :
    q ∈ (callFuncptrStep node a p).pointsTo ↔ q ∈ a.pointsTo ∨ q = p := by
  by_cases h : p ∈ a.pointsTo
  · rw [callFuncptrStep_of_mem node a p h]
    constructor
    · exact Or.inl
    · rintro (h1 | rfl)
      · exact h1
      · exact h
  · rw [callFuncptrStep_of_not_mem node a p h]
    simp only [addPointsTo, mem_insert]

theorem mem_foldl_callFuncptrStep (node : Nat) (ptrs : List Pointer) (a : NodeAcc)
    (q : Pointer) :
    q ∈ (ptrs.foldl (callFuncptrStep node) a).pointsTo ↔ q ∈ a.pointsTo ∨ q ∈ ptrs := by
  induction ptrs generalizing a with
  | nil => simp
  | cons p rest ih =>
    simp only [List.foldl_cons, ih, mem_callFuncptrStep, List.mem_cons]
    tauto

theorem foldl_callFuncptrStep_stable (node : Nat) (ptrs : List Pointer) (a : NodeAcc)
    (h : ∀ p ∈ ptrs, p ∈ a.pointsTo) : ptrs.foldl (callFuncptrStep node) a = a := by
  induction ptrs generalizing a with
  | nil => rfl
  | cons p rest ih =>
    rw [List.foldl_cons, callFuncptrStep_of_mem node a p (h p (List.mem_cons_self _ _))]
    exact ih a (fun x hx => h x (List.mem_cons_of_mem _ hx))

theorem foldl_callFuncptrStep_reports (node : Nat) (ptrs : List Pointer) (a : NodeAcc)
    (hnd : ptrs.Nodup) :
    (ptrs.foldl (callFuncptrStep node) a).reports =
        a.reports ++ (ptrs.filter (fun p => decide (p ∉ a.pointsTo))).map
          (callFuncptrReport node) ∧
      ((ptrs.foldl (callFuncptrStep node) a).changed = true ↔
        a.changed = true ∨ ∃ p ∈ ptrs, p ∉ a.pointsTo) := by
  induction ptrs generalizing a with
  | nil => simp
  | cons p rest ih =>
    have hnd2 : rest.Nodup := (List.nodup_cons.mp hnd).2
    have hp : p ∉ rest := (List.nodup_cons.mp hnd).1
    rw [List.foldl_cons]
    by_cases h : p ∈ a.pointsTo
    · rw [callFuncptrStep_of_mem node a p h]
      obtain ⟨h1, h2⟩ := ih a hnd2
      refine ⟨?_, ?_⟩
      · rw [h1, List.filter_cons]
        simp [h]
      · rw [h2]
        simp only [List.mem_cons, exists_eq_or_imp]
        tauto
    · rw [callFuncptrStep_of_not_mem node a p h]
      obtain ⟨h1, h2⟩ := ih
        { pointsTo := (addPointsTo a.pointsTo p).1,
          reports := a.reports ++ [callFuncptrReport node p],
          changed := true } hnd2
      refine ⟨?_, ?_⟩
      · rw [h1, List.filter_cons]
        have hfilter : rest.filter (fun x => decide (x ∉ (addPointsTo a.pointsTo p).1)) =
            rest.filter (fun x => decide (x ∉ a.pointsTo)) := by
          apply List.filter_congr
          intro x hx
          have hxp : x ≠ p := fun hc => hp (hc ▸ hx)
          simp only [addPointsTo, mem_insert, hxp, or_false]
        simp only [hfilter, h, not_false_eq_true, decide_True, if_true, List.map_cons,
          List.append_assoc, List.singleton_append]
      · rw [h2]
        simp only [true_or, true_iff]
        exact Or.inr ⟨p, List.mem_cons_self _ _, h⟩

theorem processNode_callFuncptr_eq (pa : PointerAnalysis) (node op : Nat)
    (htype : (pa.nodes node).type = PSNodeType.CALL_FUNCPTR)
    (hop : pa.getOperand node 0 = some op) :
    processNode pa node =
      some (pa.commit node
          ((pa.pt op).foldl (callFuncptrStep node) ⟨pa.pt node, pa.reports, false⟩),
        ((pa.pt op).foldl (callFuncptrStep node) ⟨pa.pt node, pa.reports, false⟩).changed) := by
  unfold processNode
  rw [htype]
  simp only [processCallFuncptr, hop]

theorem nodes_commit_type (pa : PointerAnalysis) (n m : Nat) (a : NodeAcc) :
    ((pa.commit n a).nodes m).type = (pa.nodes m).type := by
  unfold PointerAnalysis.commit PointerAnalysis.setPointsTo
  by_cases h : m = n
  · subst h; simp
  · simp [Function.update_noteq h]

theorem getOperand_commit (pa : PointerAnalysis) (n m i : Nat) (a : NodeAcc) :
    (pa.commit n a).getOperand m i = pa.getOperand m i := by
  unfold PointerAnalysis.getOperand PointerAnalysis.commit PointerAnalysis.setPointsTo
  by_cases h : m = n
  · subst h; simp
  · simp [Function.update_noteq h]

/-- C9: the CALL_FUNCPTR transfer. `processNode` returns; `pt(n)` afterwards is
`pt(n)` before together with `pt(op0)`; the hook calls added are, in the order
of `pt(op0)`, one for each pointer `p` that was not in `pt(n)`: the callback
with `(n, p.target)` when `p` is valid (its target is none of `NULLPTR`,
`UNKNOWN_MEMORY`, `INVALIDATED`), the invalid-function-call error otherwise;
the result is `true` iff a pointer was new. Processing the node again returns
`false`, makes no hook call and leaves `pt(n)` as it is. In `global8.c` the
call `f()` makes one callback, with target `setA`. -/
theorem processNode_callFuncptr (pa : PointerAnalysis) (node op : Nat)
    (htype : (pa.nodes node).type = PSNodeType.CALL_FUNCPTR)
    (hop : pa.getOperand node 0 = some op)
    (hnd : (pa.pt op).Nodup) :
    (∃ r, processNode pa node = some r ∧
      (∀ q, q ∈ r.1.pt node ↔ q ∈ pa.pt node ∨ q ∈ pa.pt op) ∧
      r.1.reports = pa.reports ++
        ((pa.pt op).filter (fun p => decide (p ∉ pa.pt node))).map
          (callFuncptrReport node) ∧
      (r.2 = true ↔ ∃ p ∈ pa.pt op, p ∉ pa.pt node) ∧
      ∃ r2, processNode r.1 node = some r2 ∧ r2.2 = false ∧
        r2.1.reports = r.1.reports ∧ r2.1.pt node = r.1.pt node) ∧
    (∀ (n : Nat) (p : Pointer),
      (callFuncptrReport n p = Report.functionPointerCall n p.target ↔
        (p.target ≠ NULLPTR ∧ p.target ≠ UNKNOWN_MEMORY ∧ p.target ≠ INVALIDATED)) ∧
      (callFuncptrReport n p = Report.invalidFunctionCall n ↔
        ¬ (p.target ≠ NULLPTR ∧ p.target ≠ UNKNOWN_MEMORY ∧ p.target ≠ INVALIDATED))) ∧
    (((processNode global8Example 22).bind (fun r => processNode r.1 23)).bind
        (fun r => processNode r.1 24)).map (fun r => (r.1.pt 24, r.1.reports, r.2)) =
      some ([⟨20, 0⟩], [Report.functionPointerCall 24 20], true) := by
  refine ⟨?_, ?_, by decide⟩
  · obtain ⟨hrep, hch⟩ := foldl_callFuncptrStep_reports node (pa.pt op)
      ⟨pa.pt node, pa.reports, false⟩ hnd
    refine ⟨_, processNode_callFuncptr_eq pa node op htype hop, ?_, ?_, ?_, ?_⟩
    · intro q
      rw [pt_commit_same, mem_foldl_callFuncptrStep]
    · exact hrep
    · rw [hch]
      simp
    · generalize hA : (pa.pt op).foldl (callFuncptrStep node) ⟨pa.pt node, pa.reports, false⟩
        = A
      have hAmem : ∀ q, q ∈ A.pointsTo ↔ q ∈ pa.pt node ∨ q ∈ pa.pt op := by
        intro q
        rw [← hA, mem_foldl_callFuncptrStep]
      have htype2 : ((pa.commit node A).nodes node).type = PSNodeType.CALL_FUNCPTR := by
        rw [nodes_commit_type]; exact htype
      have hop2 : (pa.commit node A).getOperand node 0 = some op := by
        rw [getOperand_commit]; exact hop
      have hsub : ∀ p ∈ (pa.commit node A).pt op, p ∈ A.pointsTo := by
        intro p hp
        by_cases hon : op = node
        · rw [hon, pt_commit_same] at hp
          exact hp
        · rw [pt_commit_other pa node op A hon] at hp
          exact (hAmem p).2 (Or.inr hp)
      have hstable := foldl_callFuncptrStep_stable node ((pa.commit node A).pt op)
        ⟨A.pointsTo, A.reports, false⟩ hsub
      refine ⟨_, processNode_callFuncptr_eq (pa.commit node A) node op htype2 hop2, ?_, ?_, ?_⟩
      · have h1 : (pa.commit node A).pt node = A.pointsTo := pt_commit_same pa node A
        have h2 : (pa.commit node A).reports = A.reports := rfl
        simp only [h1, h2, hstable]
      · have h1 : (pa.commit node A).pt node = A.pointsTo := pt_commit_same pa node A
        have h2 : (pa.commit node A).reports = A.reports := rfl
        simp only [h1, h2, hstable]
        rfl
      · have h1 : (pa.commit node A).pt node = A.pointsTo := pt_commit_same pa node A
        have h2 : (pa.commit node A).reports = A.reports := rfl
        simp only [h1, h2, hstable, pt_commit_same]
  · intro n p
    unfold callFuncptrReport Pointer.isValid Pointer.isUnknown Pointer.isNull
      Pointer.isInvalidated
    by_cases h1 : p.target = NULLPTR <;> by_cases h2 : p.target = UNKNOWN_MEMORY <;>
      by_cases h3 : p.target = INVALIDATED <;> simp [h1, h2, h3]

/-- C9, at the call `f()` of `global8.c` with `pt(f) = {(setA, 0)}` loaded:
the node is a CALL_FUNCPTR, the operand set has no duplicates, and the only
hook call is the callback with target `setA`. -/
theorem processNode_callFuncptr_witness :
    (global8Example.nodes 24).type = PSNodeType.CALL_FUNCPTR ∧
    global8Example.getOperand 24 0 = some 23 ∧
    ((global8Example.setPointsTo 23 [⟨20, 0⟩]).pt 23).Nodup ∧
    ∃ r, processNode (global8Example.setPointsTo 23 [⟨20, 0⟩]) 24 = some r ∧
      r.1.reports = (global8Example.setPointsTo 23 [⟨20, 0⟩]).reports ++
        (((global8Example.setPointsTo 23 [⟨20, 0⟩]).pt 23).filter
          (fun p => decide (p ∉ (global8Example.setPointsTo 23 [⟨20, 0⟩]).pt 24))).map
          (callFuncptrReport 24) :=
  ⟨by decide, by decide, by decide, by
    obtain ⟨r, hr, _, hrep, _⟩ :=
      (processNode_callFuncptr (global8Example.setPointsTo 23 [⟨20, 0⟩]) 24 23
        (by decide) (by decide) (by decide)).1
    exact ⟨r, hr, hrep⟩⟩

/-! ## PHI and CALL_RETURN -/

theorem mem_processPhiLoop (pa : PointerAnalysis) (ops : List Nat) (a : NodeAcc)
    (q : Pointer) :
    q ∈ (processPhiLoop pa ops a).pointsTo ↔ q ∈ a.pointsTo ∨ ∃ op ∈ ops, q ∈ pa.pt op := by
  induction ops generalizing a with
  | nil => simp [processPhiLoop]
  | cons op rest ih =>
    simp only [processPhiLoop, ih, NodeAcc.mem_addAll, List.mem_cons, exists_eq_or_imp,
      or_assoc]

theorem reports_processPhiLoop (pa : PointerAnalysis) (ops : List Nat) (a : NodeAcc) :
    (processPhiLoop pa ops a).reports = a.reports := by
  induction ops generalizing a with
  | nil => rfl
  | cons op rest ih => simp only [processPhiLoop, ih, NodeAcc.reports_addAll]

theorem callReturnPointers_some (pa : PointerAnalysis) (ptrs : List Pointer) (a : NodeAcc)
    (h : ∀ p ∈ ptrs, (pa.nodes p.target).isAlloc = true) :
    ∃ b, callReturnPointers pa ptrs a = some b ∧
      (∀ q, q ∈ b.pointsTo ↔ q ∈ a.pointsTo ∨
        (q = PointerInvalidated ∧ ∃ p ∈ ptrs, (pa.nodes p.target).is_heap = false ∧
          (pa.nodes p.target).is_global = false)) ∧
      b.reports = a.reports := by
  induction ptrs generalizing a with
  | nil => exact ⟨a, rfl, by simp, rfl⟩
  | cons p rest ih =>
    have hp := h p (List.mem_cons_self _ _)
    have hrest : ∀ x ∈ rest, (pa.nodes x.target).isAlloc = true :=
      fun x hx => h x (List.mem_cons_of_mem _ hx)
    unfold callReturnPointers
    simp only [hp, Bool.not_true, Bool.false_eq_true, if_false]
    by_cases hl : (!(pa.nodes p.target).is_heap && !(pa.nodes p.target).is_global) = true
    · rw [if_pos hl]
      obtain ⟨b, hb, hmem, hrep⟩ := ih (a.add PointerInvalidated) hrest
      have hl2 : (pa.nodes p.target).is_heap = false ∧ (pa.nodes p.target).is_global = false := by
        simpa using hl
      refine ⟨b, hb, fun q => ?_, by rw [hrep, NodeAcc.reports_add]⟩
      rw [hmem, NodeAcc.mem_add]
      simp only [List.mem_cons, exists_eq_or_imp]
      tauto
    · rw [if_neg hl]
      obtain ⟨b, hb, hmem, hrep⟩ := ih a hrest
      have hl2 : ¬ ((pa.nodes p.target).is_heap = false ∧
          (pa.nodes p.target).is_global = false) := by
        simpa using hl
      refine ⟨b, hb, fun q => ?_, hrep⟩
      rw [hmem]
      simp only [List.mem_cons, exists_eq_or_imp]
      tauto

theorem callReturnPointers_none (pa : PointerAnalysis) (ptrs : List Pointer) (a : NodeAcc)
    (h : ∃ p ∈ ptrs, (pa.nodes p.target).isAlloc = false) :
    callReturnPointers pa ptrs a = none := by
  induction ptrs generalizing a with
  | nil =>
    obtain ⟨p, hp, _⟩ := h
    exact absurd hp (List.not_mem_nil _)
  | cons p rest ih =>
    unfold callReturnPointers
    by_cases hp : (pa.nodes p.target).isAlloc = true
    · have hrest : ∃ x ∈ rest, (pa.nodes x.target).isAlloc = false := by
        obtain ⟨x, hx, hxa⟩ := h
        rcases List.mem_cons.mp hx with rfl | hx2
        · rw [hp] at hxa; exact Bool.noConfusion hxa
        · exact ⟨x, hx2, hxa⟩
      simp only [hp, Bool.not_true, Bool.false_eq_true, if_false]
      split
      · exact ih _ hrest
      · exact ih _ hrest
    · have hp2 : (pa.nodes p.target).isAlloc = false := by simpa using hp
      simp [hp2]

theorem callReturnOperands_some (pa : PointerAnalysis) (ops : List Nat) (a : NodeAcc)
    (h : ∀ op ∈ ops, ∀ p ∈ pa.pt op, (pa.nodes p.target).isAlloc = true) :
    ∃ b, callReturnOperands pa ops a = some b ∧
      (∀ q, q ∈ b.pointsTo ↔ q ∈ a.pointsTo ∨
        (q = PointerInvalidated ∧ ∃ op ∈ ops, ∃ p ∈ pa.pt op,
          (pa.nodes p.target).is_heap = false ∧ (pa.nodes p.target).is_global = false)) ∧
      b.reports = a.reports := by
  induction ops generalizing a with
  | nil => exact ⟨a, rfl, by simp, rfl⟩
  | cons op rest ih =>
    obtain ⟨a1, ha1, hm1, hr1⟩ :=
      callReturnPointers_some pa (pa.pt op) a (h op (List.mem_cons_self _ _))
    obtain ⟨b, hb, hm2, hr2⟩ := ih a1 (fun o ho => h o (List.mem_cons_of_mem _ ho))
    refine ⟨b, by simp only [callReturnOperands, ha1, hb], fun q => ?_, by rw [hr2, hr1]⟩
    rw [hm2, hm1]
    simp only [List.mem_cons, exists_eq_or_imp]
    constructor
    · rintro ((h1 | ⟨h1, h2⟩) | ⟨h1, h2⟩)
      · exact Or.inl h1
      · exact Or.inr ⟨h1, Or.inl h2⟩
      · exact Or.inr ⟨h1, Or.inr h2⟩
    · rintro (h1 | ⟨h1, h2 | h2⟩)
      · exact Or.inl (Or.inl h1)
      · exact Or.inl (Or.inr ⟨h1, h2⟩)
      · exact Or.inr ⟨h1, h2⟩

theorem callReturnOperands_none (pa : PointerAnalysis) (ops : List Nat) (a : NodeAcc)
    (h : ∃ op ∈ ops, ∃ p ∈ pa.pt op, (pa.nodes p.target).isAlloc = false) :
    callReturnOperands pa ops a = none := by
  induction ops generalizing a with
  | nil =>
    obtain ⟨op, hop, _⟩ := h
    exact absurd hop (List.not_mem_nil _)
  | cons op rest ih =>
    unfold callReturnOperands
    cases h1 : callReturnPointers pa (pa.pt op) a with
    | none => rfl
    | some a1 =>
      simp only
      apply ih
      obtain ⟨o, ho, p, hp, hpa⟩ := h
      rcases List.mem_cons.mp ho with rfl | ho2
      · rw [callReturnPointers_none pa (pa.pt o) a ⟨p, hp, hpa⟩] at h1
        exact Option.noConfusion h1
      · exact ⟨o, ho2, p, hp, hpa⟩

/-- C10, as amended: the invalidation of CALL_RETURN. With `invalidate_nodes`
enabled, when every pointer of every operand targets a memory allocation (the
assertion of line 358) `processNode` returns and `pt(n)` afterwards is `pt(n)`
before, the union of the operand sets, and `INVALIDATED` exactly when some
operand pointer targets an allocation that is neither heap nor global; in
particular `INVALIDATED` is in `pt(n)` for such a pointer, and when every
operand pointer targets a heap or global allocation the result is the union
alone. When some operand pointer targets a node that is not a memory
allocation the assertion fails and `processNode` does not return. -/
theorem processNode_callReturn (pa : PointerAnalysis) (node : Nat)
    (htype : (pa.nodes node).type = PSNodeType.CALL_RETURN)
    (hinv : pa.invalidate_nodes = true) :
    ((∀ op ∈ (pa.nodes node).operands, ∀ p ∈ pa.pt op,
        (pa.nodes p.target).isAlloc = true) →
      ∃ r, processNode pa node = some r ∧
        (∀ q, q ∈ r.1.pt node ↔
          q ∈ pa.pt node ∨ (∃ op ∈ (pa.nodes node).operands, q ∈ pa.pt op) ∨
            (q = PointerInvalidated ∧ ∃ op ∈ (pa.nodes node).operands, ∃ p ∈ pa.pt op,
              (pa.nodes p.target).is_heap = false ∧
                (pa.nodes p.target).is_global = false)) ∧
        ((∃ op ∈ (pa.nodes node).operands, ∃ p ∈ pa.pt op,
            (pa.nodes p.target).is_heap = false ∧ (pa.nodes p.target).is_global = false) →
          PointerInvalidated ∈ r.1.pt node) ∧
        ((∀ op ∈ (pa.nodes node).operands, ∀ p ∈ pa.pt op,
            (pa.nodes p.target).is_heap = true ∨ (pa.nodes p.target).is_global = true) →
          ∀ q, q ∈ r.1.pt node ↔
            q ∈ pa.pt node ∨ ∃ op ∈ (pa.nodes node).operands, q ∈ pa.pt op)) ∧
    ((∃ op ∈ (pa.nodes node).operands, ∃ p ∈ pa.pt op,
        (pa.nodes p.target).isAlloc = false) →
      processNode pa node = none) := by
  constructor
  · intro halloc
    obtain ⟨b, hb, hmem, _⟩ := callReturnOperands_some pa (pa.nodes node).operands
      ⟨pa.pt node, pa.reports, false⟩ halloc
    have hmain : ∀ q, q ∈ (processPhiLoop pa (pa.nodes node).operands b).pointsTo ↔
        q ∈ pa.pt node ∨ (∃ op ∈ (pa.nodes node).operands, q ∈ pa.pt op) ∨
          (q = PointerInvalidated ∧ ∃ op ∈ (pa.nodes node).operands, ∃ p ∈ pa.pt op,
            (pa.nodes p.target).is_heap = false ∧
              (pa.nodes p.target).is_global = false) := by
      intro q
      rw [mem_processPhiLoop, hmem]
      constructor
      · rintro ((h1 | h1) | h1)
        · exact Or.inl h1
        · exact Or.inr (Or.inr h1)
        · exact Or.inr (Or.inl h1)
      · rintro (h1 | h1 | h1)
        · exact Or.inl (Or.inl h1)
        · exact Or.inr h1
        · exact Or.inl (Or.inr h1)
    refine ⟨(pa.commit node (processPhiLoop pa (pa.nodes node).operands b),
        (processPhiLoop pa (pa.nodes node).operands b).changed), ?_, ?_, ?_, ?_⟩
    · unfold processNode
      rw [htype]
      simp only [processCallReturn, hinv, if_true, hb]
    · intro q
      rw [pt_commit_same]
      exact hmain q
    · intro hloc
      rw [pt_commit_same]
      exact (hmain _).2 (Or.inr (Or.inr ⟨rfl, hloc⟩))
    · intro hall q
      rw [pt_commit_same, hmain]
      constructor
      · rintro (h | h | ⟨_, op, hop, p, hp, hh, hg⟩)
        · exact Or.inl h
        · exact Or.inr h
        · rcases hall op hop p hp with h2 | h2
          · rw [hh] at h2; exact Bool.noConfusion h2
          · rw [hg] at h2; exact Bool.noConfusion h2
      · rintro (h | h)
        · exact Or.inl h
        · exact Or.inr (Or.inl h)
  · intro hbad
    unfold processNode
    rw [htype]
    simp only [processCallReturn, hinv, if_true,
      callReturnOperands_none pa (pa.nodes node).operands _ hbad]

/-- C10, as amended, at a CALL_RETURN over a pointer to a local allocation:
`processNode` returns and `INVALIDATED` is in `pt(n)`. -/
theorem processNode_callReturn_witness :
    (callReturnExample.nodes 31).type = PSNodeType.CALL_RETURN ∧
    callReturnExample.invalidate_nodes = true ∧
    (∀ op ∈ (callReturnExample.nodes 31).operands, ∀ p ∈ callReturnExample.pt op,
      (callReturnExample.nodes p.target).isAlloc = true) ∧
    ∃ r, processNode callReturnExample 31 = some r ∧ PointerInvalidated ∈ r.1.pt 31 :=
  ⟨by decide, by decide, by decide, by
    obtain ⟨r, hr, _, hloc, _⟩ :=
      (processNode_callReturn callReturnExample 31 (by decide) (by decide)).1 (by decide)
    exact ⟨r, hr, hloc ⟨30, by decide, ⟨10, 0⟩, by decide, by decide, by decide⟩⟩⟩

/-- C10, as stated, fails: with `invalidate_nodes` enabled and an operand whose
points-to set holds `(NULLPTR, 0)`, a pointer whose target is neither a heap
allocation nor a global, the assertion of line 358 fails and `processNode` does
not return. -/
theorem processNode_callReturn_null_aborts :
    (callReturnExample.nodes 33).type = PSNodeType.CALL_RETURN ∧
    callReturnExample.invalidate_nodes = true ∧
    (callReturnExample.nodes 33).operands = [32] ∧
    PointerNull ∈ callReturnExample.pt 32 ∧
    (callReturnExample.nodes PointerNull.target).is_heap = false ∧
    (callReturnExample.nodes PointerNull.target).is_global = false ∧
    (processNode callReturnExample 33).isSome = false := by
  decide

/-! ## Union transfers -/

theorem processPhiLoop_congr (pa pb : PointerAnalysis) (h : ∀ op, pb.pt op = pa.pt op)
    (ops : List Nat) (a : NodeAcc) : processPhiLoop pb ops a = processPhiLoop pa ops a := by
  induction ops generalizing a with
  | nil => rfl
  | cons op rest ih => simp only [processPhiLoop, h, ih]

theorem pt_setType (pa : PointerAnalysis) (n : Nat) (t : PSNodeType) (m : Nat) :
    (pa.setType n t).pt m = pa.pt m := by
  unfold PointerAnalysis.setType PointerAnalysis.pt
  by_cases h : m = n
  · subst h; simp
  · simp [Function.update_noteq h]

theorem commit_setType (pa : PointerAnalysis) (n : Nat) (t : PSNodeType) (a : NodeAcc) :
    (pa.setType n t).commit n a = (pa.commit n a).setType n t := by
  unfold PointerAnalysis.commit PointerAnalysis.setPointsTo PointerAnalysis.setType
  simp only [Function.update_same, Function.update_idem]

/-- C11: the union transfers. For a PHI or RETURN node `processNode` returns
and `pt(n)` afterwards is `pt(n)` before together with `pt(op)` of every
operand; for a CAST the same with operand 0 alone; no other points-to set
changes. A CALL_RETURN node processed with `invalidate_nodes` disabled gives
the state and the flag that the same node gives as a PHI (same operands, same
`pt(n)`), up to the kind of the node. -/
theorem processNode_union (pa : PointerAnalysis) (node : Nat) :
    ((pa.nodes node).type = PSNodeType.PHI ∨ (pa.nodes node).type = PSNodeType.RETURN →
      ∃ r, processNode pa node = some r ∧
        (∀ q, q ∈ r.1.pt node ↔
          q ∈ pa.pt node ∨ ∃ op ∈ (pa.nodes node).operands, q ∈ pa.pt op) ∧
        (∀ m, m ≠ node → r.1.pt m = pa.pt m)) ∧
    ((pa.nodes node).type = PSNodeType.CAST →
      ∀ op, pa.getOperand node 0 = some op →
        ∃ r, processNode pa node = some r ∧
          (∀ q, q ∈ r.1.pt node ↔ q ∈ pa.pt node ∨ q ∈ pa.pt op) ∧
          (∀ m, m ≠ node → r.1.pt m = pa.pt m)) ∧
    ((pa.nodes node).type = PSNodeType.CALL_RETURN → pa.invalidate_nodes = false →
      ∃ r rphi, processNode pa node = some r ∧
        processNode (pa.setType node PSNodeType.PHI) node = some rphi ∧
        rphi.2 = r.2 ∧ rphi.1 = r.1.setType node PSNodeType.PHI ∧
        (∀ q, q ∈ r.1.pt node ↔
          q ∈ pa.pt node ∨ ∃ op ∈ (pa.nodes node).operands, q ∈ pa.pt op)) := by
  refine ⟨?_, ?_, ?_⟩
  · intro htype
    refine ⟨(pa.commit node (processPhiLoop pa (pa.nodes node).operands
        ⟨pa.pt node, pa.reports, false⟩),
      (processPhiLoop pa (pa.nodes node).operands ⟨pa.pt node, pa.reports, false⟩).changed),
      ?_, ?_, ?_⟩
    · unfold processNode
      rcases htype with h | h <;> rw [h]
    · intro q
      rw [pt_commit_same, mem_processPhiLoop]
    · intro m hm
      exact pt_commit_other pa node m _ hm
  · intro htype op hop
    refine ⟨(pa.commit node (NodeAcc.addAll ⟨pa.pt node, pa.reports, false⟩ (pa.pt op)),
      (NodeAcc.addAll ⟨pa.pt node, pa.reports, false⟩ (pa.pt op)).changed), ?_, ?_, ?_⟩
    · unfold processNode
      rw [htype]
      simp only [hop]
    · intro q
      rw [pt_commit_same, NodeAcc.mem_addAll]
    · intro m hm
      exact pt_commit_other pa node m _ hm
  · intro htype hinv
    have hops : ((pa.setType node PSNodeType.PHI).nodes node).operands =
        (pa.nodes node).operands := by
      simp [PointerAnalysis.setType]
    have htype2 : ((pa.setType node PSNodeType.PHI).nodes node).type = PSNodeType.PHI := by
      simp [PointerAnalysis.setType]
    refine ⟨(pa.commit node (processPhiLoop pa (pa.nodes node).operands
        ⟨pa.pt node, pa.reports, false⟩),
      (processPhiLoop pa (pa.nodes node).operands ⟨pa.pt node, pa.reports, false⟩).changed),
      ((pa.commit node (processPhiLoop pa (pa.nodes node).operands
        ⟨pa.pt node, pa.reports, false⟩)).setType node PSNodeType.PHI,
      (processPhiLoop pa (pa.nodes node).operands ⟨pa.pt node, pa.reports, false⟩).changed),
      ?_, ?_, rfl, rfl, ?_⟩
    · unfold processNode
      rw [htype]
      simp only [processCallReturn, hinv, Bool.false_eq_true, if_false]
    · unfold processNode
      rw [htype2]
      simp only [hops, pt_setType,
        processPhiLoop_congr pa (pa.setType node PSNodeType.PHI) (pt_setType pa node _),
        commit_setType]
      rfl
    · intro q
      rw [pt_commit_same, mem_processPhiLoop]

/-- C11, at a CALL_RETURN over two RETURN nodes with `invalidate_nodes`
disabled: the node returns the union `{(NULLPTR, 0), (10, 0)}` and `true`, and
so does the same node taken as a PHI. -/
theorem processNode_union_witness :
    (unionExample.nodes 31).type = PSNodeType.CALL_RETURN ∧
    unionExample.invalidate_nodes = false ∧
    (processNode unionExample 31).map (fun r => (r.1.pt 31, r.2)) =
      some ([PointerNull, ⟨10, 0⟩], true) ∧
    ∃ r rphi, processNode unionExample 31 = some r ∧
      processNode (unionExample.setType 31 PSNodeType.PHI) 31 = some rphi ∧
      rphi.2 = r.2 ∧ rphi.1 = r.1.setType 31 PSNodeType.PHI :=
  ⟨by decide, by decide, by decide, by
    obtain ⟨r, rphi, h1, h2, h3, h4, _⟩ :=
      (processNode_union unionExample 31).2.2 (by decide) (by decide)
    exact ⟨r, rphi, h1, h2, h3, h4⟩⟩

/-! ## MEMCPY: one entry -/

theorem u64sub_of_le (a b : Nat) (ha : a < WORD) (hb : b ≤ a) : u64sub a b = a - b := by
  unfold u64sub
  unfold WORD at *
  have h1 : b % 18446744073709551616 = b := Nat.mod_eq_of_lt (by omega)
  rw [h1]
  omega

theorem u64add_of_lt (a b : Nat) (h : a + b < WORD) : u64add a b = a + b := by
  unfold u64add
  exact Nat.mod_eq_of_lt h

theorem mem_get_addObjectPointsTo (pa : PointerAnalysis) (o off : Nat) (S : List Pointer)
    (o2 off2 : Nat) (q : Pointer) :
    q ∈ ((pa.addObjectPointsTo o off S).1.objects o2).pointsTo.get off2 ↔
      q ∈ (pa.objects o2).pointsTo.get off2 ∨ (o2 = o ∧ off2 = off ∧ q ∈ S) := by
  unfold PointerAnalysis.addObjectPointsTo
  exact mem_get_update_addPointsToSet pa.objects o off S o2 off2 q

theorem memcpyEntry_eq (pa : PointerAnalysis) (destO s d len e : Nat) (S : PointsToSet)
    (he : e < WORD) (hmax : pa.max_offset ≤ UNKNOWN) :
    memcpyEntry pa destO s d len (e, S) =
      if specMemcpyCopied s len e then
        pa.addObjectPointsTo destO
          (specMemcpyLanding (pa.nodes (pa.objects destO).node).size pa.max_offset s d e) S
      else (pa, false) := by
  unfold memcpyEntry specMemcpyCopied specMemcpyLanding
  simp only
  by_cases hconc : e ≠ UNKNOWN ∧ s ≠ UNKNOWN ∧ d ≠ UNKNOWN
  · obtain ⟨h1, h2, h3⟩ := hconc
    by_cases hle : s ≤ e
    · have hsub : u64sub e s = e - s := u64sub_of_le e s he hle
      rw [hsub]
      by_cases hlen : len = UNKNOWN ∨ e - s < len
      · have hlen2 : len = UNKNOWN ∨ e < s + len := by omega
        have hc1 : e = UNKNOWN ∨ s = UNKNOWN ∨ s ≤ e ∧ (len = UNKNOWN ∨ e - s < len) :=
          Or.inr (Or.inr ⟨hle, hlen⟩)
        have hc2 : e = UNKNOWN ∨ s = UNKNOWN ∨ s ≤ e ∧ (len = UNKNOWN ∨ e < s + len) :=
          Or.inr (Or.inr ⟨hle, hlen2⟩)
        rw [if_pos hc1, if_pos hc2, if_pos ⟨h1, h2, h3⟩]
        by_cases hov : UNKNOWN - d ≤ e - s
        · rw [if_pos hov]
          have : ¬ (e ≠ UNKNOWN ∧ s ≠ UNKNOWN ∧ d ≠ UNKNOWN ∧ e - s + d < WORD ∧
              e - s + d < (pa.nodes (pa.objects destO).node).size ∧
              e - s + d < pa.max_offset) := by
            intro hc
            have := hc.2.2.2.2.2
            omega
          rw [if_neg this]
        · rw [if_neg hov]
          have hlt : e - s + d < WORD := by
            unfold UNKNOWN at hov
            unfold WORD
            omega
          rw [u64add_of_lt _ _ hlt]
          by_cases hbig : e - s + d ≥ (pa.nodes (pa.objects destO).node).size ∨
              e - s + d ≥ pa.max_offset
          · rw [if_pos hbig]
            have : ¬ (e ≠ UNKNOWN ∧ s ≠ UNKNOWN ∧ d ≠ UNKNOWN ∧ e - s + d < WORD ∧
                e - s + d < (pa.nodes (pa.objects destO).node).size ∧
                e - s + d < pa.max_offset) := by
              intro hc
              have h5 := hc.2.2.2.2.1
              have h6 := hc.2.2.2.2.2
              omega
            rw [if_neg this]
          · rw [if_neg hbig]
            have : e ≠ UNKNOWN ∧ s ≠ UNKNOWN ∧ d ≠ UNKNOWN ∧ e - s + d < WORD ∧
                e - s + d < (pa.nodes (pa.objects destO).node).size ∧
                e - s + d < pa.max_offset :=
              ⟨h1, h2, h3, hlt, by omega, by omega⟩
            rw [if_pos this]
      · have hlen2 : ¬ (len = UNKNOWN ∨ e < s + len) := by omega
        have hc1 : ¬ (e = UNKNOWN ∨ s = UNKNOWN ∨ s ≤ e ∧ (len = UNKNOWN ∨ e - s < len)) := by
          rintro (h | h | ⟨_, h⟩)
          · exact h1 h
          · exact h2 h
          · exact hlen h
        have hc2 : ¬ (e = UNKNOWN ∨ s = UNKNOWN ∨ s ≤ e ∧ (len = UNKNOWN ∨ e < s + len)) := by
          rintro (h | h | ⟨_, h⟩)
          · exact h1 h
          · exact h2 h
          · exact hlen2 h
        rw [if_neg hc1, if_neg hc2]
    · have hc1 : ¬ (e = UNKNOWN ∨ s = UNKNOWN ∨
          s ≤ e ∧ (len = UNKNOWN ∨ u64sub e s < len)) := by
        rintro (h | h | ⟨h, _⟩)
        · exact h1 h
        · exact h2 h
        · exact hle h
      have hc2 : ¬ (e = UNKNOWN ∨ s = UNKNOWN ∨ s ≤ e ∧ (len = UNKNOWN ∨ e < s + len)) := by
        rintro (h | h | ⟨h, _⟩)
        · exact h1 h
        · exact h2 h
        · exact hle h
      rw [if_neg hc1, if_neg hc2]
  · have hland : ¬ (e ≠ UNKNOWN ∧ s ≠ UNKNOWN ∧ d ≠ UNKNOWN ∧ e - s + d < WORD ∧
        e - s + d < (pa.nodes (pa.objects destO).node).size ∧
        e - s + d < pa.max_offset) := fun hc => hconc ⟨hc.1, hc.2.1, hc.2.2.1⟩
    rw [if_neg hconc, if_neg hland]
    by_cases hes : e = UNKNOWN ∨ s = UNKNOWN
    · have hc1 : e = UNKNOWN ∨ s = UNKNOWN ∨ s ≤ e ∧ (len = UNKNOWN ∨ u64sub e s < len) := by
        rcases hes with h | h
        · exact Or.inl h
        · exact Or.inr (Or.inl h)
      have hc2 : e = UNKNOWN ∨ s = UNKNOWN ∨ s ≤ e ∧ (len = UNKNOWN ∨ e < s + len) := by
        rcases hes with h | h
        · exact Or.inl h
        · exact Or.inr (Or.inl h)
      rw [if_pos hc1, if_pos hc2]
    · have h1 : e ≠ UNKNOWN := fun h => hes (Or.inl h)
      have h2 : s ≠ UNKNOWN := fun h => hes (Or.inr h)
      by_cases hle : s ≤ e
      · have hsub : u64sub e s = e - s := u64sub_of_le e s he hle
        rw [hsub]
        by_cases hlen : len = UNKNOWN ∨ e - s < len
        · have hlen2 : len = UNKNOWN ∨ e < s + len := by omega
          rw [if_pos (Or.inr (Or.inr ⟨hle, hlen⟩)), if_pos (Or.inr (Or.inr ⟨hle, hlen2⟩))]
        · have hlen2 : ¬ (len = UNKNOWN ∨ e < s + len) := by omega
          have hc1 : ¬ (e = UNKNOWN ∨ s = UNKNOWN ∨
              s ≤ e ∧ (len = UNKNOWN ∨ e - s < len)) := by
            rintro (h | h | ⟨_, h⟩)
            · exact h1 h
            · exact h2 h
            · exact hlen h
          have hc2 : ¬ (e = UNKNOWN ∨ s = UNKNOWN ∨
              s ≤ e ∧ (len = UNKNOWN ∨ e < s + len)) := by
            rintro (h | h | ⟨_, h⟩)
            · exact h1 h
            · exact h2 h
            · exact hlen2 h
          rw [if_neg hc1, if_neg hc2]
      · have hc1 : ¬ (e = UNKNOWN ∨ s = UNKNOWN ∨
            s ≤ e ∧ (len = UNKNOWN ∨ u64sub e s < len)) := by
          rintro (h | h | ⟨h, _⟩)
          · exact h1 h
          · exact h2 h
          · exact hle h
        have hc2 : ¬ (e = UNKNOWN ∨ s = UNKNOWN ∨
            s ≤ e ∧ (len = UNKNOWN ∨ e < s + len)) := by
          rintro (h | h | ⟨h, _⟩)
          · exact h1 h
          · exact h2 h
          · exact hle h
        rw [if_neg hc1, if_neg hc2]

/-! ## MEMCPY: what the loops leave alone -/

theorem objectsGrow_trans (A B C : Nat → MemoryObject)
    (hAB : objectsGrow A B) (hBC : objectsGrow B C) : objectsGrow A C :=
  fun o off q h => hBC o off q (hAB o off q h)

theorem sameButObjects_refl (pa : PointerAnalysis) : sameButObjects pa pa :=
  ⟨rfl, rfl, rfl, rfl, rfl, objectsGrow_refl _⟩

theorem sameButObjects_trans (pa pb pc : PointerAnalysis)
    (h1 : sameButObjects pa pb) (h2 : sameButObjects pb pc) : sameButObjects pa pc :=
  ⟨h2.1.trans h1.1, h2.2.1.trans h1.2.1, h2.2.2.1.trans h1.2.2.1,
    h2.2.2.2.1.trans h1.2.2.2.1, h2.2.2.2.2.1.trans h1.2.2.2.2.1,
    objectsGrow_trans _ _ _ h1.2.2.2.2.2 h2.2.2.2.2.2⟩

theorem sameButObjects_addObjectPointsTo (pa : PointerAnalysis) (o off : Nat)
    (S : List Pointer) : sameButObjects pa (pa.addObjectPointsTo o off S).1 :=
  ⟨rfl, rfl, rfl, rfl, rfl,
    fun o2 off2 q h => (mem_get_addObjectPointsTo pa o off S o2 off2 q).2 (Or.inl h)⟩

theorem sameButObjects_memcpyEntry (pa : PointerAnalysis) (destO s d len : Nat)
    (src : Nat × PointsToSet) : sameButObjects pa (memcpyEntry pa destO s d len src).1 := by
  unfold memcpyEntry
  split
  · split
    · split
      · exact sameButObjects_addObjectPointsTo _ _ _ _
      · split
        · exact sameButObjects_addObjectPointsTo _ _ _ _
        · exact sameButObjects_addObjectPointsTo _ _ _ _
    · exact sameButObjects_addObjectPointsTo _ _ _ _
  · exact sameButObjects_refl pa

theorem sameButObjects_memcpyEntries (destO so s d len fuel : Nat) (cursor : Option Nat)
    (acc : PointerAnalysis × Bool) :
    sameButObjects acc.1 (memcpyEntries destO so s d len fuel cursor acc).1 := by
  induction fuel generalizing cursor acc with
  | zero => exact sameButObjects_refl _
  | succ n ih =>
    unfold memcpyEntries
    split
    · exact sameButObjects_refl _
    · rename_i src _
      exact sameButObjects_trans _ _ _ (sameButObjects_memcpyEntry acc.1 destO s d len src)
        (ih _ _)

theorem sameButObjects_memcpySources (destO s d len : Nat) (sos : List Nat)
    (acc : PointerAnalysis × Bool) :
    sameButObjects acc.1 (memcpySources destO s d len sos acc).1 := by
  induction sos generalizing acc with
  | nil => exact sameButObjects_refl _
  | cons so rest ih =>
    unfold memcpySources
    exact sameButObjects_trans _ _ _
      (sameButObjects_memcpyEntries destO so s d len WORD none acc) (ih _)

theorem sameButObjects_memcpyDests (cn : Bool) (sos : List Nat) (s d len : Nat)
    (dests : List Nat) (acc : PointerAnalysis × Bool) :
    sameButObjects acc.1 (memcpyDests cn sos s d len dests acc).1 := by
  induction dests generalizing acc with
  | nil => exact sameButObjects_refl _
  | cons destO rest ih =>
    unfold memcpyDests
    cases cn with
    | true =>
      simp only [if_true]
      exact sameButObjects_trans _ _ _
        (sameButObjects_trans _ _ _
          (sameButObjects_addObjectPointsTo acc.1 destO UNKNOWN [PointerNull])
          (sameButObjects_memcpySources destO s d len sos
            ((acc.1.addObjectPointsTo destO UNKNOWN [PointerNull]).1,
              acc.2 || (acc.1.addObjectPointsTo destO UNKNOWN [PointerNull]).2)))
        (ih (memcpySources destO s d len sos
          ((acc.1.addObjectPointsTo destO UNKNOWN [PointerNull]).1,
            acc.2 || (acc.1.addObjectPointsTo destO UNKNOWN [PointerNull]).2)))
    | false =>
      simp only [Bool.false_eq_true, if_false]
      exact sameButObjects_trans _ _ _ (sameButObjects_memcpySources destO s d len sos acc)
        (ih _)

theorem memcpyDests_null (sos : List Nat) (s d len : Nat) (dests : List Nat)
    (acc : PointerAnalysis × Bool) (destO : Nat) (h : destO ∈ dests) :
    PointerNull ∈
      ((memcpyDests true sos s d len dests acc).1.objects destO).pointsTo.get UNKNOWN := by
  induction dests generalizing acc with
  | nil => exact absurd h (List.not_mem_nil _)
  | cons x rest ih =>
    unfold memcpyDests
    simp only [if_true]
    rcases List.mem_cons.mp h with rfl | hrest
    · have h1 : PointerNull ∈
          ((acc.1.addObjectPointsTo destO UNKNOWN [PointerNull]).1.objects destO).pointsTo.get
            UNKNOWN :=
        (mem_get_addObjectPointsTo acc.1 destO UNKNOWN [PointerNull] destO UNKNOWN _).2
          (Or.inr ⟨rfl, rfl, List.mem_singleton.mpr rfl⟩)
      have h2 := (sameButObjects_memcpySources destO s d len sos
        ((acc.1.addObjectPointsTo destO UNKNOWN [PointerNull]).1,
          acc.2 || (acc.1.addObjectPointsTo destO UNKNOWN [PointerNull]).2)).2.2.2.2.2
      have h3 := (sameButObjects_memcpyDests true sos s d len rest
        (memcpySources destO s d len sos
          ((acc.1.addObjectPointsTo destO UNKNOWN [PointerNull]).1,
            acc.2 || (acc.1.addObjectPointsTo destO UNKNOWN [PointerNull]).2))).2.2.2.2.2
      exact h3 destO UNKNOWN PointerNull (h2 destO UNKNOWN PointerNull h1)
    · exact ih _ hrest

theorem memcpyFrame_refl (pa : PointerAnalysis) : memcpyFrame pa pa :=
  ⟨rfl, rfl, rfl, rfl, objectsGrow_refl _, fun _ => ⟨rfl, fun h => h⟩⟩

theorem memcpyFrame_trans (pa pb pc : PointerAnalysis)
    (h1 : memcpyFrame pa pb) (h2 : memcpyFrame pb pc) : memcpyFrame pa pc :=
  ⟨h2.1.trans h1.1, h2.2.1.trans h1.2.1, h2.2.2.1.trans h1.2.2.1,
    h2.2.2.2.1.trans h1.2.2.2.1, objectsGrow_trans _ _ _ h1.2.2.2.2.1 h2.2.2.2.2.1,
    fun m => ⟨(h2.2.2.2.2.2 m).1.trans (h1.2.2.2.2.2 m).1,
      fun h => (h2.2.2.2.2.2 m).2 ((h1.2.2.2.2.2 m).2 h)⟩⟩

theorem memcpyFrame_of_sameButObjects (pa pb : PointerAnalysis)
    (h : sameButObjects pa pb) : memcpyFrame pa pb :=
  ⟨h.2.1, h.2.2.1, h.2.2.2.1, h.2.2.2.2.1, h.2.2.2.2.2,
    fun m => by rw [h.1]; exact ⟨rfl, fun h => h⟩⟩

theorem memcpyFrame_setZeroInitialized (pa : PointerAnalysis) (n : Nat) :
    memcpyFrame pa (pa.setZeroInitialized n) := by
  refine ⟨rfl, rfl, rfl, rfl, objectsGrow_refl _, fun m => ?_⟩
  unfold PointerAnalysis.setZeroInitialized
  by_cases h : m = n
  · subst h
    simp
  · simp [Function.update_noteq h]

theorem memcpyFrame_processMemcpyObjects (pa : PointerAnalysis) (sos dests : List Nat)
    (sptr dptr : Pointer) (len : Nat) (r : PointerAnalysis × Bool)
    (h : processMemcpyObjects pa sos dests sptr dptr len = some r) : memcpyFrame pa r.1 := by
  unfold processMemcpyObjects at h
  split at h
  · exact Option.noConfusion h
  · split at h
    · exact Option.noConfusion h
    · split at h
      · exact Option.noConfusion h
      · simp only [Option.some.injEq] at h
        rw [← h]
        refine memcpyFrame_trans pa _ _ ?_
          (memcpyFrame_of_sameButObjects _ _ (sameButObjects_memcpyDests _ _ _ _ _ _ _))
        simp only
        split
        · exact memcpyFrame_setZeroInitialized pa _
        · exact memcpyFrame_refl pa

theorem memcpyFrame_processMemcpyDestPtrs (node : Nat) (sptr : Pointer) (len : Nat)
    (dptrs : List Pointer) (acc r : PointerAnalysis × Bool)
    (h : processMemcpyDestPtrs node sptr len dptrs acc = some r) : memcpyFrame acc.1 r.1 := by
  induction dptrs generalizing acc with
  | nil =>
    simp only [processMemcpyDestPtrs, Option.some.injEq] at h
    rw [← h]
    exact memcpyFrame_refl _
  | cons dptr rest ih =>
    unfold processMemcpyDestPtrs at h
    split at h
    · exact ih acc h
    · split at h
      · exact Option.noConfusion h
      · split at h
        · exact Option.noConfusion h
        · rename_i r1 hr1
          exact memcpyFrame_trans _ _ _ (memcpyFrame_processMemcpyObjects _ _ _ _ _ _ r1 hr1)
            (ih (r1.1, acc.2 || r1.2) h)

theorem memcpyFrame_processMemcpySrcPtrs (node : Nat) (dptrs : List Pointer) (len : Nat)
    (sptrs : List Pointer) (acc r : PointerAnalysis × Bool)
    (h : processMemcpySrcPtrs node dptrs len sptrs acc = some r) : memcpyFrame acc.1 r.1 := by
  induction sptrs generalizing acc with
  | nil =>
    simp only [processMemcpySrcPtrs, Option.some.injEq] at h
    rw [← h]
    exact memcpyFrame_refl _
  | cons ptr rest ih =>
    unfold processMemcpySrcPtrs at h
    split at h
    · exact ih acc h
    · split at h
      · exact Option.noConfusion h
      · split at h
        · exact Option.noConfusion h
        · rename_i r1 hr1
          exact memcpyFrame_trans _ _ _
            (memcpyFrame_processMemcpyDestPtrs node ptr len dptrs acc r1 hr1) (ih _ h)

theorem memcpyFrame_processMemcpy (pa : PointerAnalysis) (node : Nat)
    (r : PointerAnalysis × Bool) (h : processMemcpy pa node = some r) :
    memcpyFrame pa r.1 := by
  unfold processMemcpy at h
  split at h
  · exact memcpyFrame_processMemcpySrcPtrs _ _ _ _ _ r h
  · exact Option.noConfusion h

/-- C14, as amended: a MEMCPY does not clear a zero-initialised flag. When
`processNode` returns on a MEMCPY node every allocation that was
zero-initialised still is. In the scenario (64-byte zero-initialised `dst`,
64-byte `src` not zero-initialised with `&x` under 0 and `&y` under 8,
`memcpy(dst, src, 64)`) the destination object has `&x` under offset 0 and `&y`
under offset 8 afterwards, and `dst` is still flagged zero-initialised. -/
theorem processNode_memcpy_flags (pa : PointerAnalysis) (node : Nat)
    (r : PointerAnalysis × Bool)
    (htype : (pa.nodes node).type = PSNodeType.MEMCPY)
    (h : processNode pa node = some r) :
    (∀ n, (pa.nodes n).zeroInitialized = true → (r.1.nodes n).zeroInitialized = true) ∧
    (processNode memcpyExample 44).map
        (fun r => ((r.1.objects 41).pointsTo.get 0, (r.1.objects 41).pointsTo.get 8,
          (r.1.nodes 41).zeroInitialized)) =
      some ([⟨42, 0⟩], [⟨43, 0⟩], true) := by
  refine ⟨?_, by decide⟩
  unfold processNode at h
  rw [htype] at h
  intro n hn
  exact ((memcpyFrame_processMemcpy pa node r h).2.2.2.2.2 n).2 hn

/-- C14, as amended, at the scenario: `processNode` returns on the MEMCPY and
`dst`, zero-initialised before, is zero-initialised afterwards. -/
theorem processNode_memcpy_flags_witness :
    (memcpyExample.nodes 44).type = PSNodeType.MEMCPY ∧
    (memcpyExample.nodes 41).zeroInitialized = true ∧
    ∃ r, processNode memcpyExample 44 = some r ∧ (r.1.nodes 41).zeroInitialized = true := by
  refine ⟨by decide, by decide, ?_⟩
  obtain ⟨r, hr⟩ := Option.isSome_iff_exists.mp
    (show (processNode memcpyExample 44).isSome = true by decide)
  exact ⟨r, hr, (processNode_memcpy_flags memcpyExample 44 r (by decide) hr).1 41 (by decide)⟩

/-- C14, as stated, fails: in the scenario the source is not zero-initialised
and `dst` is zero-initialised; after the MEMCPY `dst` is still flagged
zero-initialised. -/
theorem processNode_memcpy_flag_stays :
    (memcpyExample.nodes 40).zeroInitialized = false ∧
    (memcpyExample.nodes 41).zeroInitialized = true ∧
    (memcpyExample.nodes 44).len = 64 ∧
    (processNode memcpyExample 44).map (fun r => (r.1.nodes 41).zeroInitialized) =
      some true := by
  decide

/-! ## MEMCPY: when it ends the analysis -/

theorem isAlloc_of_memcpyFrame (pa pb : PointerAnalysis) (h : memcpyFrame pa pb) (m : Nat) :
    (pb.nodes m).isAlloc = (pa.nodes m).isAlloc := by
  have := congrArg PSNode.type (h.2.2.2.2.2 m).1
  simp only at this
  unfold PSNode.isAlloc
  rw [this]

theorem processMemcpyObjects_some (pa : PointerAnalysis) (sos dests : List Nat)
    (sptr dptr : Pointer) (len : Nat) (hlen : len ≠ 0)
    (hs : (pa.nodes sptr.target).isAlloc = true)
    (hd : (pa.nodes dptr.target).isAlloc = true) :
    ∃ r, processMemcpyObjects pa sos dests sptr dptr len = some r := by
  unfold processMemcpyObjects
  simp only [hlen, hs, hd, if_false, Bool.not_true, Bool.false_eq_true]
  exact ⟨_, rfl⟩

theorem processMemcpyDestPtrs_none (G : Nat → Pointer → List Nat) (node : Nat)
    (sptr : Pointer) (len : Nat) (dptrs : List Pointer) (acc : PointerAnalysis × Bool)
    (hG : acc.1.getMemoryObjects = G)
    (h : ∃ p ∈ dptrs, p.isValid = true ∧ p.isInvalidated = false ∧ G node p = []) :
    processMemcpyDestPtrs node sptr len dptrs acc = none := by
  induction dptrs generalizing acc with
  | nil =>
    obtain ⟨p, hp, _⟩ := h
    exact absurd hp (List.not_mem_nil _)
  | cons dptr rest ih =>
    unfold processMemcpyDestPtrs
    by_cases hskip : (!dptr.isValid || dptr.isInvalidated) = true
    · rw [if_pos hskip]
      apply ih acc hG
      obtain ⟨p, hp, hv, hi, he⟩ := h
      rcases List.mem_cons.mp hp with rfl | hp2
      · rw [hv, hi] at hskip
        exact absurd hskip (by decide)
      · exact ⟨p, hp2, hv, hi, he⟩
    · rw [if_neg hskip]
      by_cases hempty : (acc.1.getMemoryObjects node dptr).isEmpty = true
      · rw [if_pos hempty]
      · rw [if_neg hempty]
        cases hobj : processMemcpyObjects acc.1 (acc.1.getMemoryObjects node sptr)
            (acc.1.getMemoryObjects node dptr) sptr dptr len with
        | none => rfl
        | some r1 =>
          simp only
          have hfr := memcpyFrame_processMemcpyObjects _ _ _ _ _ _ r1 hobj
          apply ih (r1.1, acc.2 || r1.2) (hfr.1.trans hG)
          obtain ⟨p, hp, hv, hi, he⟩ := h
          rcases List.mem_cons.mp hp with rfl | hp2
          · rw [hG, he] at hempty
            exact absurd rfl hempty
          · exact ⟨p, hp2, hv, hi, he⟩

theorem processMemcpySrcPtrs_none_source (G : Nat → Pointer → List Nat) (node : Nat)
    (dptrs : List Pointer) (len : Nat) (sptrs : List Pointer) (acc : PointerAnalysis × Bool)
    (hG : acc.1.getMemoryObjects = G)
    (h : ∃ p ∈ sptrs, p.isValid = true ∧ p.isInvalidated = false ∧ G node p = []) :
    processMemcpySrcPtrs node dptrs len sptrs acc = none := by
  induction sptrs generalizing acc with
  | nil =>
    obtain ⟨p, hp, _⟩ := h
    exact absurd hp (List.not_mem_nil _)
  | cons ptr rest ih =>
    unfold processMemcpySrcPtrs
    by_cases hskip : (!ptr.isValid || ptr.isInvalidated) = true
    · rw [if_pos hskip]
      apply ih acc hG
      obtain ⟨p, hp, hv, hi, he⟩ := h
      rcases List.mem_cons.mp hp with rfl | hp2
      · rw [hv, hi] at hskip
        exact absurd hskip (by decide)
      · exact ⟨p, hp2, hv, hi, he⟩
    · rw [if_neg hskip]
      by_cases hempty : (acc.1.getMemoryObjects node ptr).isEmpty = true
      · rw [if_pos hempty]
      · rw [if_neg hempty]
        cases hd : processMemcpyDestPtrs node ptr len dptrs acc with
        | none => rfl
        | some r1 =>
          simp only
          have hfr := memcpyFrame_processMemcpyDestPtrs _ _ _ _ _ r1 hd
          apply ih r1 (hfr.1.trans hG)
          obtain ⟨p, hp, hv, hi, he⟩ := h
          rcases List.mem_cons.mp hp with rfl | hp2
          · rw [hG, he] at hempty
            exact absurd rfl hempty
          · exact ⟨p, hp2, hv, hi, he⟩

theorem processMemcpySrcPtrs_none_dest (G : Nat → Pointer → List Nat) (node : Nat)
    (dptrs : List Pointer) (len : Nat) (sptrs : List Pointer) (acc : PointerAnalysis × Bool)
    (hG : acc.1.getMemoryObjects = G)
    (hsrc : ∃ p ∈ sptrs, p.isValid = true ∧ p.isInvalidated = false)
    (h : ∃ p ∈ dptrs, p.isValid = true ∧ p.isInvalidated = false ∧ G node p = []) :
    processMemcpySrcPtrs node dptrs len sptrs acc = none := by
  induction sptrs generalizing acc with
  | nil =>
    obtain ⟨p, hp, _⟩ := hsrc
    exact absurd hp (List.not_mem_nil _)
  | cons ptr rest ih =>
    unfold processMemcpySrcPtrs
    by_cases hskip : (!ptr.isValid || ptr.isInvalidated) = true
    · rw [if_pos hskip]
      apply ih acc hG
      obtain ⟨p, hp, hv, hi⟩ := hsrc
      rcases List.mem_cons.mp hp with rfl | hp2
      · rw [hv, hi] at hskip
        exact absurd hskip (by decide)
      · exact ⟨p, hp2, hv, hi⟩
    · rw [if_neg hskip]
      by_cases hempty : (acc.1.getMemoryObjects node ptr).isEmpty = true
      · rw [if_pos hempty]
      · rw [if_neg hempty, processMemcpyDestPtrs_none G node ptr len dptrs acc hG h]

theorem processMemcpyDestPtrs_some (G : Nat → Pointer → List Nat) (T : Nat → Bool)
    (node : Nat) (sptr : Pointer) (len : Nat) (dptrs : List Pointer)
    (acc : PointerAnalysis × Bool)
    (hG : acc.1.getMemoryObjects = G) (hT : ∀ m, (acc.1.nodes m).isAlloc = T m)
    (hlen : len ≠ 0) (hs : T sptr.target = true)
    (h : ∀ p ∈ dptrs, p.isValid = true → p.isInvalidated = false →
      G node p ≠ [] ∧ T p.target = true) :
    ∃ r, processMemcpyDestPtrs node sptr len dptrs acc = some r := by
  induction dptrs generalizing acc with
  | nil => exact ⟨acc, rfl⟩
  | cons dptr rest ih =>
    have hrest : ∀ p ∈ rest, p.isValid = true → p.isInvalidated = false →
        G node p ≠ [] ∧ T p.target = true := fun p hp => h p (List.mem_cons_of_mem _ hp)
    unfold processMemcpyDestPtrs
    by_cases hskip : (!dptr.isValid || dptr.isInvalidated) = true
    · rw [if_pos hskip]
      exact ih acc hG hT hrest
    · rw [if_neg hskip]
      have hv : dptr.isValid = true ∧ dptr.isInvalidated = false := by
        cases h1 : dptr.isValid <;> cases h2 : dptr.isInvalidated <;> simp [h1, h2] at hskip ⊢
      obtain ⟨hne, hTd⟩ := h dptr (List.mem_cons_self _ _) hv.1 hv.2
      have hempty : ¬ (acc.1.getMemoryObjects node dptr).isEmpty = true := by
        rw [hG]
        intro hc
        exact hne (List.isEmpty_iff.mp hc)
      rw [if_neg hempty]
      obtain ⟨r1, hr1⟩ := processMemcpyObjects_some acc.1 (acc.1.getMemoryObjects node sptr)
        (acc.1.getMemoryObjects node dptr) sptr dptr len hlen
        (by rw [hT]; exact hs) (by rw [hT]; exact hTd)
      rw [hr1]
      simp only
      have hfr := memcpyFrame_processMemcpyObjects _ _ _ _ _ _ r1 hr1
      exact ih (r1.1, acc.2 || r1.2) (hfr.1.trans hG)
        (fun m => (isAlloc_of_memcpyFrame _ _ hfr m).trans (hT m)) hrest

theorem processMemcpySrcPtrs_some (G : Nat → Pointer → List Nat) (T : Nat → Bool)
    (node : Nat) (dptrs : List Pointer) (len : Nat) (sptrs : List Pointer)
    (acc : PointerAnalysis × Bool)
    (hG : acc.1.getMemoryObjects = G) (hT : ∀ m, (acc.1.nodes m).isAlloc = T m)
    (hlen : len ≠ 0)
    (hsrc : ∀ p ∈ sptrs, p.isValid = true → p.isInvalidated = false →
      G node p ≠ [] ∧ T p.target = true)
    (hdst : ∀ p ∈ dptrs, p.isValid = true → p.isInvalidated = false →
      G node p ≠ [] ∧ T p.target = true) :
    ∃ r, processMemcpySrcPtrs node dptrs len sptrs acc = some r := by
  induction sptrs generalizing acc with
  | nil => exact ⟨acc, rfl⟩
  | cons ptr rest ih =>
    have hrest : ∀ p ∈ rest, p.isValid = true → p.isInvalidated = false →
        G node p ≠ [] ∧ T p.target = true := fun p hp => hsrc p (List.mem_cons_of_mem _ hp)
    unfold processMemcpySrcPtrs
    by_cases hskip : (!ptr.isValid || ptr.isInvalidated) = true
    · rw [if_pos hskip]
      exact ih acc hG hT hrest
    · rw [if_neg hskip]
      have hv : ptr.isValid = true ∧ ptr.isInvalidated = false := by
        cases h1 : ptr.isValid <;> cases h2 : ptr.isInvalidated <;> simp [h1, h2] at hskip ⊢
      obtain ⟨hne, hTs⟩ := hsrc ptr (List.mem_cons_self _ _) hv.1 hv.2
      have hempty : ¬ (acc.1.getMemoryObjects node ptr).isEmpty = true := by
        rw [hG]
        intro hc
        exact hne (List.isEmpty_iff.mp hc)
      rw [if_neg hempty]
      obtain ⟨r1, hr1⟩ := processMemcpyDestPtrs_some G T node ptr len dptrs acc hG hT hlen
        hTs hdst
      rw [hr1]
      simp only
      have hfr := memcpyFrame_processMemcpyDestPtrs _ _ _ _ _ r1 hr1
      exact ih r1 (hfr.1.trans hG)
        (fun m => (isAlloc_of_memcpyFrame _ _ hfr m).trans (hT m)) hrest

theorem processMemcpySrcPtrs_skip (node : Nat) (dptrs : List Pointer) (len : Nat)
    (sptrs : List Pointer) (acc : PointerAnalysis × Bool)
    (h : ∀ p ∈ sptrs, ¬ (p.isValid = true ∧ p.isInvalidated = false)) :
    processMemcpySrcPtrs node dptrs len sptrs acc = some acc := by
  induction sptrs with
  | nil => rfl
  | cons ptr rest ih =>
    unfold processMemcpySrcPtrs
    have hskip : (!ptr.isValid || ptr.isInvalidated) = true := by
      have := h ptr (List.mem_cons_self _ _)
      cases h1 : ptr.isValid <;> cases h2 : ptr.isInvalidated <;> simp [h1, h2] at this ⊢
    rw [if_pos hskip]
    exact ih (fun p hp => h p (List.mem_cons_of_mem _ hp))

/-- C15, as amended: when `processMemcpy` ends the analysis. For a MEMCPY node
with source operand and destination operand: if some valid, non-invalidated
pointer of `pt(src)` resolves to no memory object, `processMemcpy` aborts; if
`pt(src)` has a valid, non-invalidated pointer and some valid, non-invalidated
pointer of `pt(dst)` resolves to no memory object, it aborts; if `pt(src)` has
no valid, non-invalidated pointer it returns with the state unchanged, whatever
`pt(dst)` resolves to. When every valid, non-invalidated pointer of both sets
resolves to an object and targets a memory allocation and the length is not 0,
it returns. -/
theorem processMemcpy_abort (pa : PointerAnalysis) (node srcNode destNode : Nat)
    (hs : pa.getOperand node 0 = some srcNode)
    (hd : pa.getOperand node 1 = some destNode) :
    ((∃ p ∈ pa.pt srcNode, p.isValid = true ∧ p.isInvalidated = false ∧
        pa.getMemoryObjects node p = []) →
      processMemcpy pa node = none) ∧
    ((∃ p ∈ pa.pt srcNode, p.isValid = true ∧ p.isInvalidated = false) →
      (∃ p ∈ pa.pt destNode, p.isValid = true ∧ p.isInvalidated = false ∧
        pa.getMemoryObjects node p = []) →
      processMemcpy pa node = none) ∧
    ((∀ p ∈ pa.pt srcNode, ¬ (p.isValid = true ∧ p.isInvalidated = false)) →
      processMemcpy pa node = some (pa, false)) ∧
    ((∀ p ∈ pa.pt srcNode, p.isValid = true → p.isInvalidated = false →
        pa.getMemoryObjects node p ≠ [] ∧ (pa.nodes p.target).isAlloc = true) →
      (∀ p ∈ pa.pt destNode, p.isValid = true → p.isInvalidated = false →
        pa.getMemoryObjects node p ≠ [] ∧ (pa.nodes p.target).isAlloc = true) →
      (pa.nodes node).len ≠ 0 →
      ∃ r, processMemcpy pa node = some r) := by
  unfold processMemcpy
  simp only [hs, hd]
  refine ⟨?_, ?_, ?_, ?_⟩
  · intro h
    exact processMemcpySrcPtrs_none_source pa.getMemoryObjects node _ _ _ (pa, false) rfl h
  · intro h1 h2
    exact processMemcpySrcPtrs_none_dest pa.getMemoryObjects node _ _ _ (pa, false) rfl h1 h2
  · intro h
    exact processMemcpySrcPtrs_skip node _ _ _ (pa, false) h
  · intro h1 h2 hlen
    exact processMemcpySrcPtrs_some pa.getMemoryObjects (fun m => (pa.nodes m).isAlloc) node
      _ _ _ (pa, false) rfl (fun _ => rfl) hlen h1 h2

/-- C15, as amended, at the memcpy scenario: source and destination pointer
resolve to an object and target allocations, the length is 64, and
`processMemcpy` returns. -/
theorem processMemcpy_abort_witness :
    memcpyExample.getOperand 44 0 = some 40 ∧ memcpyExample.getOperand 44 1 = some 41 ∧
    (memcpyExample.nodes 44).len ≠ 0 ∧
    ∃ r, processMemcpy memcpyExample 44 = some r :=
  ⟨by decide, by decide, by decide,
    (processMemcpy_abort memcpyExample 44 40 41 (by decide) (by decide)).2.2.2
      (by decide) (by decide) (by decide)⟩

/-- C15, as stated, fails: the pointer `(41, 0)` of `pt(dst)` is valid, not
invalidated and resolves to no memory object, but `pt(src)` holds only
`(NULLPTR, 0)`, so the loop over `pt(dst)` never runs and `processMemcpy`
returns normally. -/
theorem processMemcpy_unresolved_dest_returns :
    (⟨41, 0⟩ : Pointer) ∈ memcpyNoSourceExample.pt 41 ∧
    (⟨41, 0⟩ : Pointer).isValid = true ∧ (⟨41, 0⟩ : Pointer).isInvalidated = false ∧
    memcpyNoSourceExample.getMemoryObjects 44 ⟨41, 0⟩ = [] ∧
    memcpyNoSourceExample.getOperand 44 1 = some 41 ∧
    (processMemcpy memcpyNoSourceExample 44).isSome = true ∧
    (processMemcpy memcpyNoSourceExample 44).map (fun r => r.2) = some false := by
  decide

/-! ## One transfer step: what it leaves alone -/

theorem stepFrame_refl (pa : PointerAnalysis) (node : Nat) : stepFrame pa node pa :=
  ⟨fun _ _ => rfl, fun _ hp => Or.inl hp, fun _ => rfl, objectsGrow_refl _⟩

theorem stepFrame_commit (pa : PointerAnalysis) (node : Nat) (a : NodeAcc)
    (h : ∀ p ∈ pa.pt node, p ∈ a.pointsTo) : stepFrame pa node (pa.commit node a) :=
  ⟨fun m hm => pt_commit_other pa node m a hm,
    fun p hp => Or.inl (by rw [pt_commit_same]; exact h p hp),
    fun m => nodes_commit_type pa node m a, objectsGrow_refl _⟩

theorem stepFrame_processLoad (pa : PointerAnalysis) (node : Nat)
    (r : PointerAnalysis × Bool) (h : processLoad pa node = some r) :
    stepFrame pa node r.1 := by
  unfold processLoad at h
  split at h
  · exact Option.noConfusion h
  · split at h
    · simp only [Option.some.injEq] at h
      rw [← h]
      exact ⟨fun _ _ => rfl, fun _ hp => Or.inl hp, fun _ => rfl, objectsGrow_refl _⟩
    · split at h
      · exact Option.noConfusion h
      · rename_i a ha
        simp only [Option.some.injEq] at h
        rw [← h]
        exact stepFrame_commit pa node a
          (fun p hp => ((processLoadLoop_spec pa node _ _ a ha).1 p).2 (Or.inl hp))

theorem stepFrame_processStore (pa : PointerAnalysis) (node : Nat)
    (r : PointerAnalysis × Bool) (h : processStore pa node = some r) :
    stepFrame pa node r.1 := by
  unfold processStore at h
  split at h
  · simp only [Option.some.injEq] at h
    rw [← h]
    exact ⟨fun _ _ => rfl, fun _ hp => Or.inl hp, fun _ => rfl,
      processStoreLoop_grow pa node _ _ (pa.objects, false)⟩
  · exact Option.noConfusion h

theorem type_setPointsTo (pa : PointerAnalysis) (n m : Nat) (S : PointsToSet) :
    ((pa.setPointsTo n S).nodes m).type = (pa.nodes m).type := by
  unfold PointerAnalysis.setPointsTo
  by_cases h : m = n
  · subst h; simp
  · simp [Function.update_noteq h]

theorem stepFrame_processGep (pa : PointerAnalysis) (node : Nat)
    (r : PointerAnalysis × Bool) (h : processGep pa node = some r) :
    stepFrame pa node r.1 := by
  unfold processGep at h
  split at h
  · exact Option.noConfusion h
  · split at h
    · exact Option.noConfusion h
    · simp only [Option.some.injEq] at h
      rw [← h]
      refine ⟨fun m hm => pt_setPointsTo_other pa node m _ hm, fun p hp => ?_,
        fun m => type_setPointsTo pa node m _, objectsGrow_refl _⟩
      rw [pt_setPointsTo_same]
      exact (processGepLoop_keeps _ _ _ _ (pa.pt node, false) p (Or.inr hp)).symm

theorem callReturnPointers_grow (pa : PointerAnalysis) (ptrs : List Pointer) (a b : NodeAcc)
    (h : callReturnPointers pa ptrs a = some b) : ∀ q ∈ a.pointsTo, q ∈ b.pointsTo := by
  induction ptrs generalizing a with
  | nil =>
    simp only [callReturnPointers, Option.some.injEq] at h
    rw [← h]
    exact fun _ hq => hq
  | cons p rest ih =>
    unfold callReturnPointers at h
    split at h
    · exact Option.noConfusion h
    · split at h
      · intro q hq
        exact ih _ h q ((NodeAcc.mem_add a PointerInvalidated q).2 (Or.inl hq))
      · exact ih _ h

theorem callReturnOperands_grow (pa : PointerAnalysis) (ops : List Nat) (a b : NodeAcc)
    (h : callReturnOperands pa ops a = some b) : ∀ q ∈ a.pointsTo, q ∈ b.pointsTo := by
  induction ops generalizing a with
  | nil =>
    simp only [callReturnOperands, Option.some.injEq] at h
    rw [← h]
    exact fun _ hq => hq
  | cons op rest ih =>
    unfold callReturnOperands at h
    split at h
    · exact Option.noConfusion h
    · rename_i a1 ha1
      intro q hq
      exact ih _ h q (callReturnPointers_grow pa _ a a1 ha1 q hq)

theorem stepFrame_processCallReturn (pa : PointerAnalysis) (node : Nat)
    (r : PointerAnalysis × Bool) (h : processCallReturn pa node = some r) :
    stepFrame pa node r.1 := by
  unfold processCallReturn at h
  simp only at h
  split at h
  · exact Option.noConfusion h
  · rename_i a ha
    simp only [Option.some.injEq] at h
    rw [← h]
    apply stepFrame_commit
    intro p hp
    rw [mem_processPhiLoop]
    left
    by_cases hinv : pa.invalidate_nodes = true
    · rw [if_pos hinv] at ha
      exact callReturnOperands_grow pa _ _ a ha p hp
    · rw [if_neg hinv] at ha
      simp only [Option.some.injEq] at ha
      rw [← ha]
      exact hp

theorem stepFrame_processCallFuncptr (pa : PointerAnalysis) (node : Nat)
    (r : PointerAnalysis × Bool) (h : processCallFuncptr pa node = some r) :
    stepFrame pa node r.1 := by
  unfold processCallFuncptr at h
  split at h
  · exact Option.noConfusion h
  · simp only [Option.some.injEq] at h
    rw [← h]
    apply stepFrame_commit
    intro p hp
    rw [mem_foldl_callFuncptrStep]
    exact Or.inl hp

theorem stepFrame_of_memcpyFrame (pa pb : PointerAnalysis) (node : Nat)
    (h : memcpyFrame pa pb) : stepFrame pa node pb := by
  have hpt : ∀ m, pb.pt m = pa.pt m := by
    intro m
    have := congrArg PSNode.pointsTo (h.2.2.2.2.2 m).1
    simpa using this
  refine ⟨fun m _ => hpt m, fun p hp => Or.inl (by rw [hpt]; exact hp), fun m => ?_,
    h.2.2.2.2.1⟩
  have := congrArg PSNode.type (h.2.2.2.2.2 m).1
  simpa using this

theorem stepFrame_setParent (pa : PointerAnalysis) (node parent : Nat) :
    stepFrame pa node (pa.setParent node parent) := by
  have hpt : ∀ m, (pa.setParent node parent).pt m = pa.pt m := by
    intro m
    unfold PointerAnalysis.setParent PointerAnalysis.pt
    by_cases h : m = node
    · subst h; simp
    · simp [Function.update_noteq h]
  refine ⟨fun m _ => hpt m, fun p hp => Or.inl (by rw [hpt]; exact hp), fun m => ?_,
    objectsGrow_refl _⟩
  unfold PointerAnalysis.setParent
  by_cases h : m = node
  · subst h; simp
  · simp [Function.update_noteq h]

theorem stepFrame_processNode (pa : PointerAnalysis) (node : Nat)
    (r : PointerAnalysis × Bool) (h : processNode pa node = some r) :
    stepFrame pa node r.1 := by
  unfold processNode at h
  split at h
  · exact stepFrame_processLoad pa node r h
  · exact stepFrame_processStore pa node r h
  · simp only [Option.some.injEq] at h
    rw [← h]; exact stepFrame_refl pa node
  · split at h
    · exact Option.noConfusion h
    · split at h
      · simp only [Option.some.injEq] at h
        rw [← h]; exact stepFrame_setParent pa node _
      · exact Option.noConfusion h
  · exact stepFrame_processGep pa node r h
  · split at h
    · exact Option.noConfusion h
    · simp only [Option.some.injEq] at h
      rw [← h]
      apply stepFrame_commit
      intro p hp
      rw [NodeAcc.mem_addAll]
      exact Or.inl hp
  · split at h
    · simp only [Option.some.injEq] at h
      rw [← h]; exact stepFrame_refl pa node
    · exact Option.noConfusion h
  · exact stepFrame_processCallReturn pa node r h
  · simp only [Option.some.injEq] at h
    rw [← h]
    apply stepFrame_commit
    intro p hp
    rw [mem_processPhiLoop]
    exact Or.inl hp
  · simp only [Option.some.injEq] at h
    rw [← h]
    apply stepFrame_commit
    intro p hp
    rw [mem_processPhiLoop]
    exact Or.inl hp
  · exact stepFrame_processCallFuncptr pa node r h
  · exact stepFrame_of_memcpyFrame pa r.1 node (memcpyFrame_processMemcpy pa node r h)
  · split at h
    · simp only [Option.some.injEq] at h
      rw [← h]; exact stepFrame_refl pa node
    · exact Option.noConfusion h
  · split at h
    · simp only [Option.some.injEq] at h
      rw [← h]; exact stepFrame_refl pa node
    · exact Option.noConfusion h
  · split at h
    · simp only [Option.some.injEq] at h
      rw [← h]; exact stepFrame_refl pa node
    · exact Option.noConfusion h
  · simp only [Option.some.injEq] at h
    rw [← h]; exact stepFrame_refl pa node
  · simp only [Option.some.injEq] at h
    rw [← h]; exact stepFrame_refl pa node
  · simp only [Option.some.injEq] at h
    rw [← h]; exact stepFrame_refl pa node
  · exact Option.noConfusion h
  · exact Option.noConfusion h
  · exact Option.noConfusion h

/-- C16: monotonicity of one transfer step. When `processNode` returns on a
node of any kind, for every node `m` and every pointer `(t, o)` that was in
`pt(m)`, `(t, o)` is still in `pt(m)` or `(t, UNKNOWN)` is; and for every
memory object and offset, every pointer stored there before is stored there
afterwards. -/
theorem processNode_monotone (pa : PointerAnalysis) (node : Nat)
    (r : PointerAnalysis × Bool) (h : processNode pa node = some r) :
    (∀ m t o, (⟨t, o⟩ : Pointer) ∈ pa.pt m →
      (⟨t, o⟩ : Pointer) ∈ r.1.pt m ∨ (⟨t, UNKNOWN⟩ : Pointer) ∈ r.1.pt m) ∧
    (∀ obj off q, q ∈ (pa.objects obj).pointsTo.get off →
      q ∈ (r.1.objects obj).pointsTo.get off) := by
  obtain ⟨hother, hnode, _, hgrow⟩ := stepFrame_processNode pa node r h
  refine ⟨?_, hgrow⟩
  intro m t o hin
  by_cases hm : m = node
  · subst hm
    exact hnode ⟨t, o⟩ hin
  · rw [hother m hm]
    exact Or.inl hin

/-- C16, at the GEP past the size of its allocation: `processNode` returns on
node 11, and the pointer `(10, 0)` of the allocation node 10 is still in its
set. -/
theorem processNode_monotone_witness :
    (⟨10, 0⟩ : Pointer) ∈ gepExample.pt 10 ∧
    ∃ r, processNode gepExample 11 = some r ∧
      ((⟨10, 0⟩ : Pointer) ∈ r.1.pt 10 ∨ (⟨10, UNKNOWN⟩ : Pointer) ∈ r.1.pt 10) := by
  refine ⟨by decide, ?_⟩
  obtain ⟨r, hr⟩ := Option.isSome_iff_exists.mp
    (show (processNode gepExample 11).isSome = true by decide)
  exact ⟨r, hr, (processNode_monotone gepExample 11 r hr).1 10 10 0 (by decide)⟩

/-- C17: the self-pointer invariant. Processing an ALLOC, DYN_ALLOC or
FUNCTION node `n` with `pt(n) = {(n, 0)}` passes the assertions and is the
identity, with result `false`. When `processNode` returns on a node `n` of any
kind, no node other than `n` has a different points-to set and no node has
changed its kind. So if every ALLOC, DYN_ALLOC and FUNCTION node `a` has
`pt(a) = {(a, 0)}` before, every such node has afterwards. -/
theorem processNode_self_pointer (pa : PointerAnalysis) (node : Nat) :
    ((pa.nodes node).type.pointsToItself = true → pa.pt node = [⟨node, 0⟩] →
      processNode pa node = some (pa, false)) ∧
    (∀ r, processNode pa node = some r →
      (∀ m, m ≠ node → r.1.pt m = pa.pt m) ∧
      (∀ m, (r.1.nodes m).type = (pa.nodes m).type) ∧
      ((∀ a, (pa.nodes a).type.pointsToItself = true → pa.pt a = [⟨a, 0⟩]) →
        ∀ a, (r.1.nodes a).type.pointsToItself = true → r.1.pt a = [⟨a, 0⟩])) := by
  have hself : (pa.nodes node).type.pointsToItself = true → pa.pt node = [⟨node, 0⟩] →
      processNode pa node = some (pa, false) := by
    intro htype hpt
    have hcond : (⟨node, 0⟩ : Pointer) ∈ pa.pt node ∧ (pa.pt node).length = 1 := by
      rw [hpt]
      exact ⟨List.mem_singleton.mpr rfl, rfl⟩
    unfold processNode
    cases ht : (pa.nodes node).type <;> rw [ht] at htype <;>
      first
        | exact absurd htype (by decide)
        | simp only [hcond, and_self, if_true]
  refine ⟨hself, ?_⟩
  intro r h
  obtain ⟨hother, _, htypes, _⟩ := stepFrame_processNode pa node r h
  refine ⟨hother, htypes, ?_⟩
  intro hinv a ha
  rw [htypes a] at ha
  by_cases han : a = node
  · subst han
    have := hself ha (hinv a ha)
    rw [this] at h
    simp only [Option.some.injEq] at h
    rw [← h]
    exact hinv a ha
  · rw [hother a han]
    exact hinv a ha

/-- C17, at `global8.c`: the function `setA` (node 20) and the variable `f`
(node 21) point to themselves; processing the allocation node 21 is the
identity, and after the store (node 22) both still point to themselves. -/
theorem processNode_self_pointer_witness :
    (global8Example.nodes 21).type.pointsToItself = true ∧
    global8Example.pt 21 = [⟨21, 0⟩] ∧
    processNode global8Example 21 = some (global8Example, false) ∧
    ∃ r, processNode global8Example 22 = some r ∧
      r.1.pt 20 = global8Example.pt 20 ∧ r.1.pt 21 = global8Example.pt 21 := by
  refine ⟨by decide, by decide,
    (processNode_self_pointer global8Example 21).1 (by decide) (by decide), ?_⟩
  obtain ⟨r, hr⟩ := Option.isSome_iff_exists.mp
    (show (processNode global8Example 22).isSome = true by decide)
  have h := ((processNode_self_pointer global8Example 22).2 r hr).1
  exact ⟨r, hr, h 20 (by decide), h 21 (by decide)⟩

/-! # The dependence graph -/

theorem ContainerType.find_after_insert (k : Nat) (v : Option Nat) (c : ContainerType)
    (k2 : Nat) (h : ContainerType.find c k = none) :
    ContainerType.find (c.orderedInsert (fun a b => a.1 ≤ b.1) (k, v)) k2 =
      if k2 = k then some v else ContainerType.find c k2 := by
  induction c with
  | nil =>
    by_cases h2 : k2 = k
    · simp [ContainerType.find, h2]
    · have h3 : ¬ k = k2 := fun hc => h2 hc.symm
      simp [ContainerType.find, h2, h3]
  | cons e rest ih =>
    have hne : ¬ e.1 = k := by
      intro hc
      unfold ContainerType.find at h
      simp [hc] at h
    have hrest : ContainerType.find rest k = none := by
      unfold ContainerType.find at h
      simpa [hne] using h
    simp only [List.orderedInsert]
    by_cases hle : k ≤ e.1
    · simp only [hle, if_true]
      by_cases h2 : k2 = k
      · simp [ContainerType.find, h2]
      · have h3 : ¬ k = k2 := fun hc => h2 hc.symm
        simp [ContainerType.find, h2, h3]
    · simp only [hle, if_false]
      unfold ContainerType.find
      rw [ih hrest]
      by_cases h2 : k2 = k
      · subst h2
        simp [hne]
      · simp [h2]

theorem ContainerType.find_erase (c : ContainerType) (k k2 : Nat) :
    ContainerType.find (ContainerType.erase c k) k2 =
      if k2 = k then none else ContainerType.find c k2 := by
  induction c with
  | nil => simp [ContainerType.erase, ContainerType.find]
  | cons e rest ih =>
    unfold ContainerType.erase at ih ⊢
    by_cases hk : e.1 = k
    · have hf : (e.1 != k) = false := by simp [hk]
      rw [List.filter_cons, hf]
      simp only [Bool.false_eq_true, if_false, ih]
      by_cases h2 : k2 = k
      · simp [h2]
      · have h3 : ¬ e.1 = k2 := fun hc => h2 (hc.symm.trans hk)
        simp [h2, ContainerType.find, h3]
    · have hf : (e.1 != k) = true := by simp [hk]
      rw [List.filter_cons, hf]
      simp only [if_true]
      unfold ContainerType.find
      rw [ih]
      by_cases h2 : k2 = k
      · subst h2
        simp [hk]
      · simp [h2]

theorem ContainerType.insert_flag (c : ContainerType) (k : Nat) (n : Option Nat) :
    (ContainerType.insert c k n).2 = true ↔ ContainerType.find c k = none := by
  unfold ContainerType.insert
  cases h : ContainerType.find c k <;> simp

/-- C18: `addNode(k, n)`. The result is `true` iff no entry is stored under
`k` in the local nodes. On `true`, `getNode(k)` returns `n`, the owning graph
of `n` is this graph, `size()` has grown by one and the entries under other
keys are as before. On `false` nothing at all has changed: the node stored
under `k` stays, `size()` is the same and the owning graph of `n` is not
touched. -/
theorem addNode_spec (w : DGWorld) (g k n : Nat) :
    ((DependenceGraph.addNode w g k n).2 = true ↔
      ContainerType.find (w.graphs g).nodes k = none) ∧
    ((DependenceGraph.addNode w g k n).2 = true →
      DependenceGraph.getNode (DependenceGraph.addNode w g k n).1 g k = some n ∧
      (DependenceGraph.addNode w g k n).1.nodeDG n = some g ∧
      DependenceGraph.size (DependenceGraph.addNode w g k n).1 g =
        DependenceGraph.size w g + 1 ∧
      ∀ k2, k2 ≠ k →
        ContainerType.find ((DependenceGraph.addNode w g k n).1.graphs g).nodes k2 =
          ContainerType.find (w.graphs g).nodes k2) ∧
    ((DependenceGraph.addNode w g k n).2 = false →
      (DependenceGraph.addNode w g k n).1 = w ∧
      ∀ m, ContainerType.find (w.graphs g).nodes k = some m →
        ContainerType.find ((DependenceGraph.addNode w g k n).1.graphs g).nodes k = some m) := by
  cases hf : ContainerType.find (w.graphs g).nodes k with
  | none =>
    have hins : ContainerType.insert (w.graphs g).nodes k (some n) =
        ((w.graphs g).nodes.orderedInsert (fun a b => a.1 ≤ b.1) (k, some n), true) := by
      unfold ContainerType.insert
      rw [hf]
    have hadd : DependenceGraph.addNode w g k n =
        ({ w with
            graphs := Function.update w.graphs g
              { w.graphs g with
                nodes := (w.graphs g).nodes.orderedInsert (fun a b => a.1 ≤ b.1) (k, some n) },
            nodeDG := Function.update w.nodeDG n (some g) }, true) := by
      unfold DependenceGraph.addNode
      rw [hins]
      simp
    rw [hadd]
    refine ⟨by simp, fun _ => ⟨?_, ?_, ?_, ?_⟩, fun hc => by simp at hc⟩
    · unfold DependenceGraph.getNode
      simp only [Function.update_same]
      rw [ContainerType.find_after_insert k (some n) _ k hf]
      simp
    · simp
    · unfold DependenceGraph.size
      simp only [Function.update_same]
      exact List.orderedInsert_length _ _ _
    · intro k2 hk2
      simp only [Function.update_same]
      rw [ContainerType.find_after_insert k (some n) _ k2 hf]
      simp [hk2]
  | some m =>
    have hadd : DependenceGraph.addNode w g k n = (w, false) := by
      unfold DependenceGraph.addNode ContainerType.insert
      rw [hf]
      simp
    rw [hadd]
    refine ⟨by simp, fun hc => by simp at hc,
      fun _ => ⟨rfl, fun m2 hm2 => by rw [← hm2]; exact hf⟩⟩

/-- C19: the lookup order of `getNode(k)`. It returns the pointer stored
under `k` in the local nodes when there is an entry; otherwise the `in` node
of the formal parameter for `k` when formal parameters are set and have one;
otherwise what `getGlobalNode(k)` returns: the pointer stored under `k` in the
shared container when the container exists and has an entry, and null
otherwise. The lookup returns a pointer only: it has no effect on the state.
In the example graph key 1 is found in the local nodes although a formal
parameter and a global node have the key, key 2 is found among the formal
parameters although a global node has the key, key 3 among the global nodes,
and key 4 nowhere. -/
theorem getNode_order (w : DGWorld) (g k : Nat) :
    (∀ n, ContainerType.find (w.graphs g).nodes k = some n →
      DependenceGraph.getNode w g k = n) ∧
    (ContainerType.find (w.graphs g).nodes k = none →
      (∀ ps p, (w.graphs g).formalParameters = some ps → DGParameters.find ps k = some p →
        DependenceGraph.getNode w g k = p.inNode) ∧
      (((w.graphs g).formalParameters = none ∨
          ∃ ps, (w.graphs g).formalParameters = some ps ∧ DGParameters.find ps k = none) →
        DependenceGraph.getNode w g k = DependenceGraph.getGlobalNode w g k)) ∧
    (∀ c n, (w.graphs g).global_nodes = some c →
      ContainerType.find (w.containers c) k = some n →
      DependenceGraph.getGlobalNode w g k = n) ∧
    (((w.graphs g).global_nodes = none ∨
        ∃ c, (w.graphs g).global_nodes = some c ∧
          ContainerType.find (w.containers c) k = none) →
      DependenceGraph.getGlobalNode w g k = none) ∧
    (DependenceGraph.getNode dgExample 0 1 = some 101 ∧
      DependenceGraph.getNode dgExample 0 2 = some 202 ∧
      DependenceGraph.getNode dgExample 0 3 = some 303 ∧
      DependenceGraph.getNode dgExample 0 4 = none) := by
  refine ⟨?_, ?_, ?_, ?_, by decide⟩
  · intro n hn
    unfold DependenceGraph.getNode
    rw [hn]
  · intro hnone
    constructor
    · intro ps p hps hp
      unfold DependenceGraph.getNode
      rw [hnone, hps]
      simp only [hp]
    · rintro (hps | ⟨ps, hps, hp⟩)
      · unfold DependenceGraph.getNode
        rw [hnone, hps]
      · unfold DependenceGraph.getNode
        rw [hnone, hps]
        simp only [hp]
  · intro c n hc hn
    unfold DependenceGraph.getGlobalNode
    rw [hc]
    simp only [hn]
  · rintro (hc | ⟨c, hc, hn⟩)
    · unfold DependenceGraph.getGlobalNode
      rw [hc]
    · unfold DependenceGraph.getGlobalNode
      rw [hc]
      simp only [hn]

theorem removeNode_present (w : DGWorld) (g k n : Nat)
    (h : ContainerType.find (w.graphs g).nodes k = some (some n)) :
    DependenceGraph.removeNode w g k =
      some ((w.isolate n).setContainer (ContainerRef.nodes g)
        (ContainerType.erase (w.graphs g).nodes k), some n) := by
  unfold DependenceGraph.removeNode DependenceGraph._removeNode
    DependenceGraph._removeNode_iterator
  simp only [DGWorld.container, h]

theorem removeNode_iterator_present (w : DGWorld) (g k n : Nat)
    (h : ContainerType.find (w.graphs g).nodes k = some (some n)) :
    DependenceGraph.removeNode_iterator w g k =
      some ((w.isolate n).setContainer (ContainerRef.nodes g)
        (ContainerType.erase (w.graphs g).nodes k), some n) := by
  unfold DependenceGraph.removeNode_iterator DependenceGraph._removeNode_iterator
  simp only [DGWorld.container, h]

theorem removeNode_absent (w : DGWorld) (g k : Nat)
    (h : ContainerType.find (w.graphs g).nodes k = none) :
    DependenceGraph.removeNode w g k = some (w, none) := by
  unfold DependenceGraph.removeNode DependenceGraph._removeNode
  simp only [DGWorld.container, h]

/-- C20: remove and delete. For a node `n` stored under `k`, `removeNode(k)`
returns `n`, erases the entry under `k` and no other, leaves no edge incident
to `n` and destroys nothing; `deleteNode(k)` and `deleteNode(iterator)` do the
same and destroy `n`, returning `true`. `deleteNode(NodeT *)` does the same
removal and returns `true`, but destroys nothing: the node is not deleted.
For an absent key `removeNode(k)` returns null and `deleteNode(k)` returns
`false`, the world unchanged. In the example graph `deleteNode(node 101)`
leaves the list of destroyed nodes empty, while `deleteNode(key 1)` destroys
node 101. -/
theorem deleteNode_node_keeps_node :
    (∀ (w : DGWorld) (g k n : Nat),
      ContainerType.find (w.graphs g).nodes k = some (some n) →
      ∃ w2, DependenceGraph.removeNode w g k = some (w2, some n) ∧
        ContainerType.find (w2.graphs g).nodes k = none ∧
        (∀ k2, k2 ≠ k → ContainerType.find (w2.graphs g).nodes k2 =
          ContainerType.find (w.graphs g).nodes k2) ∧
        (∀ e ∈ w2.edges, e.1 ≠ n ∧ e.2 ≠ n) ∧
        (∀ e ∈ w.edges, e.1 ≠ n → e.2 ≠ n → e ∈ w2.edges) ∧
        w2.deletedNodes = w.deletedNodes ∧
        DependenceGraph.deleteNode w g k =
          some ({ w2 with deletedNodes := n :: w.deletedNodes }, true) ∧
        DependenceGraph.deleteNode_iterator w g k =
          some ({ w2 with deletedNodes := n :: w.deletedNodes }, true) ∧
        (w.nodeKey n = k → DependenceGraph.deleteNode_node w g n = some (w2, true))) ∧
    (∀ (w : DGWorld) (g k : Nat),
      ContainerType.find (w.graphs g).nodes k = none →
      DependenceGraph.removeNode w g k = some (w, none) ∧
      DependenceGraph.deleteNode w g k = some (w, false)) ∧
    (dgExample.nodeKey 101 = 1 ∧
      ContainerType.find (dgExample.graphs 0).nodes 1 = some (some 101) ∧
      (DependenceGraph.deleteNode_node dgExample 0 101).map
          (fun r => (r.1.deletedNodes, (r.1.graphs 0).nodes, r.2)) =
        some ([], [(5, some 105)], true) ∧
      (DependenceGraph.deleteNode_node dgExample 0 101).map (fun r => r.1.edges) =
        some [(105, 303)] ∧
      (DependenceGraph.deleteNode dgExample 0 1).map
          (fun r => (r.1.deletedNodes, (r.1.graphs 0).nodes, r.2)) =
        some ([101], [(5, some 105)], true)) := by
  refine ⟨?_, ?_, by decide, by decide, by decide, by decide, by decide⟩
  · intro w g k n h
    refine ⟨(w.isolate n).setContainer (ContainerRef.nodes g)
      (ContainerType.erase (w.graphs g).nodes k), removeNode_present w g k n h,
      ?_, ?_, ?_, ?_, rfl, ?_, ?_, ?_⟩
    · simp only [DGWorld.setContainer, Function.update_same]
      rw [ContainerType.find_erase]
      simp
    · intro k2 hk2
      simp only [DGWorld.setContainer, Function.update_same]
      rw [ContainerType.find_erase]
      simp only [hk2, if_false]
    · intro e he
      simp only [DGWorld.setContainer, DGWorld.isolate, List.mem_filter, Bool.and_eq_true,
        bne_iff_ne, ne_eq] at he
      exact he.2
    · intro e he h1 h2
      simp only [DGWorld.setContainer, DGWorld.isolate, List.mem_filter, Bool.and_eq_true,
        bne_iff_ne, ne_eq]
      exact ⟨he, h1, h2⟩
    · unfold DependenceGraph.deleteNode
      rw [removeNode_present w g k n h]
      rfl
    · unfold DependenceGraph.deleteNode_iterator
      rw [removeNode_iterator_present w g k n h]
      rfl
    · intro hkey
      unfold DependenceGraph.deleteNode_node
      rw [hkey, removeNode_present w g k n h]
      rfl
  · intro w g k h
    refine ⟨removeNode_absent w g k h, ?_⟩
    unfold DependenceGraph.deleteNode
    rw [removeNode_absent w g k h]
    rfl

/-! ## Callers and the reference count -/

theorem refcount_addCaller (w : DGWorld) (g sg : Nat) :
    ((DependenceGraph.addCaller w g sg).1.graphs g).refcount = (w.graphs g).refcount := by
  simp [DependenceGraph.addCaller]

theorem refcount_addCallers (cs : List Nat) (w : DGWorld) (g : Nat) :
    ((DependenceGraph.addCallers w g cs).graphs g).refcount = (w.graphs g).refcount := by
  induction cs generalizing w with
  | nil => rfl
  | cons c cs ih =>
    simp only [DependenceGraph.addCallers]
    rw [ih, refcount_addCaller]

theorem callers_addCaller (w : DGWorld) (g sg : Nat) :
    ((DependenceGraph.addCaller w g sg).1.graphs g).callers =
      (DGContainer.insert (w.graphs g).callers sg).1 := by
  simp [DependenceGraph.addCaller]

theorem mem_DGContainer_insert (c : List Nat) (n x : Nat) :
    x ∈ (DGContainer.insert c n).1 ↔ x ∈ c ∨ x = n := by
  unfold DGContainer.insert
  by_cases h : n ∈ c
  · rw [if_pos h]
    constructor
    · exact Or.inl
    · rintro (h1 | h1)
      · exact h1
      · rw [h1]; exact h
  · rw [if_neg h]
    simp

theorem length_DGContainer_insert (c : List Nat) (n : Nat) (h : n ∉ c) :
    (DGContainer.insert c n).1.length = c.length + 1 := by
  unfold DGContainer.insert
  rw [if_neg h]
  simp

theorem callers_addCallers (cs : List Nat) (w : DGWorld) (g : Nat) :
    (∀ x, x ∈ ((DependenceGraph.addCallers w g cs).graphs g).callers ↔
      x ∈ (w.graphs g).callers ∨ x ∈ cs) ∧
    (cs.Nodup → (∀ x ∈ cs, x ∉ (w.graphs g).callers) →
      ((DependenceGraph.addCallers w g cs).graphs g).callers.length =
        (w.graphs g).callers.length + cs.length) := by
  induction cs generalizing w with
  | nil => simp [DependenceGraph.addCallers]
  | cons c cs ih =>
    simp only [DependenceGraph.addCallers]
    obtain ⟨ih1, ih2⟩ := ih (DependenceGraph.addCaller w g c).1
    constructor
    · intro x
      rw [ih1, callers_addCaller, mem_DGContainer_insert]
      simp only [List.mem_cons]
      tauto
    · intro hnd hfresh
      rw [List.nodup_cons] at hnd
      rw [ih2 hnd.2, callers_addCaller, length_DGContainer_insert]
      · simp only [List.length_cons]; omega
      · exact hfresh c (List.mem_cons_self _ _)
      · intro x hx
        rw [callers_addCaller, mem_DGContainer_insert]
        rintro (h1 | h1)
        · exact hfresh x (List.mem_cons_of_mem _ hx) h1
        · rw [h1] at hx; exact hnd.1 hx

/-- C21 (counterexample): adding the caller 7 to a freshly constructed graph
leaves its reference count at 1, not at 2, and after adding the three distinct
callers 7, 8, 9 the count still is 1, not 1 + 3. -/
theorem addCaller_refcount_stays :
    (DependenceGraph.addCaller DGWorld.fresh 0 7).2 = true ∧
    ((DependenceGraph.addCaller DGWorld.fresh 0 7).1.graphs 0).refcount = 1 ∧
    ((DependenceGraph.addCaller DGWorld.fresh 0 7).1.graphs 0).refcount ≠
      (DGWorld.fresh.graphs 0).refcount + 1 ∧
    ((DependenceGraph.addCallers DGWorld.fresh 0 [7, 8, 9]).graphs 0).callers = [7, 8, 9] ∧
    ((DependenceGraph.addCallers DGWorld.fresh 0 [7, 8, 9]).graphs 0).refcount ≠
      (DGWorld.fresh.graphs 0).refcount + 3 := by
  refine ⟨by decide, by decide, by decide, by decide, by decide⟩

/-- C21 (amended): `addCaller(c)` inserts the call site `c` into the set of
callers of the graph, tells whether it was new, and leaves the reference count
as it was; so after adding `k` distinct callers to a freshly constructed graph
the set of callers holds exactly these `k` call sites and the reference count
still is the initial value 1. -/
theorem addCaller_callers_only (w : DGWorld) (g c : Nat) (cs : List Nat) :
    ((DependenceGraph.addCaller w g c).1.graphs g).refcount = (w.graphs g).refcount ∧
    (∀ x, x ∈ ((DependenceGraph.addCaller w g c).1.graphs g).callers ↔
      x ∈ (w.graphs g).callers ∨ x = c) ∧
    ((DependenceGraph.addCaller w g c).2 = true ↔ c ∉ (w.graphs g).callers) ∧
    (w.graphs g = DependenceGraph.new → cs.Nodup →
      ((DependenceGraph.addCallers w g cs).graphs g).refcount = 1 ∧
      ((DependenceGraph.addCallers w g cs).graphs g).callers.length = cs.length ∧
      ∀ x, x ∈ ((DependenceGraph.addCallers w g cs).graphs g).callers ↔ x ∈ cs) := by
  refine ⟨refcount_addCaller w g c, ?_, ?_, ?_⟩
  · intro x
    rw [callers_addCaller, mem_DGContainer_insert]
  · unfold DependenceGraph.addCaller DGContainer.insert
    by_cases h : c ∈ (w.graphs g).callers
    · simp [h]
    · simp [h]
  · intro hnew hnd
    obtain ⟨h1, h2⟩ := callers_addCallers cs w g
    refine ⟨?_, ?_, ?_⟩
    · rw [refcount_addCallers, hnew]; rfl
    · rw [h2 hnd]
      · rw [hnew]; simp [DependenceGraph.new]
      · intro x _
        rw [hnew]; simp [DependenceGraph.new]
    · intro x
      rw [h1, hnew]
      simp [DependenceGraph.new]

/-- C21 (witness): the amended statement at a freshly constructed graph and the
callers 7, 8, 9. -/
theorem addCaller_callers_only_witness :
    DGWorld.fresh.graphs 0 = DependenceGraph.new ∧ [7, 8, 9].Nodup ∧
    ((DependenceGraph.addCallers DGWorld.fresh 0 [7, 8, 9]).graphs 0).refcount = 1 ∧
    ((DependenceGraph.addCallers DGWorld.fresh 0 [7, 8, 9]).graphs 0).callers.length = 3 :=
  ⟨rfl, by decide,
    ((addCaller_callers_only DGWorld.fresh 0 7 [7, 8, 9]).2.2.2 rfl (by decide)).1,
    ((addCaller_callers_only DGWorld.fresh 0 7 [7, 8, 9]).2.2.2 rfl (by decide)).2.1⟩

theorem wrapInt_of_range (x : Int) (h1 : INT_MIN ≤ x) (h2 : x ≤ INT_MAX) : wrapInt x = x := by
  unfold wrapInt
  unfold INT_MIN at h1
  unfold INT_MAX at h2
  omega

theorem wrapInt_succ_pred (c : Int) (h1 : INT_MIN ≤ c) (h2 : c ≤ INT_MAX) :
    wrapInt (wrapInt (c + 1) - 1) = c := by
  unfold wrapInt
  unfold INT_MIN at h1
  unfold INT_MAX at h2
  omega

theorem unref_destroys (w : DGWorld) (g : Nat) (h : wrapInt ((w.graphs g).refcount - 1) = 0) :
    DependenceGraph.unref w g true =
      some (DependenceGraph.deleteThis (w.setRefcount g 0) g, 0) := by
  unfold DependenceGraph.unref
  simp only [h, and_self, if_true]

theorem unref_keeps (w : DGWorld) (g : Nat) (b : Bool)
    (h : 0 < wrapInt ((w.graphs g).refcount - 1)) :
    DependenceGraph.unref w g b =
      some (w.setRefcount g (wrapInt ((w.graphs g).refcount - 1)),
        wrapInt ((w.graphs g).refcount - 1)) := by
  unfold DependenceGraph.unref
  have h0 : wrapInt ((w.graphs g).refcount - 1) ≠ 0 := by omega
  have h1 : (0 : Int) ≤ wrapInt ((w.graphs g).refcount - 1) := by omega
  simp only [h0, and_false, if_false, h1, if_true]

theorem unref_result (w w2 : DGWorld) (g : Nat) (b : Bool) (r : Int)
    (h : DependenceGraph.unref w g b = some (w2, r)) :
    r = wrapInt ((w.graphs g).refcount - 1) ∧
    (w2.deletedGraphs ≠ w.deletedGraphs ↔
      (b = true ∧ wrapInt ((w.graphs g).refcount - 1) = 0)) ∧
    (w2.deletedGraphs ≠ w.deletedGraphs → w2.deletedGraphs = g :: w.deletedGraphs) := by
  unfold DependenceGraph.unref at h
  by_cases h1 : b = true ∧ wrapInt ((w.graphs g).refcount - 1) = 0
  · simp only [h1, and_self, if_true, Option.some.injEq, Prod.mk.injEq] at h
    obtain ⟨hw, hr⟩ := h
    subst hw
    refine ⟨?_, ?_, ?_⟩
    · rw [h1.2]; exact hr.symm
    · simp [DependenceGraph.deleteThis, DGWorld.setRefcount, h1]
    · intro _
      simp [DependenceGraph.deleteThis, DGWorld.setRefcount]
  · rw [if_neg h1] at h
    by_cases h2 : (0 : Int) ≤ wrapInt ((w.graphs g).refcount - 1)
    · rw [if_pos h2] at h
      simp only [Option.some.injEq, Prod.mk.injEq] at h
      obtain ⟨hw, hr⟩ := h
      subst hw
      refine ⟨hr.symm, ?_, ?_⟩
      · simp only [DGWorld.setRefcount, ne_eq, not_true_eq_false, false_iff]
        exact h1
      · intro hne
        exact absurd rfl hne
    · rw [if_neg h2] at h
      cases h

/-- C22: a freshly constructed graph has reference count 1. For a graph with
the count `c` (an `int`): `ref()` stores the incremented count and returns the
stored value, which is `c + 1` below `INT_MAX`, and destroys nothing;
`unref()` at `c = 1` decrements to zero, destroys the graph and returns 0; at
`c ≥ 2` it stores and returns `c - 1` and destroys nothing; whenever `unref`
returns, it returns the decremented count and has destroyed the graph exactly
when it was asked to delete on zero and the decremented count is zero; and for
every `c ≥ 1`, `ref()` followed by `unref()` restores `c` and destroys
nothing. -/
theorem refcount_lifetime (w : DGWorld) (g : Nat) (c : Int)
    (hc : (w.graphs g).refcount = c) (hlo : INT_MIN ≤ c) (hhi : c ≤ INT_MAX) :
    DependenceGraph.new.refcount = 1 ∧
    ((DependenceGraph.ref w g).2 = wrapInt (c + 1) ∧
      ((DependenceGraph.ref w g).1.graphs g).refcount = (DependenceGraph.ref w g).2 ∧
      (c < INT_MAX → (DependenceGraph.ref w g).2 = c + 1) ∧
      (DependenceGraph.ref w g).1.deletedGraphs = w.deletedGraphs) ∧
    (c = 1 → ∃ w2, DependenceGraph.unref w g true = some (w2, 0) ∧
      w2.deletedGraphs = g :: w.deletedGraphs) ∧
    (2 ≤ c → ∃ w2, DependenceGraph.unref w g true = some (w2, c - 1) ∧
      (w2.graphs g).refcount = c - 1 ∧ w2.deletedGraphs = w.deletedGraphs) ∧
    (∀ (b : Bool) (w2 : DGWorld) (r : Int), DependenceGraph.unref w g b = some (w2, r) →
      r = wrapInt (c - 1) ∧
      (w2.deletedGraphs ≠ w.deletedGraphs ↔ (b = true ∧ wrapInt (c - 1) = 0)) ∧
      (w2.deletedGraphs ≠ w.deletedGraphs → w2.deletedGraphs = g :: w.deletedGraphs)) ∧
    (1 ≤ c → ∃ w2, DependenceGraph.unref (DependenceGraph.ref w g).1 g true = some (w2, c) ∧
      (w2.graphs g).refcount = c ∧ w2.deletedGraphs = w.deletedGraphs) := by
  refine ⟨rfl, ⟨?_, ?_, ?_, rfl⟩, ?_, ?_, ?_, ?_⟩
  · simp [DependenceGraph.ref, hc]
  · simp [DependenceGraph.ref]
  · intro hlt
    simp only [DependenceGraph.ref, hc]
    apply wrapInt_of_range
    · unfold INT_MIN at *; omega
    · unfold INT_MAX at *; omega
  · intro h1
    have hz : wrapInt ((w.graphs g).refcount - 1) = 0 := by
      rw [hc, h1]; decide
    exact ⟨_, unref_destroys w g hz, rfl⟩
  · intro h2
    have hw : wrapInt ((w.graphs g).refcount - 1) = c - 1 := by
      rw [hc]
      apply wrapInt_of_range
      · unfold INT_MIN at *; omega
      · unfold INT_MAX at *; omega
    have hpos : 0 < wrapInt ((w.graphs g).refcount - 1) := by rw [hw]; omega
    refine ⟨w.setRefcount g (c - 1), ?_, ?_, rfl⟩
    · rw [unref_keeps w g true hpos, hw]
    · simp [DGWorld.setRefcount]
  · intro b w2 r h
    have := unref_result w w2 g b r h
    rw [hc] at this
    exact this
  · intro h1
    have hr : ((DependenceGraph.ref w g).1.graphs g).refcount = wrapInt (c + 1) := by
      simp [DependenceGraph.ref, hc]
    have hw : wrapInt (((DependenceGraph.ref w g).1.graphs g).refcount - 1) = c := by
      rw [hr]; exact wrapInt_succ_pred c hlo hhi
    have hpos : 0 < wrapInt (((DependenceGraph.ref w g).1.graphs g).refcount - 1) := by
      rw [hw]; omega
    refine ⟨(DependenceGraph.ref w g).1.setRefcount g c, ?_, ?_, rfl⟩
    · rw [unref_keeps _ g true hpos, hw]
    · simp [DGWorld.setRefcount]

/-- C22 (witness): the statement at a freshly constructed graph, whose count
is 1: `unref()` destroys it, and `ref()` followed by `unref()` restores 1. -/
theorem refcount_lifetime_witness :
    (DGWorld.fresh.graphs 0).refcount = 1 ∧ INT_MIN ≤ (1 : Int) ∧ (1 : Int) ≤ INT_MAX ∧
    (∃ w2, DependenceGraph.unref DGWorld.fresh 0 true = some (w2, 0) ∧
      w2.deletedGraphs = 0 :: DGWorld.fresh.deletedGraphs) ∧
    (∃ w2, DependenceGraph.unref (DependenceGraph.ref DGWorld.fresh 0).1 0 true =
        some (w2, 1) ∧
      (w2.graphs 0).refcount = 1 ∧ w2.deletedGraphs = DGWorld.fresh.deletedGraphs) :=
  ⟨rfl, by decide, by decide,
    (refcount_lifetime DGWorld.fresh 0 1 rfl (by decide) (by decide)).2.2.1 rfl,
    (refcount_lifetime DGWorld.fresh 0 1 rfl (by decide) (by decide)).2.2.2.2.2 (le_refl 1)⟩

/-! ## The shared container of global nodes -/

theorem globalsInv_fresh : globalsInv GlobalsFamily.fresh := by
  refine ⟨?_, ?_, ?_, ?_, ?_⟩
  · intro g h
    simp [GlobalsFamily.fresh, DGWorld.fresh, DependenceGraph.new] at h
  · intro c o h
    simp [GlobalsFamily.fresh] at h
  · intro g c h
    simp [GlobalsFamily.fresh, DGWorld.fresh, DependenceGraph.new] at h
  · intro c o h
    simp [GlobalsFamily.fresh] at h
  · intro c o o2 h
    simp [GlobalsFamily.fresh] at h

theorem globalsInv_congr (s s2 : GlobalsFamily) (hg : s2.world.graphs = s.world.graphs)
    (hf : s2.world.freshContainer = s.world.freshContainer) (hc : s2.creator = s.creator)
    (h : globalsInv s) : globalsInv s2 := by
  unfold globalsInv at *
  rw [hg, hf, hc]
  exact h

theorem singleOwner_of_globalsInv (s : GlobalsFamily) (h : globalsInv s) : singleOwner s := by
  obtain ⟨hA, hB, hC, _, hE⟩ := h
  refine ⟨?_, hA⟩
  intro g c hg
  obtain ⟨o, ho⟩ := hC g c hg
  refine ⟨o, hB c o ho, ?_⟩
  rintro o2 ⟨hown, hglob⟩
  obtain ⟨c2, hc2, hmem⟩ := hA o2 hown
  rw [hglob] at hc2
  cases hc2
  exact hE c o2 o hmem ho

theorem globalsInv_alloc (s s2 : GlobalsFamily) (g : Nat)
    (hnone : (s.world.graphs g).global_nodes = none)
    (hg : s2.world.graphs = (s.world.allocGlobalNodes g).graphs)
    (hf : s2.world.freshContainer = s.world.freshContainer + 1)
    (hc : s2.creator = (s.world.freshContainer, g) :: s.creator)
    (h : globalsInv s) : globalsInv s2 := by
  obtain ⟨hA, hB, hC, hD, hE⟩ := h
  have hgraphs : ∀ x, s2.world.graphs x =
      if x = g then
        { s.world.graphs g with
          global_nodes := some s.world.freshContainer
          own_global_nodes := true }
      else s.world.graphs x := by
    intro x
    rw [hg]
    simp only [DGWorld.allocGlobalNodes, DGWorld.newContainer, Function.update_apply]
  have hnotg : ∀ c o, (c, o) ∈ s.creator → o ≠ g := by
    intro c o hmem hog
    have := (hB c o hmem).2
    rw [hog, hnone] at this
    cases this
  refine ⟨?_, ?_, ?_, ?_, ?_⟩
  · intro x hx
    rw [hgraphs] at hx ⊢
    rw [hc]
    by_cases hxg : x = g
    · rw [if_pos hxg]
      exact ⟨s.world.freshContainer, rfl, by rw [hxg]; exact List.mem_cons_self _ _⟩
    · rw [if_neg hxg] at hx ⊢
      obtain ⟨c, h1, h2⟩ := hA x hx
      exact ⟨c, h1, List.mem_cons_of_mem _ h2⟩
  · intro c o hmem
    rw [hc, List.mem_cons] at hmem
    rw [hgraphs]
    rcases hmem with hhead | htail
    · cases hhead
      rw [if_pos rfl]
      exact ⟨rfl, rfl⟩
    · rw [if_neg (hnotg c o htail)]
      exact hB c o htail
  · intro x c hx
    rw [hgraphs] at hx
    rw [hc]
    by_cases hxg : x = g
    · rw [if_pos hxg] at hx
      simp only [Option.some.injEq] at hx
      exact ⟨g, by rw [← hx]; exact List.mem_cons_self _ _⟩
    · rw [if_neg hxg] at hx
      obtain ⟨o, ho⟩ := hC x c hx
      exact ⟨o, List.mem_cons_of_mem _ ho⟩
  · intro c o hmem
    rw [hc, List.mem_cons] at hmem
    rw [hf]
    rcases hmem with hhead | htail
    · cases hhead
      omega
    · have := hD c o htail
      omega
  · intro c o o2 h1 h2
    rw [hc, List.mem_cons] at h1 h2
    rcases h1 with h1 | h1 <;> rcases h2 with h2 | h2
    · cases h1; cases h2; rfl
    · cases h1
      exact absurd (hD _ _ h2) (lt_irrefl _)
    · cases h2
      exact absurd (hD _ _ h1) (lt_irrefl _)
    · exact hE c o o2 h1 h2

theorem globalsInv_set (s s2 : GlobalsFamily) (g : Nat) (ngn : Option Nat)
    (hown : (s.world.graphs g).own_global_nodes = false)
    (hngn : ngn = none ∨ ∃ o, (s.world.graphs o).global_nodes = ngn)
    (hg : s2.world.graphs = (DependenceGraph.setGlobalNodes s.world g ngn).1.graphs)
    (hf : s2.world.freshContainer = s.world.freshContainer)
    (hc : s2.creator = s.creator)
    (h : globalsInv s) : globalsInv s2 := by
  obtain ⟨hA, hB, hC, hD, hE⟩ := h
  have hgraphs : ∀ x, s2.world.graphs x =
      if x = g then { s.world.graphs g with global_nodes := ngn }
      else s.world.graphs x := by
    intro x
    rw [hg]
    simp only [DependenceGraph.setGlobalNodes, Function.update_apply]
  have hnotg : ∀ c o, (c, o) ∈ s.creator → o ≠ g := by
    intro c o hmem hog
    have := (hB c o hmem).1
    rw [hog, hown] at this
    cases this
  refine ⟨?_, ?_, ?_, ?_, ?_⟩
  · intro x hx
    rw [hgraphs] at hx ⊢
    rw [hc]
    by_cases hxg : x = g
    · rw [if_pos hxg] at hx
      simp only [hown] at hx
      cases hx
    · rw [if_neg hxg] at hx ⊢
      exact hA x hx
  · intro c o hmem
    rw [hc] at hmem
    rw [hgraphs, if_neg (hnotg c o hmem)]
    exact hB c o hmem
  · intro x c hx
    rw [hgraphs] at hx
    rw [hc]
    by_cases hxg : x = g
    · rw [if_pos hxg] at hx
      simp only at hx
      rcases hngn with hn | ⟨o, ho⟩
      · rw [hn] at hx; cases hx
      · rw [hx] at ho
        exact hC o c ho
    · rw [if_neg hxg] at hx
      exact hC x c hx
  · intro c o hmem
    rw [hc] at hmem
    rw [hf]
    exact hD c o hmem
  · intro c o o2 h1 h2
    rw [hc] at h1 h2
    exact hE c o o2 h1 h2

theorem globalsInv_new (s : GlobalsFamily) (h0 : ∀ g, s.world.graphs g = DependenceGraph.new)
    (hc : s.creator = []) : globalsInv s := by
  refine ⟨?_, ?_, ?_, ?_, ?_⟩
  · intro g h
    rw [h0] at h
    simp [DependenceGraph.new] at h
  · intro c o h
    rw [hc] at h
    cases h
  · intro g c h
    rw [h0] at h
    simp [DependenceGraph.new] at h
  · intro c o h
    rw [hc] at h
    cases h
  · intro c o o2 h
    rw [hc] at h
    cases h

theorem addGlobalNode_world (w : DGWorld) (g k n : Nat) (r : DGWorld × Bool)
    (h : DependenceGraph.addGlobalNode w g k n = some r) :
    r.1.graphs = (if (w.graphs g).global_nodes = none then w.allocGlobalNodes g else w).graphs ∧
    r.1.freshContainer =
      (if (w.graphs g).global_nodes = none then w.allocGlobalNodes g else w).freshContainer := by
  unfold DependenceGraph.addGlobalNode at h
  simp only at h
  generalize (if (w.graphs g).global_nodes = none then w.allocGlobalNodes g else w) = w1 at h ⊢
  cases hc : (w1.graphs g).global_nodes with
  | none =>
    rw [hc] at h
    cases h
  | some c =>
    rw [hc] at h
    simp only at h
    cases ho : DependenceGraph.globalOwner w1 g c with
    | none =>
      rw [ho] at h
      cases h
    | some owner =>
      rw [ho] at h
      simp only at h
      by_cases hi : (ContainerType.insert (w1.containers c) k (some n)).2 = true
      · rw [if_pos hi] at h
        cases h
        exact ⟨rfl, rfl⟩
      · rw [if_neg hi] at h
        cases h
        exact ⟨rfl, rfl⟩

theorem freshContainer_allocGlobalNodes (w : DGWorld) (g : Nat) :
    (w.allocGlobalNodes g).freshContainer = w.freshContainer + 1 := rfl

theorem globalsInv_run (s s2 : GlobalsFamily) (call : GlobalsCall)
    (hok : call.sharesOnly s.world) (hrun : call.run s = some s2) (h : globalsInv s) :
    globalsInv s2 := by
  unfold GlobalsCall.run at hrun
  cases call with
  | createGlobalNodes g =>
    simp only [GlobalsCall.world, DependenceGraph.createGlobalNodes, GlobalsCall.graph] at hrun
    cases hnone : (s.world.graphs g).global_nodes with
    | some c =>
      rw [hnone] at hrun
      simp at hrun
    | none =>
      rw [hnone] at hrun
      simp only [Option.map_some', Option.some.injEq] at hrun
      subst hrun
      apply globalsInv_alloc s _ g hnone rfl rfl _ h
      simp [freshContainer_allocGlobalNodes]
  | setGlobalNodes g ngn =>
    simp only [GlobalsCall.world, GlobalsCall.graph, Option.some.injEq] at hrun
    subst hrun
    exact globalsInv_set s _ g ngn hok.1 hok.2 rfl rfl (by simp [DependenceGraph.setGlobalNodes]) h
  | addGlobalNode g k n =>
    simp only [GlobalsCall.world, GlobalsCall.graph] at hrun
    cases hadd : DependenceGraph.addGlobalNode s.world g k n with
    | none =>
      rw [hadd] at hrun
      simp at hrun
    | some r =>
      rw [hadd] at hrun
      simp only [Option.map_some', Option.some.injEq] at hrun
      subst hrun
      obtain ⟨hg, hf⟩ := addGlobalNode_world s.world g k n r hadd
      by_cases hnone : (s.world.graphs g).global_nodes = none
      · rw [if_pos hnone] at hg hf
        apply globalsInv_alloc s _ g hnone hg hf _ h
        simp [hf, freshContainer_allocGlobalNodes]
      · rw [if_neg hnone] at hg hf
        apply globalsInv_congr s _ hg hf _ h
        simp [hf]

theorem globalsInv_runAll (calls : List GlobalsCall) (s s2 : GlobalsFamily)
    (hok : GlobalsCall.allShareOnly s calls) (hrun : GlobalsCall.runAll s calls = some s2)
    (h : globalsInv s) : globalsInv s2 := by
  induction calls generalizing s with
  | nil =>
    simp only [GlobalsCall.runAll, Option.some.injEq] at hrun
    rw [← hrun]
    exact h
  | cons call rest ih =>
    simp only [GlobalsCall.runAll] at hrun
    simp only [GlobalsCall.allShareOnly] at hok
    cases hstep : call.run s with
    | none =>
      rw [hstep] at hrun
      cases hrun
    | some s1 =>
      rw [hstep] at hrun hok
      exact ih s1 hok.2 hrun (globalsInv_run s s1 call hok.1 hstep h)

/-- C23 (counterexample): two runs on freshly constructed graphs. In the
first, the graphs 0 and 1 each create a container and graph 1 is then handed
the container of graph 0 by `setGlobalNodes`: container 0 has two owners, and
graph 1 owns a container that graph 0 allocated. In the second, graph 0
creates a container, graph 1 is handed it, and graph 0 is handed `nullptr`:
container 0, which graph 1 references, has no owner that references it. -/
theorem setGlobalNodes_breaks_single_owner :
    (∃ s, GlobalsCall.runAll GlobalsFamily.fresh
        [GlobalsCall.createGlobalNodes 0, GlobalsCall.createGlobalNodes 1,
          GlobalsCall.setGlobalNodes 1 (some 0)] = some s ∧
      ((s.world.graphs 0).own_global_nodes = true ∧
        (s.world.graphs 0).global_nodes = some 0) ∧
      ((s.world.graphs 1).own_global_nodes = true ∧
        (s.world.graphs 1).global_nodes = some 0) ∧
      s.creator = [(1, 1), (0, 0)] ∧
      ¬ singleOwner s) ∧
    (∃ s, GlobalsCall.runAll GlobalsFamily.fresh
        [GlobalsCall.createGlobalNodes 0, GlobalsCall.setGlobalNodes 1 (some 0),
          GlobalsCall.setGlobalNodes 0 none] = some s ∧
      (s.world.graphs 1).global_nodes = some 0 ∧
      (∀ o, ¬ ((s.world.graphs o).own_global_nodes = true ∧
        (s.world.graphs o).global_nodes = some 0)) ∧
      ¬ singleOwner s) := by
  constructor
  · refine ⟨_, rfl, ⟨by decide, by decide⟩, ⟨by decide, by decide⟩, by decide, ?_⟩
    intro h
    obtain ⟨o, _, huniq⟩ := h.1 0 0 (by decide)
    have h0 := huniq 0 ⟨by decide, by decide⟩
    have h1 := huniq 1 ⟨by decide, by decide⟩
    omega
  · have hno : ∀ o, ¬ (((DependenceGraph.setGlobalNodes
          (DependenceGraph.setGlobalNodes (DGWorld.fresh.allocGlobalNodes 0) 1 (some 0)).1
          0 none).1.graphs o).own_global_nodes = true ∧
        ((DependenceGraph.setGlobalNodes
          (DependenceGraph.setGlobalNodes (DGWorld.fresh.allocGlobalNodes 0) 1 (some 0)).1
          0 none).1.graphs o).global_nodes = some 0) := by
      intro o
      simp only [DependenceGraph.setGlobalNodes, DGWorld.allocGlobalNodes,
        DGWorld.newContainer, DGWorld.fresh, DependenceGraph.new, Function.update_apply]
      by_cases h0 : o = 0
      · simp [h0]
      · by_cases h1 : o = 1
        · simp [h1]
        · simp [h0, h1]
    refine ⟨_, rfl, by decide, hno, ?_⟩
    intro h
    obtain ⟨o, ho, _⟩ := h.1 1 0 (by decide)
    exact hno o ho

/-- C23 (amended): on a family of freshly constructed graphs, for every
sequence of `createGlobalNodes`, `setGlobalNodes` and `addGlobalNode` calls in
which `setGlobalNodes` is only called on a graph with `own_global_nodes ==
false` and is handed `nullptr` or the container of a graph of the family,
every state that the sequence reaches has, for every container referenced by
a graph, exactly one graph with `own_global_nodes == true` referencing it, and
every graph with `own_global_nodes == true` references a container that it
allocated itself. -/
theorem global_nodes_single_owner (s0 s : GlobalsFamily) (calls : List GlobalsCall)
    (hnew : ∀ g, s0.world.graphs g = DependenceGraph.new) (hrec : s0.creator = [])
    (hok : GlobalsCall.allShareOnly s0 calls)
    (hrun : GlobalsCall.runAll s0 calls = some s) :
    singleOwner s :=
  singleOwner_of_globalsInv s
    (globalsInv_runAll calls s0 s hok hrun (globalsInv_new s0 hnew hrec))

/-- C23 (witness): graph 0 creates the container and adds a node, graph 1 is
handed the container and adds a node to it, graph 2 adds a node and so
allocates a container of its own; the run ends, container 0 is shared by the
graphs 0 and 1 and owned by graph 0 alone. -/
theorem global_nodes_single_owner_witness :
    (∀ g, GlobalsFamily.fresh.world.graphs g = DependenceGraph.new) ∧
    GlobalsFamily.fresh.creator = [] ∧
    GlobalsCall.allShareOnly GlobalsFamily.fresh
      [GlobalsCall.createGlobalNodes 0, GlobalsCall.addGlobalNode 0 3 300,
        GlobalsCall.setGlobalNodes 1 (some 0), GlobalsCall.addGlobalNode 1 4 301,
        GlobalsCall.addGlobalNode 2 5 302] ∧
    ∃ s, GlobalsCall.runAll GlobalsFamily.fresh
        [GlobalsCall.createGlobalNodes 0, GlobalsCall.addGlobalNode 0 3 300,
          GlobalsCall.setGlobalNodes 1 (some 0), GlobalsCall.addGlobalNode 1 4 301,
          GlobalsCall.addGlobalNode 2 5 302] = some s ∧
      (s.world.graphs 0).global_nodes = some 0 ∧
      (s.world.graphs 1).global_nodes = some 0 ∧
      (s.world.graphs 1).own_global_nodes = false ∧
      (s.world.graphs 2).global_nodes = some 1 ∧
      s.world.containers 0 = [(3, some 300), (4, some 301)] ∧
      s.world.nodeDG 301 = some 0 ∧
      singleOwner s := by
  have hok : GlobalsCall.allShareOnly GlobalsFamily.fresh
      [GlobalsCall.createGlobalNodes 0, GlobalsCall.addGlobalNode 0 3 300,
        GlobalsCall.setGlobalNodes 1 (some 0), GlobalsCall.addGlobalNode 1 4 301,
        GlobalsCall.addGlobalNode 2 5 302] :=
    ⟨trivial, trivial, ⟨by decide, Or.inr ⟨0, by decide⟩⟩, trivial, trivial, trivial⟩
  exact ⟨fun _ => rfl, rfl, hok, _, rfl, by decide, by decide, by decide, by decide,
    by decide, by decide,
    global_nodes_single_owner GlobalsFamily.fresh _ _ (fun _ => rfl) rfl hok rfl⟩

/-! ## Lookups that insert -/

theorem find_nodesAt (w : DGWorld) (g k : Nat)
    (h : ContainerType.find (w.graphs g).nodes k = none) :
    ContainerType.find ((DependenceGraph.nodesAt w g k).1.graphs g).nodes k = some none := by
  unfold DependenceGraph.nodesAt
  rw [h]
  simp only [Function.update_same]
  unfold ContainerType.insert
  rw [h]
  simp only
  rw [ContainerType.find_after_insert k none _ k h]
  simp

theorem getNode_of_null_entry (w : DGWorld) (g k : Nat)
    (h : ContainerType.find (w.graphs g).nodes k = some none) :
    DependenceGraph.getNode w g k = none := by
  unfold DependenceGraph.getNode
  rw [h]

theorem getGlobalNode_eq_none_iff (w : DGWorld) (g k : Nat)
    (hnull : ∀ c, (w.graphs g).global_nodes = some c →
      ContainerType.find (w.containers c) k ≠ some none) :
    DependenceGraph.getGlobalNode w g k = none ↔ ¬ hasGlobalNode w g k := by
  unfold DependenceGraph.getGlobalNode hasGlobalNode
  cases hc : (w.graphs g).global_nodes with
  | none => simp
  | some c =>
    simp only [Option.some.injEq, exists_eq_left']
    cases hf : ContainerType.find (w.containers c) k with
    | none => simp [hf]
    | some n =>
      cases n with
      | none => exact absurd hf (hnull c hc)
      | some x => simp [hf]

/-- C24 (counterexample): a freshly constructed graph adds the global node 303
under the key 3, and `getNode(3)` returns it; then `operator[]` is applied to
the key 3, which has no local entry, and returns null; after that
`getNode(3)` returns null although the key 3 still has its node in the shared
global nodes. -/
theorem getNode_null_after_subscript :
    ∃ w1 w2, DependenceGraph.addGlobalNode DGWorld.fresh 0 3 303 = some (w1, true) ∧
      DependenceGraph.getNode w1 0 3 = some 303 ∧
      DependenceGraph.subscript w1 0 3 = (w2, none) ∧
      DependenceGraph.getNode w2 0 3 = none ∧
      hasGlobalNode w2 0 3 ∧
      ¬ (DependenceGraph.getNode w2 0 3 = none ↔
        (¬ hasLocalNode w2 0 3 ∧ ¬ hasFormalParameter w2 0 3 ∧ ¬ hasGlobalNode w2 0 3)) := by
  refine ⟨_, _, rfl, by decide, rfl, by decide, ⟨0, 303, by decide, by decide⟩, ?_⟩
  intro h
  exact (h.1 (by decide)).2.2 ⟨0, 303, by decide, by decide⟩

theorem getNode_eq_none_iff (w : DGWorld) (g k : Nat) (hnull : noNullEntry w g k) :
    DependenceGraph.getNode w g k = none ↔
      (¬ hasLocalNode w g k ∧ ¬ hasFormalParameter w g k ∧ ¬ hasGlobalNode w g k) := by
  obtain ⟨h1, h2, h3⟩ := hnull
  have hglob := getGlobalNode_eq_none_iff w g k h3
  unfold DependenceGraph.getNode
  cases hl : ContainerType.find (w.graphs g).nodes k with
  | some n =>
    cases n with
    | none => exact absurd hl h1
    | some x =>
      have hloc : hasLocalNode w g k := ⟨x, hl⟩
      simp [hloc]
  | none =>
    have hloc : ¬ hasLocalNode w g k := by
      rintro ⟨n, hn⟩
      rw [hl] at hn
      cases hn
    cases hp : (w.graphs g).formalParameters with
    | none =>
      have hpar : ¬ hasFormalParameter w g k := by
        rintro ⟨ps, p, hps, _⟩
        rw [hp] at hps
        cases hps
      simp only [hloc, hpar, not_false_eq_true, true_and]
      exact hglob
    | some ps =>
      cases hf : DGParameters.find ps k with
      | none =>
        have hpar : ¬ hasFormalParameter w g k := by
          rintro ⟨ps2, p, hps, hfind⟩
          rw [hp] at hps
          cases hps
          rw [hf] at hfind
          cases hfind
        simp only [hloc, hpar, not_false_eq_true, true_and, hf]
        exact hglob
      | some p =>
        have hpar : hasFormalParameter w g k := ⟨ps, p, hp, hf⟩
        have := h2 ps p hp hf
        simp [hpar, this, hf]

/-- C24 (amended): in a state in which no place where `getNode` looks for the
key `k` holds a null pointer (the local entry, the `in` node of the formal
parameter, the entry of the shared global nodes), `getNode(k)` returns null if
and only if `k` has no node in the local nodes, no formal parameter and no node
in the shared global nodes. `operator[]` and `getRef` on a key without a local
entry return null and insert a local entry holding a null pointer: afterwards
`contains(k)` is true, `k` still has no local node, formal parameters and
global nodes are as before, and `getNode(k)` returns null whatever they hold.
On a key with a local entry they return the stored pointer and change
nothing. -/
theorem getNode_null_iff (w : DGWorld) (g k : Nat) :
    (noNullEntry w g k →
      (DependenceGraph.getNode w g k = none ↔
        (¬ hasLocalNode w g k ∧ ¬ hasFormalParameter w g k ∧ ¬ hasGlobalNode w g k))) ∧
    (ContainerType.find (w.graphs g).nodes k = none →
      (DependenceGraph.subscript w g k).2 = none ∧
      DependenceGraph.getRef w g k = DependenceGraph.subscript w g k ∧
      DependenceGraph.contains (DependenceGraph.subscript w g k).1 g k = true ∧
      DependenceGraph.getNode (DependenceGraph.subscript w g k).1 g k = none ∧
      ¬ hasLocalNode (DependenceGraph.subscript w g k).1 g k ∧
      (hasFormalParameter (DependenceGraph.subscript w g k).1 g k ↔
        hasFormalParameter w g k) ∧
      (hasGlobalNode (DependenceGraph.subscript w g k).1 g k ↔ hasGlobalNode w g k)) ∧
    (∀ v, ContainerType.find (w.graphs g).nodes k = some v →
      DependenceGraph.subscript w g k = (w, v) ∧ DependenceGraph.getRef w g k = (w, v)) := by
  refine ⟨getNode_eq_none_iff w g k, ?_, ?_⟩
  · intro h
    have hfind := find_nodesAt w g k h
    refine ⟨?_, rfl, ?_, ?_, ?_, ?_, ?_⟩
    · simp [DependenceGraph.subscript, DependenceGraph.nodesAt, h]
    · unfold DependenceGraph.contains DependenceGraph.subscript
      rw [hfind]
      rfl
    · exact getNode_of_null_entry _ g k hfind
    · rintro ⟨n, hn⟩
      unfold DependenceGraph.subscript at hn
      rw [hfind] at hn
      cases hn
    · simp [hasFormalParameter, DependenceGraph.subscript, DependenceGraph.nodesAt, h]
    · simp [hasGlobalNode, DependenceGraph.subscript, DependenceGraph.nodesAt, h]
  · intro v h
    simp [DependenceGraph.subscript, DependenceGraph.getRef, DependenceGraph.nodesAt, h]

/-- C24 (witness): in the example graph the key 9 has no node anywhere and
`getNode(9)` returns null; the key 3 has a node in the shared global nodes
only, and after `operator[]` on it `getNode(3)` returns null. -/
theorem getNode_null_iff_witness :
    noNullEntry dgExample 0 9 ∧
    (DependenceGraph.getNode dgExample 0 9 = none ↔
      (¬ hasLocalNode dgExample 0 9 ∧ ¬ hasFormalParameter dgExample 0 9 ∧
        ¬ hasGlobalNode dgExample 0 9)) ∧
    ContainerType.find (dgExample.graphs 0).nodes 3 = none ∧
    DependenceGraph.getNode dgExample 0 3 = some 303 ∧
    DependenceGraph.getNode (DependenceGraph.subscript dgExample 0 3).1 0 3 = none := by
  have hnull : noNullEntry dgExample 0 9 := by
    refine ⟨by decide, ?_, ?_⟩
    · intro ps p h1 h2
      simp only [dgExample, DependenceGraph.new, Option.some.injEq] at h1
      subst h1
      simp [DGParameters.find] at h2
    · intro c h1
      simp only [dgExample, DependenceGraph.new, Option.some.injEq] at h1
      subst h1
      decide
  exact ⟨hnull, (getNode_null_iff dgExample 0 9).1 hnull, by decide, by decide,
    ((getNode_null_iff dgExample 0 3).2.1 (by decide)).2.2.2.1⟩

/-! # The slicing driver -/

theorem mem_NodeSet_insert (S : NodeSet) (n x : Option Nat) :
    x ∈ NodeSet.insert S n ↔ x ∈ S ∨ x = n := by
  unfold NodeSet.insert
  by_cases h : n ∈ S
  · rw [if_pos h]
    constructor
    · exact Or.inl
    · rintro (h1 | h1)
      · exact h1
      · rw [h1]; exact h
  · rw [if_neg h]
    simp

/-- C25 (counterexample): for a module that calls `klee_assume` at the node 5
and has the exit node 9, `slice` with the criterion `ret` succeeds and hands
to `Slicer::mark` the node 5 only; the exit node is not among the start
nodes. -/
theorem slice_ret_without_exit :
    kleeAssumeModule.getExit = some 9 ∧
    slice kleeAssumeModule "ret" = { result := true, marked := [some 5] } ∧
    some 9 ∉ (slice kleeAssumeModule "ret").marked ∧
    (slice kleeAssumeModule "bar").result = true ∧
    main (some "bar") (some kleeAssumeModule) = 0 := by
  refine ⟨rfl, by decide, by decide, by decide, by decide⟩

theorem mem_getCallSitesOf (calls : List (String × Nat)) (names : List String)
    (S : NodeSet) (x : Option Nat) :
    x ∈ (getCallSitesOf calls names S).1 ↔
      x ∈ S ∨ ∃ e ∈ calls, e.1 ∈ names ∧ x = some e.2 := by
  unfold getCallSitesOf
  simp only
  induction calls generalizing S with
  | nil => simp
  | cons e rest ih =>
    simp only [List.foldl_cons]
    rw [ih]
    by_cases he : e.1 ∈ names
    · rw [if_pos he, mem_NodeSet_insert]
      constructor
      · rintro ((h | h) | ⟨e2, h1, h2⟩)
        · exact Or.inl h
        · exact Or.inr ⟨e, List.mem_cons_self _ _, he, h⟩
        · exact Or.inr ⟨e2, List.mem_cons_of_mem _ h1, h2⟩
      · rintro (h | ⟨e2, h1, h2, h3⟩)
        · exact Or.inl (Or.inl h)
        · rw [List.mem_cons] at h1
          rcases h1 with h1 | h1
          · rw [h1] at h3
            exact Or.inl (Or.inr h3)
          · exact Or.inr ⟨e2, h1, h2, h3⟩
    · rw [if_neg he]
      constructor
      · rintro (h | ⟨e2, h1, h2⟩)
        · exact Or.inl h
        · exact Or.inr ⟨e2, List.mem_cons_of_mem _ h1, h2⟩
      · rintro (h | ⟨e2, h1, h2, h3⟩)
        · exact Or.inl h
        · rw [List.mem_cons] at h1
          rcases h1 with h1 | h1
          · rw [h1] at h2
            exact absurd h2 he
          · exact Or.inr ⟨e2, h1, h2, h3⟩

theorem getCallSitesOf_flag (calls : List (String × Nat)) (names : List String) :
    (getCallSitesOf calls names []).2 = false ↔ ∀ e ∈ calls, e.1 ∉ names := by
  have hmem := mem_getCallSitesOf calls names []
  have hflag : (getCallSitesOf calls names []).2 =
      !(getCallSitesOf calls names []).1.isEmpty := rfl
  rw [hflag]
  simp only [Bool.not_eq_false', List.isEmpty_iff]
  constructor
  · intro h e he hn
    have := (hmem (some e.2)).2 (Or.inr ⟨e, he, hn, rfl⟩)
    rw [h] at this
    cases this
  · intro h
    apply List.eq_nil_iff_forall_not_mem.2
    intro x hx
    rcases (hmem x).1 hx with h1 | ⟨e, he, hn, _⟩
    · cases h1
    · exact h e he hn

theorem getCallSitesOf_none (calls : List (String × Nat)) (names : List String)
    (h : ∀ e ∈ calls, e.1 ∉ names) : (getCallSitesOf calls names []).1 = [] := by
  apply List.eq_nil_iff_forall_not_mem.2
  intro x hx
  rcases (mem_getCallSitesOf calls names [] x).1 hx with h1 | ⟨e, he, hn, _⟩
  · cases h1
  · exact h e he hn

/-- C25 (amended): with the criterion `ret`, `slice` does not fail; when
`getCallSites`, asked for the criterion and `klee_assume`, finds no call site,
the exit node of the entry procedure is inserted into the start nodes handed
to `Slicer::mark`, and when it finds call sites the start nodes are the found
call sites and the exit node is not added. For any other criterion `slice`
fails if and only if `getCallSites` finds no call site of the criterion or of
`klee_assume`; `main` exits with code 1 exactly when `slice` fails. For a
graph given by its call sites: with the criterion `ret` and no call of `ret`
or `klee_assume`, the start nodes are the exit node alone, and with another
criterion `slice` fails if and only if no call site calls the criterion or
`klee_assume`. -/
theorem slice_criterion (d : LLVMDependenceGraph) (c : String)
    (calls : List (String × Nat)) (exit : Option Nat) :
    (c = "ret" → (slice d c).result = true) ∧
    ((d.getCallSites [c, "klee_assume"] []).2 = false → c = "ret" →
      d.getExit ∈ (slice d c).marked ∧
      (slice d c).marked = NodeSet.insert (d.getCallSites [c, "klee_assume"] []).1 d.getExit) ∧
    ((d.getCallSites [c, "klee_assume"] []).2 = true →
      slice d c = { result := true, marked := (d.getCallSites [c, "klee_assume"] []).1 }) ∧
    (c ≠ "ret" →
      ((slice d c).result = false ↔ (d.getCallSites [c, "klee_assume"] []).2 = false)) ∧
    (main (some c) (some d) = 1 ↔ (slice d c).result = false) ∧
    ((∀ e ∈ calls, e.1 ≠ c ∧ e.1 ≠ "klee_assume") → c = "ret" →
      slice { getCallSites := getCallSitesOf calls, getExit := exit } c =
        { result := true, marked := [exit] }) ∧
    (c ≠ "ret" →
      ((slice { getCallSites := getCallSitesOf calls, getExit := exit } c).result = false ↔
        ∀ e ∈ calls, e.1 ≠ c ∧ e.1 ≠ "klee_assume")) := by
  have hgen : ∀ d2 : LLVMDependenceGraph, c ≠ "ret" →
      ((slice d2 c).result = false ↔ (d2.getCallSites [c, "klee_assume"] []).2 = false) := by
    intro d2 hc
    unfold slice
    simp only
    cases hf : (d2.getCallSites [c, "klee_assume"] []).2
    · simp [hc]
    · simp
  have hnames : (∀ e ∈ calls, e.1 ∉ [c, "klee_assume"]) ↔
      ∀ e ∈ calls, e.1 ≠ c ∧ e.1 ≠ "klee_assume" := by
    constructor
    · intro h e he
      have := h e he
      simp only [List.mem_cons, List.mem_singleton, not_or, List.not_mem_nil, or_false] at this
      exact this
    · intro h e he
      simp only [List.mem_cons, List.mem_singleton, not_or, List.not_mem_nil, or_false]
      exact h e he
  refine ⟨?_, ?_, ?_, hgen d, ?_, ?_, ?_⟩
  · intro hc
    unfold slice
    simp only
    cases hf : (d.getCallSites [c, "klee_assume"] []).2
    · simp [hc]
    · simp
  · intro hf hc
    subst hc
    have hm : (slice d "ret").marked =
        NodeSet.insert (d.getCallSites ["ret", "klee_assume"] []).1 d.getExit := by
      unfold slice
      simp only [hf, Bool.not_false, if_true]
    refine ⟨?_, hm⟩
    rw [hm, mem_NodeSet_insert]
    exact Or.inr rfl
  · intro hf
    unfold slice
    simp [hf]
  · unfold main
    simp only
    cases hr : (slice d c).result
    · simp
    · simp
  · intro hno hc
    subst hc
    have h1 := (getCallSitesOf_flag calls ["ret", "klee_assume"]).2 (hnames.2 hno)
    have h2 := getCallSitesOf_none calls ["ret", "klee_assume"] (hnames.2 hno)
    unfold slice
    simp only [h1, h2, Bool.not_false, if_true]
    simp [NodeSet.insert]
  · intro hc
    rw [hgen _ hc]
    simp only
    rw [getCallSitesOf_flag, hnames]

/-- C25 (witness): a module that calls `foo` only and has the exit node 9:
with the criterion `ret` the start nodes are the exit node alone; with the
criterion `bar` the driver exits with code 1, with the criterion `foo` it does
not fail. -/
theorem slice_criterion_witness :
    (∀ e ∈ [("foo", 4)], e.1 ≠ "ret" ∧ e.1 ≠ "klee_assume") ∧
    slice fooModule "ret" = { result := true, marked := [some 9] } ∧
    ("bar" ≠ "ret" ∧ (slice fooModule "bar").result = false) ∧
    main (some "bar") (some fooModule) = 1 ∧
    (slice fooModule "foo").result = true := by
  have hno : ∀ e ∈ [("foo", 4)], e.1 ≠ "ret" ∧ e.1 ≠ "klee_assume" := by
    intro e he
    simp only [List.mem_singleton] at he
    subst he
    decide
  have hbar : ∀ e ∈ [("foo", 4)], e.1 ≠ "bar" ∧ e.1 ≠ "klee_assume" := by
    intro e he
    simp only [List.mem_singleton] at he
    subst he
    decide
  refine ⟨hno, (slice_criterion fooModule "ret" [("foo", 4)] (some 9)).2.2.2.2.2.1 hno rfl,
    ⟨by decide, ?_⟩, ?_, by decide⟩
  · exact ((slice_criterion fooModule "bar" [("foo", 4)] (some 9)).2.2.2.2.2.2
      (by decide)).2 hbar
  · exact (slice_criterion fooModule "bar" [("foo", 4)] (some 9)).2.2.2.2.1.2
      (((slice_criterion fooModule "bar" [("foo", 4)] (some 9)).2.2.2.2.2.2
        (by decide)).2 hbar)

/-! ## The flag `changed`: what a false result leaves alone -/

theorem NodeAcc.recorded_refl (a : NodeAcc) : a.recorded a :=
  fun h => ⟨h, rfl⟩

theorem NodeAcc.recorded_trans (a b c : NodeAcc) (h1 : a.recorded b) (h2 : b.recorded c) :
    a.recorded c := by
  intro h
  obtain ⟨hb, hbc⟩ := h2 h
  obtain ⟨ha, hab⟩ := h1 hb
  exact ⟨ha, hbc.trans hab⟩

theorem insert_of_snd_false (S : PointsToSet) (p : Pointer) (h : (S.insert p).2 = false) :
    (S.insert p).1 = S := by
  have hmem : p ∈ S := by
    by_contra hc
    rw [(insert_snd S p).2 hc] at h
    cases h
  rw [insert_of_mem S p hmem]

theorem NodeAcc.recorded_add (a : NodeAcc) (p : Pointer) : a.recorded (a.add p) := by
  intro h
  simp only [NodeAcc.add, Bool.or_eq_false_iff] at h
  refine ⟨h.1, ?_⟩
  simp only [NodeAcc.add, addPointsTo]
  exact insert_of_snd_false _ _ h.2

theorem NodeAcc.recorded_addAll (ptrs : List Pointer) (a : NodeAcc) :
    a.recorded (a.addAll ptrs) := by
  induction ptrs generalizing a with
  | nil => exact NodeAcc.recorded_refl a
  | cons p rest ih =>
    simp only [NodeAcc.addAll]
    exact NodeAcc.recorded_trans _ _ _ (NodeAcc.recorded_add a p) (ih _)

theorem NodeAcc.recorded_errorEmptyPointsTo (a : NodeAcc) (node target : Nat) :
    a.recorded (a.errorEmptyPointsTo node target) :=
  fun h => ⟨h, rfl⟩

theorem NodeAcc.recorded_foldl {α : Type} (f : NodeAcc → α → NodeAcc)
    (hf : ∀ (a : NodeAcc) (x : α), a.recorded (f a x)) (l : List α) (a : NodeAcc) :
    a.recorded (l.foldl f a) := by
  induction l generalizing a with
  | nil => exact NodeAcc.recorded_refl a
  | cons x rest ih =>
    rw [List.foldl_cons]
    exact NodeAcc.recorded_trans _ _ _ (hf a x) (ih _)

theorem recorded_loadFromObject (zeroInit : Bool) (nobjects node : Nat) (ptr : Pointer)
    (o : MemoryObject) (a : NodeAcc) :
    a.recorded (loadFromObject zeroInit nobjects node ptr o a) := by
  unfold loadFromObject
  split
  · have h0 : a.recorded
        (if o.pointsTo.isEmpty = true then
          if zeroInit = true then a.add PointerNull
          else if nobjects = 1 then a.errorEmptyPointsTo node ptr.target
          else a
        else a) := by
      split
      · split
        · exact NodeAcc.recorded_add a _
        · split
          · exact NodeAcc.recorded_errorEmptyPointsTo a _ _
          · exact NodeAcc.recorded_refl a
      · exact NodeAcc.recorded_refl a
    simp only
    exact NodeAcc.recorded_trans _ _ _ h0
      (NodeAcc.recorded_foldl (fun (acc : NodeAcc) (it : Nat × PointsToSet) => acc.addAll it.2)
        (fun b it => NodeAcc.recorded_addAll it.2 b) o.pointsTo _)
  · have h1 : a.recorded
        (if (!o.pointsTo.count ptr.offset) = true then
          if zeroInit = true then a.add PointerNull
          else if (!o.pointsTo.count UNKNOWN) = true then a.errorEmptyPointsTo node ptr.target
          else a
        else a.addAll (o.pointsTo.get ptr.offset)) := by
      split
      · split
        · exact NodeAcc.recorded_add a _
        · split
          · exact NodeAcc.recorded_errorEmptyPointsTo a _ _
          · exact NodeAcc.recorded_refl a
      · exact NodeAcc.recorded_addAll _ a
    simp only
    split
    · exact NodeAcc.recorded_trans _ _ _ h1 (NodeAcc.recorded_addAll _ _)
    · exact h1

theorem recorded_processLoadPtr (pa : PointerAnalysis) (node : Nat) (a a1 : NodeAcc)
    (ptr : Pointer) (h : processLoadPtr pa node a ptr = some a1) : a.recorded a1 := by
  unfold processLoadPtr at h
  split at h
  · cases h; exact NodeAcc.recorded_refl a
  · split at h
    · cases h; exact NodeAcc.recorded_add a _
    · split at h
      · cases h
      · split at h
        · split at h
          · cases h; exact NodeAcc.recorded_add a _
          · cases h; exact NodeAcc.recorded_errorEmptyPointsTo a _ _
        · cases h
          exact NodeAcc.recorded_foldl
            (fun (acc : NodeAcc) (o : Nat) =>
              loadFromObject (pa.nodes ptr.target).zeroInitialized
                (pa.getMemoryObjects node ptr).length node ptr (pa.objects o) acc)
            (fun b o => recorded_loadFromObject _ _ _ _ _ b) _ _

theorem recorded_processLoadLoop (pa : PointerAnalysis) (node : Nat) (ptrs : List Pointer)
    (a a1 : NodeAcc) (h : processLoadLoop pa node ptrs a = some a1) : a.recorded a1 := by
  induction ptrs generalizing a with
  | nil =>
    simp only [processLoadLoop, Option.some.injEq] at h
    rw [← h]
    exact NodeAcc.recorded_refl a
  | cons p rest ih =>
    simp only [processLoadLoop] at h
    cases hp : processLoadPtr pa node a p with
    | none => rw [hp] at h; cases h
    | some a2 =>
      rw [hp] at h
      exact NodeAcc.recorded_trans _ _ _ (recorded_processLoadPtr pa node a a2 p hp) (ih a2 h)

theorem recorded_processPhiLoop (pa : PointerAnalysis) (ops : List Nat) (a : NodeAcc) :
    a.recorded (processPhiLoop pa ops a) := by
  induction ops generalizing a with
  | nil => exact NodeAcc.recorded_refl a
  | cons op rest ih =>
    simp only [processPhiLoop]
    exact NodeAcc.recorded_trans _ _ _ (NodeAcc.recorded_addAll _ a) (ih _)

theorem recorded_callReturnPointers (pa : PointerAnalysis) (ptrs : List Pointer)
    (a a1 : NodeAcc) (h : callReturnPointers pa ptrs a = some a1) : a.recorded a1 := by
  induction ptrs generalizing a with
  | nil =>
    simp only [callReturnPointers, Option.some.injEq] at h
    rw [← h]
    exact NodeAcc.recorded_refl a
  | cons p rest ih =>
    simp only [callReturnPointers] at h
    split at h
    · cases h
    · split at h
      · exact NodeAcc.recorded_trans _ _ _ (NodeAcc.recorded_add a _) (ih _ h)
      · exact ih _ h

theorem recorded_callReturnOperands (pa : PointerAnalysis) (ops : List Nat)
    (a a1 : NodeAcc) (h : callReturnOperands pa ops a = some a1) : a.recorded a1 := by
  induction ops generalizing a with
  | nil =>
    simp only [callReturnOperands, Option.some.injEq] at h
    rw [← h]
    exact NodeAcc.recorded_refl a
  | cons op rest ih =>
    simp only [callReturnOperands] at h
    cases hp : callReturnPointers pa (pa.pt op) a with
    | none => rw [hp] at h; cases h
    | some a2 =>
      rw [hp] at h
      exact NodeAcc.recorded_trans _ _ _ (recorded_callReturnPointers pa _ a a2 hp) (ih a2 h)

theorem recorded_callFuncptrStep (node : Nat) (a : NodeAcc) (ptr : Pointer) :
    a.recorded (callFuncptrStep node a ptr) := by
  intro h
  unfold callFuncptrStep at h ⊢
  by_cases hflag : (addPointsTo a.pointsTo ptr).2 = true
  · rw [if_pos hflag] at h
    split at h <;> cases h
  · rw [if_neg hflag] at h ⊢
    simp only at h ⊢
    refine ⟨h, ?_⟩
    simp only [addPointsTo] at hflag ⊢
    exact insert_of_snd_false _ _ (by simpa using hflag)

theorem eraseConcrete_of_snd_false (t : Nat) (S : PointsToSet)
    (h : (eraseConcrete t S).2 = false) : eraseConcrete t S = (S, false) := by
  apply eraseConcrete_of_none
  intro q hq hc
  have := (eraseConcrete_snd t S).2 ⟨q, hq, hc⟩
  rw [h] at this
  cases this

theorem addPointsToUnknownOffset_of_snd_false (S : PointsToSet) (t : Nat)
    (h : (addPointsToUnknownOffset S t).2 = false) : (addPointsToUnknownOffset S t).1 = S := by
  unfold addPointsToUnknownOffset at h ⊢
  simp only [Bool.or_eq_false_iff] at h
  have he := eraseConcrete_of_snd_false t S h.1
  rw [he] at h ⊢
  exact insert_of_snd_false _ _ h.2

theorem processGepStep_recorded (size_of : Nat → Nat) (max_offset k : Nat)
    (acc : PointsToSet × Bool) (p : Pointer)
    (h : (processGepStep size_of max_offset k acc p).2 = false) :
    acc.2 = false ∧ (processGepStep size_of max_offset k acc p).1 = acc.1 := by
  by_cases hin : gepInRange size_of max_offset p.target (gepNewOffset p.offset k)
  · rw [processGepStep_inRange _ _ _ _ _ hin] at h ⊢
    simp only [Bool.or_eq_false_iff] at h
    exact ⟨h.1, insert_of_snd_false _ _ h.2⟩
  · rw [processGepStep_outOfRange _ _ _ _ _ hin] at h ⊢
    simp only [Bool.or_eq_false_iff] at h
    exact ⟨h.1, addPointsToUnknownOffset_of_snd_false _ _ h.2⟩

theorem processGepLoop_recorded (size_of : Nat → Nat) (max_offset k : Nat)
    (source : List Pointer) (acc : PointsToSet × Bool)
    (h : (source.foldl (processGepStep size_of max_offset k) acc).2 = false) :
    acc.2 = false ∧ (source.foldl (processGepStep size_of max_offset k) acc).1 = acc.1 := by
  induction source generalizing acc with
  | nil => exact ⟨h, rfl⟩
  | cons p rest ih =>
    rw [List.foldl_cons] at h ⊢
    obtain ⟨h1, h2⟩ := ih _ h
    obtain ⟨h3, h4⟩ := processGepStep_recorded size_of max_offset k acc p h1
    exact ⟨h3, h2.trans h4⟩

theorem OffsetMap.insertAt_of_mem (off : Nat) (p : Pointer) (m : OffsetMap)
    (S : PointsToSet) (hfind : OffsetMap.find m off = some S) (hp : p ∈ S) :
    OffsetMap.insertAt off p m = m := by
  induction m with
  | nil => rfl
  | cons e rest ih =>
    unfold OffsetMap.insertAt
    unfold OffsetMap.find at hfind
    by_cases he : e.1 = off
    · rw [if_pos he] at hfind ⊢
      simp only [Option.some.injEq] at hfind
      rw [hfind, insert_of_mem S p hp, ← hfind]
    · rw [if_neg he] at hfind ⊢
      rw [ih hfind]

theorem OffsetMap.addPointsTo_same_map (off : Nat) (p : Pointer) (m : OffsetMap)
    (h : (OffsetMap.addPointsTo off p m).2 = false) : (OffsetMap.addPointsTo off p m).1 = m := by
  unfold OffsetMap.addPointsTo at h ⊢
  cases hfind : OffsetMap.find m off with
  | none =>
    simp [hfind] at h
  | some S =>
    simp only [hfind] at h ⊢
    have hmem : p ∈ S := by
      by_contra hc
      rw [(insert_snd S p).2 hc] at h
      cases h
    exact OffsetMap.insertAt_of_mem off p m S hfind hmem

theorem MemoryObject.addPointsTo_unchanged (o : MemoryObject) (off : Nat) (p : Pointer)
    (h : (o.addPointsTo off p).2 = false) : (o.addPointsTo off p).1 = o := by
  unfold MemoryObject.addPointsTo at h ⊢
  simp only at h ⊢
  rw [OffsetMap.addPointsTo_same_map off p o.pointsTo h]

theorem MemoryObject.addPointsToSet_of_snd_false (off : Nat) (ptrs : List Pointer)
    (o : MemoryObject) (h : (o.addPointsToSet off ptrs).2 = false) :
    (o.addPointsToSet off ptrs).1 = o := by
  induction ptrs generalizing o with
  | nil => rfl
  | cons p rest ih =>
    simp only [MemoryObject.addPointsToSet, Bool.or_eq_false_iff] at h ⊢
    have h1 := MemoryObject.addPointsTo_unchanged o off p h.1
    rw [h1] at h ⊢
    exact ih o h.2

theorem storeObjects_recorded (off : Nat) (values : List Pointer) (os : List Nat)
    (acc : (Nat → MemoryObject) × Bool)
    (h : (storeObjects off values os acc).2 = false) :
    acc.2 = false ∧ (storeObjects off values os acc).1 = acc.1 := by
  induction os generalizing acc with
  | nil => exact ⟨h, rfl⟩
  | cons o rest ih =>
    simp only [storeObjects] at h ⊢
    obtain ⟨h1, h2⟩ := ih _ h
    simp only [Bool.or_eq_false_iff] at h1
    refine ⟨h1.1, ?_⟩
    rw [h2, MemoryObject.addPointsToSet_of_snd_false off values (acc.1 o) h1.2,
      Function.update_eq_self]

theorem processStoreLoop_recorded (pa : PointerAnalysis) (node : Nat) (values : List Pointer)
    (ptrs : List Pointer) (acc : (Nat → MemoryObject) × Bool)
    (h : (processStoreLoop pa node values ptrs acc).2 = false) :
    acc.2 = false ∧ (processStoreLoop pa node values ptrs acc).1 = acc.1 := by
  induction ptrs generalizing acc with
  | nil => exact ⟨h, rfl⟩
  | cons p rest ih =>
    simp only [processStoreLoop] at h ⊢
    by_cases hnull : p.isNull = true
    · rw [if_pos hnull] at h ⊢
      exact ih _ h
    · rw [if_neg hnull] at h ⊢
      obtain ⟨h1, h2⟩ := ih _ h
      obtain ⟨h3, h4⟩ := storeObjects_recorded _ _ _ _ h1
      exact ⟨h3, h2.trans h4⟩

theorem unchangedState_refl (pa : PointerAnalysis) : unchangedState pa pa :=
  ⟨fun _ => rfl, rfl⟩

theorem unchangedState_trans (pa pb pc : PointerAnalysis) (h1 : unchangedState pa pb)
    (h2 : unchangedState pb pc) : unchangedState pa pc :=
  ⟨fun m => (h2.1 m).trans (h1.1 m), h2.2.trans h1.2⟩

theorem addObjectPointsTo_of_snd_false (pa : PointerAnalysis) (o off : Nat)
    (ptrs : List Pointer) (h : (pa.addObjectPointsTo o off ptrs).2 = false) :
    (pa.addObjectPointsTo o off ptrs).1 = pa := by
  unfold PointerAnalysis.addObjectPointsTo at h ⊢
  simp only at h ⊢
  rw [MemoryObject.addPointsToSet_of_snd_false off ptrs (pa.objects o) h,
    Function.update_eq_self]

theorem memcpyEntry_of_snd_false (pa : PointerAnalysis) (destO srcOffset destOffset len : Nat)
    (src : Nat × PointsToSet)
    (h : (memcpyEntry pa destO srcOffset destOffset len src).2 = false) :
    (memcpyEntry pa destO srcOffset destOffset len src).1 = pa := by
  unfold memcpyEntry at h ⊢
  split at h
  · split at h
    · split at h
      · rw [if_pos ‹_›, if_pos ‹_›, if_pos ‹_›]
        exact addObjectPointsTo_of_snd_false _ _ _ _ h
      · split at h
        · rw [if_pos ‹_›, if_pos ‹_›, if_neg ‹_›, if_pos ‹_›]
          exact addObjectPointsTo_of_snd_false _ _ _ _ h
        · rw [if_pos ‹_›, if_pos ‹_›, if_neg ‹_›, if_neg ‹_›]
          exact addObjectPointsTo_of_snd_false _ _ _ _ h
    · rw [if_pos ‹_›, if_neg ‹_›]
      exact addObjectPointsTo_of_snd_false _ _ _ _ h
  · rw [if_neg ‹_›]

theorem memcpyEntries_recorded (destO so srcOffset destOffset len : Nat) (fuel : Nat)
    (cursor : Option Nat) (acc : PointerAnalysis × Bool)
    (h : (memcpyEntries destO so srcOffset destOffset len fuel cursor acc).2 = false) :
    acc.2 = false ∧
      (memcpyEntries destO so srcOffset destOffset len fuel cursor acc).1 = acc.1 := by
  induction fuel generalizing cursor acc with
  | zero => exact ⟨h, rfl⟩
  | succ n ih =>
    unfold memcpyEntries at h ⊢
    cases hnext : ((acc.1.objects so).pointsTo).next cursor with
    | none =>
      simp only [hnext] at h ⊢
      exact ⟨h, trivial⟩
    | some src =>
      simp only [hnext] at h ⊢
      obtain ⟨h1, h2⟩ := ih _ _ h
      simp only [Bool.or_eq_false_iff] at h1
      refine ⟨h1.1, ?_⟩
      rw [h2]
      exact memcpyEntry_of_snd_false _ _ _ _ _ _ h1.2

theorem memcpySources_recorded (destO srcOffset destOffset len : Nat) (srcs : List Nat)
    (acc : PointerAnalysis × Bool)
    (h : (memcpySources destO srcOffset destOffset len srcs acc).2 = false) :
    acc.2 = false ∧ (memcpySources destO srcOffset destOffset len srcs acc).1 = acc.1 := by
  induction srcs generalizing acc with
  | nil => exact ⟨h, rfl⟩
  | cons so rest ih =>
    simp only [memcpySources] at h ⊢
    obtain ⟨h1, h2⟩ := ih _ h
    obtain ⟨h3, h4⟩ := memcpyEntries_recorded _ _ _ _ _ _ _ _ h1
    exact ⟨h3, h2.trans h4⟩

theorem memcpyDests_recorded (cns : Bool) (srcObjects : List Nat)
    (srcOffset destOffset len : Nat) (dests : List Nat) (acc : PointerAnalysis × Bool)
    (h : (memcpyDests cns srcObjects srcOffset destOffset len dests acc).2 = false) :
    acc.2 = false ∧
      (memcpyDests cns srcObjects srcOffset destOffset len dests acc).1 = acc.1 := by
  induction dests generalizing acc with
  | nil => exact ⟨h, rfl⟩
  | cons destO rest ih =>
    simp only [memcpyDests] at h ⊢
    obtain ⟨h1, h2⟩ := ih _ h
    obtain ⟨h3, h4⟩ := memcpySources_recorded _ _ _ _ _ _ h1
    rw [h2, h4]
    by_cases hc : cns = true
    · rw [if_pos hc] at h3 ⊢
      simp only [Bool.or_eq_false_iff] at h3
      exact ⟨h3.1, addObjectPointsTo_of_snd_false _ _ _ _ h3.2⟩
    · rw [if_neg hc] at h3 ⊢
      exact ⟨h3, rfl⟩

theorem unchangedState_setZeroInitialized (pa : PointerAnalysis) (n : Nat) :
    unchangedState pa (pa.setZeroInitialized n) := by
  refine ⟨?_, rfl⟩
  intro m
  unfold PointerAnalysis.setZeroInitialized PointerAnalysis.pt
  by_cases h : m = n
  · subst h; simp
  · simp [Function.update_noteq h]

theorem processMemcpyObjects_recorded (pa : PointerAnalysis) (srcObjects destObjects : List Nat)
    (sptr dptr : Pointer) (len : Nat) (r : PointerAnalysis × Bool)
    (h : processMemcpyObjects pa srcObjects destObjects sptr dptr len = some r)
    (hr : r.2 = false) : unchangedState pa r.1 := by
  unfold processMemcpyObjects at h
  split at h
  · cases h
  · split at h
    · cases h
    · split at h
      · cases h
      · simp only [Option.some.injEq] at h
        rw [← h] at hr ⊢
        obtain ⟨_, h2⟩ := memcpyDests_recorded _ _ _ _ _ _ _ hr
        rw [h2]
        simp only
        split
        · exact unchangedState_setZeroInitialized pa _
        · exact unchangedState_refl pa

theorem processMemcpyDestPtrs_recorded (node : Nat) (sptr : Pointer) (len : Nat)
    (dptrs : List Pointer) (acc r : PointerAnalysis × Bool)
    (h : processMemcpyDestPtrs node sptr len dptrs acc = some r) (hr : r.2 = false) :
    acc.2 = false ∧ unchangedState acc.1 r.1 := by
  induction dptrs generalizing acc with
  | nil =>
    simp only [processMemcpyDestPtrs, Option.some.injEq] at h
    rw [← h] at hr ⊢
    exact ⟨hr, unchangedState_refl _⟩
  | cons dptr rest ih =>
    simp only [processMemcpyDestPtrs] at h
    split at h
    · exact ih acc h
    · split at h
      · cases h
      · cases hobj : processMemcpyObjects acc.1 (acc.1.getMemoryObjects node sptr)
            (acc.1.getMemoryObjects node dptr) sptr dptr len with
        | none => rw [hobj] at h; cases h
        | some r1 =>
          rw [hobj] at h
          simp only at h
          obtain ⟨h1, h2⟩ := ih (r1.1, acc.2 || r1.2) h
          simp only [Bool.or_eq_false_iff] at h1
          exact ⟨h1.1, unchangedState_trans _ _ _
            (processMemcpyObjects_recorded _ _ _ _ _ _ r1 hobj h1.2) h2⟩

theorem processMemcpySrcPtrs_recorded (node : Nat) (destPtrs : List Pointer) (len : Nat)
    (ptrs : List Pointer) (acc r : PointerAnalysis × Bool)
    (h : processMemcpySrcPtrs node destPtrs len ptrs acc = some r) (hr : r.2 = false) :
    acc.2 = false ∧ unchangedState acc.1 r.1 := by
  induction ptrs generalizing acc with
  | nil =>
    simp only [processMemcpySrcPtrs, Option.some.injEq] at h
    rw [← h] at hr ⊢
    exact ⟨hr, unchangedState_refl _⟩
  | cons ptr rest ih =>
    simp only [processMemcpySrcPtrs] at h
    split at h
    · exact ih acc h
    · split at h
      · cases h
      · cases hd : processMemcpyDestPtrs node ptr len destPtrs acc with
        | none => rw [hd] at h; cases h
        | some r1 =>
          rw [hd] at h
          simp only at h
          obtain ⟨h1, h2⟩ := ih r1 h
          obtain ⟨h3, h4⟩ := processMemcpyDestPtrs_recorded node ptr len destPtrs acc r1 hd h1
          exact ⟨h3, unchangedState_trans _ _ _ h4 h2⟩

theorem processMemcpy_recorded (pa : PointerAnalysis) (node : Nat)
    (r : PointerAnalysis × Bool) (h : processMemcpy pa node = some r) (hr : r.2 = false) :
    unchangedState pa r.1 := by
  unfold processMemcpy at h
  split at h
  · exact (processMemcpySrcPtrs_recorded _ _ _ _ _ r h hr).2
  · cases h

theorem unchangedState_commit (pa : PointerAnalysis) (node : Nat) (a : NodeAcc)
    (h : a.pointsTo = pa.pt node) : unchangedState pa (pa.commit node a) := by
  refine ⟨?_, rfl⟩
  intro m
  by_cases hm : m = node
  · subst hm
    rw [pt_commit_same, h]
  · exact pt_commit_other pa node m a hm

theorem unchangedState_setParent (pa : PointerAnalysis) (n parent : Nat) :
    unchangedState pa (pa.setParent n parent) := by
  refine ⟨?_, rfl⟩
  intro m
  unfold PointerAnalysis.setParent PointerAnalysis.pt
  by_cases h : m = n
  · subst h; simp
  · simp [Function.update_noteq h]

theorem unchangedState_of_recorded (pa : PointerAnalysis) (node : Nat) (a : NodeAcc)
    (hrec : NodeAcc.recorded ⟨pa.pt node, pa.reports, false⟩ a) (hc : a.changed = false) :
    unchangedState pa (pa.commit node a) :=
  unchangedState_commit pa node a (hrec hc).2

theorem processLoad_recorded (pa : PointerAnalysis) (node : Nat)
    (r : PointerAnalysis × Bool) (h : processLoad pa node = some r) (hr : r.2 = false) :
    unchangedState pa r.1 := by
  unfold processLoad at h
  split at h
  · cases h
  · split at h
    · simp only [Option.some.injEq] at h
      rw [← h]
      exact ⟨fun _ => rfl, rfl⟩
    · split at h
      · cases h
      · rename_i a ha
        simp only [Option.some.injEq] at h
        rw [← h] at hr ⊢
        exact unchangedState_of_recorded pa node a
          (recorded_processLoadLoop pa node _ _ a ha) hr

theorem processStore_recorded (pa : PointerAnalysis) (node : Nat)
    (r : PointerAnalysis × Bool) (h : processStore pa node = some r) (hr : r.2 = false) :
    unchangedState pa r.1 := by
  unfold processStore at h
  split at h
  · simp only [Option.some.injEq] at h
    rw [← h] at hr ⊢
    exact ⟨fun _ => rfl, (processStoreLoop_recorded _ _ _ _ _ hr).2⟩
  · cases h

theorem processGep_recorded (pa : PointerAnalysis) (node : Nat)
    (r : PointerAnalysis × Bool) (h : processGep pa node = some r) (hr : r.2 = false) :
    unchangedState pa r.1 := by
  unfold processGep at h
  split at h
  · cases h
  · split at h
    · cases h
    · simp only [Option.some.injEq] at h
      rw [← h] at hr ⊢
      simp only at hr ⊢
      unfold processGepLoop at hr ⊢
      have h2 := (processGepLoop_recorded _ _ _ _ _ hr).2
      rw [h2]
      refine ⟨?_, rfl⟩
      intro m
      by_cases hm : m = node
      · subst hm
        rw [pt_setPointsTo_same]
      · exact pt_setPointsTo_other pa node m _ hm

theorem processCallReturn_recorded (pa : PointerAnalysis) (node : Nat)
    (r : PointerAnalysis × Bool) (h : processCallReturn pa node = some r)
    (hr : r.2 = false) : unchangedState pa r.1 := by
  unfold processCallReturn at h
  simp only at h
  split at h
  · cases h
  · rename_i a ha
    simp only [Option.some.injEq] at h
    rw [← h] at hr ⊢
    apply unchangedState_of_recorded pa node _ _ hr
    apply NodeAcc.recorded_trans _ a _ _ (recorded_processPhiLoop pa _ a)
    by_cases hinv : pa.invalidate_nodes = true
    · rw [if_pos hinv] at ha
      exact recorded_callReturnOperands pa _ _ a ha
    · rw [if_neg hinv] at ha
      simp only [Option.some.injEq] at ha
      rw [← ha]
      exact NodeAcc.recorded_refl _

theorem processCallFuncptr_recorded (pa : PointerAnalysis) (node : Nat)
    (r : PointerAnalysis × Bool) (h : processCallFuncptr pa node = some r)
    (hr : r.2 = false) : unchangedState pa r.1 := by
  unfold processCallFuncptr at h
  split at h
  · cases h
  · simp only [Option.some.injEq] at h
    rw [← h] at hr ⊢
    exact unchangedState_of_recorded pa node _
      (NodeAcc.recorded_foldl (callFuncptrStep node)
        (fun a p => recorded_callFuncptrStep node a p) _ _) hr

/-- A transfer step that returns `false` has left the points-to set of every
node and every memory object as they were. -/
theorem processNode_recorded (pa : PointerAnalysis) (node : Nat)
    (r : PointerAnalysis × Bool) (h : processNode pa node = some r) (hr : r.2 = false) :
    unchangedState pa r.1 := by
  unfold processNode at h
  split at h
  · exact processLoad_recorded pa node r h hr
  · exact processStore_recorded pa node r h hr
  · simp only [Option.some.injEq] at h
    rw [← h]; exact unchangedState_refl pa
  · split at h
    · cases h
    · split at h
      · simp only [Option.some.injEq] at h
        rw [← h]; exact unchangedState_setParent pa node _
      · cases h
  · exact processGep_recorded pa node r h hr
  · split at h
    · cases h
    · simp only [Option.some.injEq] at h
      rw [← h] at hr ⊢
      exact unchangedState_of_recorded pa node _ (NodeAcc.recorded_addAll _ _) hr
  · split at h
    · simp only [Option.some.injEq] at h
      rw [← h]; exact unchangedState_refl pa
    · cases h
  · exact processCallReturn_recorded pa node r h hr
  · simp only [Option.some.injEq] at h
    rw [← h] at hr ⊢
    exact unchangedState_of_recorded pa node _ (recorded_processPhiLoop pa _ _) hr
  · simp only [Option.some.injEq] at h
    rw [← h] at hr ⊢
    exact unchangedState_of_recorded pa node _ (recorded_processPhiLoop pa _ _) hr
  · exact processCallFuncptr_recorded pa node r h hr
  · exact processMemcpy_recorded pa node r h hr
  · split at h
    · simp only [Option.some.injEq] at h
      rw [← h]; exact unchangedState_refl pa
    · cases h
  · split at h
    · simp only [Option.some.injEq] at h
      rw [← h]; exact unchangedState_refl pa
    · cases h
  · split at h
    · simp only [Option.some.injEq] at h
      rw [← h]; exact unchangedState_refl pa
    · cases h
  · simp only [Option.some.injEq] at h
    rw [← h]; exact unchangedState_refl pa
  · simp only [Option.some.injEq] at h
    rw [← h]; exact unchangedState_refl pa
  · simp only [Option.some.injEq] at h
    rw [← h]; exact unchangedState_refl pa
  · cases h
  · cases h
  · cases h

theorem zeroInitialized_setPointsTo (pa : PointerAnalysis) (n m : Nat) (S : PointsToSet) :
    ((pa.setPointsTo n S).nodes m).zeroInitialized = (pa.nodes m).zeroInitialized := by
  unfold PointerAnalysis.setPointsTo
  by_cases h : m = n
  · subst h; simp
  · simp [Function.update_noteq h]

theorem zeroInitialized_commit (pa : PointerAnalysis) (n m : Nat) (a : NodeAcc) :
    ((pa.commit n a).nodes m).zeroInitialized = (pa.nodes m).zeroInitialized := by
  unfold PointerAnalysis.commit
  exact zeroInitialized_setPointsTo pa n m _

theorem zeroInitialized_setParent (pa : PointerAnalysis) (n m parent : Nat) :
    ((pa.setParent n parent).nodes m).zeroInitialized = (pa.nodes m).zeroInitialized := by
  unfold PointerAnalysis.setParent
  by_cases h : m = n
  · subst h; simp
  · simp [Function.update_noteq h]

/-- A transfer step on a node that is not a MEMCPY leaves the zero-initialised
flag of every node as it was. -/
theorem zeroInitialized_processNode (pa : PointerAnalysis) (node : Nat)
    (r : PointerAnalysis × Bool) (h : processNode pa node = some r)
    (htype : (pa.nodes node).type ≠ PSNodeType.MEMCPY) (m : Nat) :
    (r.1.nodes m).zeroInitialized = (pa.nodes m).zeroInitialized := by
  unfold processNode at h
  split at h
  · unfold processLoad at h
    split at h
    · cases h
    · split at h
      · cases h; rfl
      · split at h
        · cases h
        · cases h; exact zeroInitialized_commit pa node m _
  · unfold processStore at h
    split at h
    · cases h; rfl
    · cases h
  · cases h; rfl
  · split at h
    · cases h
    · split at h
      · cases h; exact zeroInitialized_setParent pa node m _
      · cases h
  · unfold processGep at h
    split at h
    · cases h
    · split at h
      · cases h
      · cases h; exact zeroInitialized_setPointsTo pa node m _
  · split at h
    · cases h
    · cases h; exact zeroInitialized_commit pa node m _
  · split at h
    · cases h; rfl
    · cases h
  · unfold processCallReturn at h
    simp only at h
    split at h
    · cases h
    · cases h; exact zeroInitialized_commit pa node m _
  · cases h; exact zeroInitialized_commit pa node m _
  · cases h; exact zeroInitialized_commit pa node m _
  · unfold processCallFuncptr at h
    split at h
    · cases h
    · cases h; exact zeroInitialized_commit pa node m _
  · rename_i ht
    exact absurd ht htype
  · split at h
    · cases h; rfl
    · cases h
  · split at h
    · cases h; rfl
    · cases h
  · split at h
    · cases h; rfl
    · cases h
  · cases h; rfl
  · cases h; rfl
  · cases h; rfl
  · cases h
  · cases h
  · cases h

/-- C26: what the result `false` of `processNode` stands for. Whenever
`processNode` returns, the points-to set of the node has the size it had or
the result is `true` (the assertion under `DEBUG_ENABLED` holds); when the
result is `false`, the points-to set of every node and every memory object are
as they were; and on a node that is not a MEMCPY no zero-initialised flag is
modified. On a MEMCPY the last part fails: an 8-byte zero-initialised
`src` with nothing stored is copied whole into an 8-byte `dst` that is not
zero-initialised; `processNode` on the MEMCPY marks `dst` zero-initialised and
returns `false`, the points-to sets and the memory objects being as before. -/
theorem processNode_changed_flag (pa : PointerAnalysis) (node : Nat)
    (r : PointerAnalysis × Bool) (h : processNode pa node = some r) :
    ((r.1.pt node).length = (pa.pt node).length ∨ r.2 = true) ∧
    (r.2 = false → (∀ m, r.1.pt m = pa.pt m) ∧ r.1.objects = pa.objects) ∧
    ((pa.nodes node).type ≠ PSNodeType.MEMCPY →
      ∀ m, (r.1.nodes m).zeroInitialized = (pa.nodes m).zeroInitialized) ∧
    ((memcpyFlagExample.nodes 44).type = PSNodeType.MEMCPY ∧
      (memcpyFlagExample.nodes 40).zeroInitialized = true ∧
      (memcpyFlagExample.nodes 41).zeroInitialized = false ∧
      (processNode memcpyFlagExample 44).map
          (fun r => ((r.1.nodes 41).zeroInitialized, r.2)) = some (true, false) ∧
      (processNode memcpyFlagExample 44).map
          (fun r => (r.1.pt 44, r.1.pt 40, r.1.pt 41)) =
        some ([], [⟨40, 0⟩], [⟨41, 0⟩]) ∧
      (processNode memcpyFlagExample 44).map
          (fun r => ((r.1.objects 40).pointsTo, (r.1.objects 41).pointsTo)) =
        some ([], [])) := by
  refine ⟨?_, processNode_recorded pa node r h, zeroInitialized_processNode pa node r h,
    by decide, by decide, by decide, by decide, by decide, by decide⟩
  cases hr : r.2
  · left
    rw [(processNode_recorded pa node r h hr).1 node]
  · right
    rfl

/-- C26 (witness): the GEP over `{(p, 0), (p, 4)}` applied for the second time
returns `false` and the points-to sets are as after the first application. -/
theorem processNode_changed_flag_witness :
    ∃ r1 r2, processNode gepInRangeExample 11 = some r1 ∧ processNode r1.1 11 = some r2 ∧
      r2.2 = false ∧ (∀ m, r2.1.pt m = r1.1.pt m) ∧ r2.1.objects = r1.1.objects := by
  obtain ⟨r1, h1⟩ := Option.isSome_iff_exists.mp
    (show (processNode gepInRangeExample 11).isSome = true by decide)
  obtain ⟨r2, h2⟩ := Option.isSome_iff_exists.mp
    (show ((processNode gepInRangeExample 11).bind (fun r => processNode r.1 11)).isSome = true
      by decide)
  have hflag : ((processNode gepInRangeExample 11).bind (fun r => processNode r.1 11)).map
      (fun r => r.2) = some false := by decide
  rw [h1] at h2 hflag
  simp only [Option.some_bind] at h2 hflag
  rw [h2] at hflag
  simp only [Option.map_some', Option.some.injEq] at hflag
  exact ⟨r1, r2, h1, h2, hflag, (processNode_changed_flag r1.1 11 r2 h2).2.1 hflag⟩

/-! ## MEMCPY: every entry of every source object -/

theorem keys_insertAt (off : Nat) (p : Pointer) (m : OffsetMap) :
    OffsetMap.keys (OffsetMap.insertAt off p m) = OffsetMap.keys m := by
  induction m with
  | nil => rfl
  | cons e rest ih =>
    unfold OffsetMap.insertAt
    by_cases h : e.1 = off
    · rw [if_pos h]
      rfl
    · rw [if_neg h]
      unfold OffsetMap.keys at ih ⊢
      rw [List.map_cons, List.map_cons, ih]

theorem keys_orderedInsert (x : Nat × PointsToSet) (m : OffsetMap) :
    OffsetMap.keys (List.orderedInsert (fun a b => a.1 ≤ b.1) x m) =
      List.orderedInsert (fun a b => a ≤ b) x.1 (OffsetMap.keys m) := by
  induction m with
  | nil => rfl
  | cons e rest ih =>
    unfold OffsetMap.keys at ih ⊢
    simp only [List.orderedInsert, List.map_cons]
    by_cases h : x.1 ≤ e.1
    · rw [if_pos h, if_pos h]
      rfl
    · rw [if_neg h, if_neg h, List.map_cons, ih]

theorem find_eq_none_iff_keys (m : OffsetMap) (off : Nat) :
    m.find off = none ↔ off ∉ OffsetMap.keys m := by
  induction m with
  | nil => simp [OffsetMap.find, OffsetMap.keys]
  | cons e rest ih =>
    unfold OffsetMap.find
    unfold OffsetMap.keys at ih ⊢
    by_cases h : e.1 = off
    · simp [h]
    · have h2 : ¬ off = e.1 := fun hc => h hc.symm
      simp [h, h2, ih]

theorem pairwise_lt_orderedInsert (k : Nat) (l : List Nat)
    (h : l.Pairwise (fun a b => a < b)) (hk : k ∉ l) :
    (List.orderedInsert (fun a b => a ≤ b) k l).Pairwise (fun a b => a < b) := by
  induction l with
  | nil => simp
  | cons x rest ih =>
    simp only [List.orderedInsert]
    have hx : k ≠ x := fun hc => hk (hc ▸ List.mem_cons_self _ _)
    have hrest : k ∉ rest := fun hc => hk (List.mem_cons_of_mem _ hc)
    rw [List.pairwise_cons] at h
    by_cases hle : k ≤ x
    · rw [if_pos hle]
      have hlt : k < x := lt_of_le_of_ne hle hx
      refine List.pairwise_cons.mpr ⟨?_, List.pairwise_cons.mpr h⟩
      intro y hy
      rcases List.mem_cons.mp hy with rfl | hy2
      · exact hlt
      · exact lt_trans hlt (h.1 y hy2)
    · rw [if_neg hle]
      refine List.pairwise_cons.mpr ⟨?_, ih h.2 hrest⟩
      intro y hy
      rcases (List.mem_orderedInsert (fun a b => a ≤ b)).mp hy with rfl | hy2
      · omega
      · exact h.1 y hy2

theorem ordered_addPointsTo (off : Nat) (p : Pointer) (m : OffsetMap)
    (h : m.ordered) (hoff : off < WORD) : (OffsetMap.addPointsTo off p m).1.ordered := by
  unfold OffsetMap.addPointsTo
  cases hf : m.find off with
  | some S =>
    simp only
    unfold OffsetMap.ordered
    rw [keys_insertAt]
    exact h
  | none =>
    simp only
    unfold OffsetMap.ordered
    rw [keys_orderedInsert]
    refine ⟨pairwise_lt_orderedInsert off _ h.1 ((find_eq_none_iff_keys m off).mp hf), ?_⟩
    intro k hk
    rcases (List.mem_orderedInsert (fun a b => a ≤ b)).mp hk with rfl | hk2
    · exact hoff
    · exact h.2 k hk2

theorem ordered_addPointsToSet (off : Nat) (ptrs : List Pointer) (o : MemoryObject)
    (h : o.pointsTo.ordered) (hoff : off < WORD) :
    (o.addPointsToSet off ptrs).1.pointsTo.ordered ∧
      (o.addPointsToSet off ptrs).1.node = o.node := by
  induction ptrs generalizing o with
  | nil => exact ⟨h, rfl⟩
  | cons p rest ih =>
    simp only [MemoryObject.addPointsToSet]
    have h1 : (o.addPointsTo off p).1.pointsTo.ordered := by
      unfold MemoryObject.addPointsTo
      exact ordered_addPointsTo off p o.pointsTo h hoff
    have h2 := ih (o.addPointsTo off p).1 h1
    exact ⟨h2.1, h2.2.trans rfl⟩

theorem memcpyInv_addObjectPointsTo (size_of : Nat → Nat) (mx : Nat) (p : PointerAnalysis)
    (o off : Nat) (S : List Pointer) (h : memcpyInv size_of mx p) (hoff : off < WORD) :
    memcpyInv size_of mx (p.addObjectPointsTo o off S).1 := by
  unfold PointerAnalysis.addObjectPointsTo
  refine ⟨h.1, ?_, ?_⟩
  · intro o2
    simp only
    by_cases ho : o2 = o
    · subst ho
      rw [Function.update_same, (ordered_addPointsToSet off S _ (h.2.2 o2) hoff).2]
      exact h.2.1 o2
    · rw [Function.update_noteq ho]
      exact h.2.1 o2
  · intro o2
    simp only
    by_cases ho : o2 = o
    · subst ho
      rw [Function.update_same]
      exact (ordered_addPointsToSet off S _ (h.2.2 o2) hoff).1
    · rw [Function.update_noteq ho]
      exact h.2.2 o2

theorem specMemcpyLanding_lt (size mx s d e : Nat) :
    specMemcpyLanding size mx s d e < WORD := by
  unfold specMemcpyLanding
  split
  · rename_i h
    exact h.2.2.2.1
  · decide

theorem memcpyEntry_land (size_of : Nat → Nat) (mx : Nat) (p : PointerAnalysis)
    (destO s d len e : Nat) (S : PointsToSet)
    (h : memcpyInv size_of mx p) (hmx : mx ≤ UNKNOWN) (he : e < WORD) :
    memcpyEntry p destO s d len (e, S) =
      if specMemcpyCopied s len e then
        p.addObjectPointsTo destO (specMemcpyLanding (size_of destO) mx s d e) S
      else (p, false) := by
  rw [memcpyEntry_eq p destO s d len e S he (by rw [h.1]; exact hmx), h.1, h.2.1 destO]

theorem memcpyInv_memcpyEntry (size_of : Nat → Nat) (mx : Nat) (p : PointerAnalysis)
    (destO s d len e : Nat) (S : PointsToSet)
    (h : memcpyInv size_of mx p) (hmx : mx ≤ UNKNOWN) (he : e < WORD) :
    memcpyInv size_of mx (memcpyEntry p destO s d len (e, S)).1 := by
  rw [memcpyEntry_land size_of mx p destO s d len e S h hmx he]
  split
  · exact memcpyInv_addObjectPointsTo size_of mx p destO _ S h (specMemcpyLanding_lt _ _ _ _ _)
  · exact h

theorem find_of_mem_ordered (m : OffsetMap) (e : Nat) (S : PointsToSet)
    (h : (OffsetMap.keys m).Pairwise (fun a b => a < b)) (hm : (e, S) ∈ m) :
    m.find e = some S := by
  induction m with
  | nil => exact absurd hm (List.not_mem_nil _)
  | cons x rest ih =>
    unfold OffsetMap.keys at h ih
    rw [List.map_cons, List.pairwise_cons] at h
    unfold OffsetMap.find
    rcases List.mem_cons.mp hm with hx | hrest
    · rw [← hx]
      simp
    · have hk : e ∈ rest.map Prod.fst := List.mem_map.mpr ⟨(e, S), hrest, rfl⟩
      have hlt := h.1 e hk
      have hne : ¬ x.1 = e := by omega
      rw [if_neg hne]
      exact ih h.2 hrest

theorem mem_get_iff_entry (m : OffsetMap) (h : m.ordered) (e : Nat) (q : Pointer) :
    q ∈ m.get e ↔ ∃ S, (e, S) ∈ m ∧ q ∈ S := by
  unfold OffsetMap.get
  constructor
  · intro hq
    cases hf : m.find e with
    | none =>
      rw [hf] at hq
      exact absurd hq (List.not_mem_nil _)
    | some S =>
      rw [hf] at hq
      exact ⟨S, OffsetMap.mem_of_find m e S hf, hq⟩
  · rintro ⟨S, hm, hq⟩
    rw [find_of_mem_ordered m e S h.1 hm]
    exact hq

theorem key_lt_of_mem (m : OffsetMap) (h : m.ordered) (x : Nat × PointsToSet) (hx : x ∈ m) :
    x.1 < WORD :=
  h.2 x.1 (List.mem_map.mpr ⟨x, hx, rfl⟩)

theorem next_mem (m : OffsetMap) (cursor : Option Nat) (x : Nat × PointsToSet)
    (h : m.next cursor = some x) : x ∈ m ∧ afterCursor cursor x.1 := by
  unfold OffsetMap.next at h
  cases cursor with
  | none =>
    simp only at h
    refine ⟨?_, fun c hc => Option.noConfusion hc⟩
    cases m with
    | nil => exact Option.noConfusion h
    | cons y rest =>
      simp only [List.head?_cons, Option.some.injEq] at h
      rw [h]
      exact List.mem_cons_self _ _
  | some c =>
    simp only at h
    refine ⟨List.mem_of_find?_eq_some h, ?_⟩
    intro c2 hc2
    have hp := List.find?_some h
    simp only [decide_eq_true_eq] at hp
    cases hc2
    exact hp

theorem next_none (m : OffsetMap) (cursor : Option Nat) (h : m.next cursor = none)
    (y : Nat × PointsToSet) (hy : y ∈ m) : ¬ afterCursor cursor y.1 := by
  unfold OffsetMap.next at h
  cases cursor with
  | none =>
    simp only at h
    cases m with
    | nil => exact absurd hy (List.not_mem_nil _)
    | cons z rest => simp at h
  | some c =>
    simp only at h
    intro hafter
    have hp := List.find?_eq_none.mp h y hy
    simp only [decide_eq_true_eq] at hp
    exact hp (hafter c rfl)

theorem next_le (m : OffsetMap) (hp : (OffsetMap.keys m).Pairwise (fun a b => a < b))
    (cursor : Option Nat) (x : Nat × PointsToSet) (h : m.next cursor = some x)
    (y : Nat × PointsToSet) (hy : y ∈ m) (hafter : afterCursor cursor y.1) : x.1 ≤ y.1 := by
  induction m with
  | nil => exact absurd hy (List.not_mem_nil _)
  | cons a rest ih =>
    unfold OffsetMap.keys at hp ih
    rw [List.map_cons, List.pairwise_cons] at hp
    have hrest : ∀ z ∈ rest, a.1 < z.1 := fun z hz =>
      hp.1 z.1 (List.mem_map.mpr ⟨z, hz, rfl⟩)
    cases cursor with
    | none =>
      simp only [OffsetMap.next, List.head?_cons, Option.some.injEq] at h
      rw [← h]
      rcases List.mem_cons.mp hy with rfl | hy2
      · exact le_refl _
      · exact le_of_lt (hrest y hy2)
    | some c =>
      simp only [OffsetMap.next] at h ih
      rw [List.find?_cons] at h
      by_cases hc : c < a.1
      · simp only [hc, decide_True, Option.some.injEq] at h
        rw [← h]
        rcases List.mem_cons.mp hy with rfl | hy2
        · exact le_refl _
        · exact le_of_lt (hrest y hy2)
      · simp only [hc, decide_False] at h
        rcases List.mem_cons.mp hy with rfl | hy2
        · exact absurd (hafter c rfl) hc
        · exact ih hp.2 h hy2

theorem objects_addObjectPointsTo_other (p : PointerAnalysis) (destO off : Nat)
    (S : List Pointer) (o : Nat) (h : o ≠ destO) :
    (p.addObjectPointsTo destO off S).1.objects o = p.objects o := by
  unfold PointerAnalysis.addObjectPointsTo
  simp only
  rw [Function.update_noteq h]

theorem objects_memcpyEntry_other (p : PointerAnalysis) (destO s d len : Nat)
    (src : Nat × PointsToSet) (o : Nat) (h : o ≠ destO) :
    (memcpyEntry p destO s d len src).1.objects o = p.objects o := by
  unfold memcpyEntry
  split
  · split
    · split
      · exact objects_addObjectPointsTo_other _ _ _ _ _ h
      · split
        · exact objects_addObjectPointsTo_other _ _ _ _ _ h
        · exact objects_addObjectPointsTo_other _ _ _ _ _ h
    · exact objects_addObjectPointsTo_other _ _ _ _ _ h
  · rfl

theorem objects_memcpyEntries_other (destO so s d len fuel : Nat) (cursor : Option Nat)
    (acc : PointerAnalysis × Bool) (o : Nat) (h : o ≠ destO) :
    (memcpyEntries destO so s d len fuel cursor acc).1.objects o = acc.1.objects o := by
  induction fuel generalizing cursor acc with
  | zero => rfl
  | succ n ih =>
    unfold memcpyEntries
    split
    · rfl
    · rename_i src _
      rw [ih]
      exact objects_memcpyEntry_other acc.1 destO s d len src o h

theorem memcpyInv_memcpyEntries (size_of : Nat → Nat) (mx : Nat) (hmx : mx ≤ UNKNOWN)
    (destO so s d len fuel : Nat) (cursor : Option Nat) (acc : PointerAnalysis × Bool)
    (hinv : memcpyInv size_of mx acc.1) :
    memcpyInv size_of mx (memcpyEntries destO so s d len fuel cursor acc).1 := by
  induction fuel generalizing cursor acc with
  | zero => exact hinv
  | succ n ih =>
    unfold memcpyEntries
    split
    · exact hinv
    · rename_i src hnext
      apply ih
      have hm := (next_mem _ cursor src hnext).1
      exact memcpyInv_memcpyEntry size_of mx acc.1 destO s d len src.1 src.2 hinv hmx
        (key_lt_of_mem _ (hinv.2.2 so) src hm)

theorem memcpyEntries_copies (size_of : Nat → Nat) (mx : Nat) (hmx : mx ≤ UNKNOWN)
    (destO so s d len fuel : Nat) (cursor : Option Nat) (acc : PointerAnalysis × Bool)
    (hinv : memcpyInv size_of mx acc.1)
    (hfuel : WORD ≤ fuel + cursor.elim 0 (fun c => c + 1))
    (e : Nat) (q : Pointer) (hafter : afterCursor cursor e)
    (hq : q ∈ (acc.1.objects so).pointsTo.get e) (hc : specMemcpyCopied s len e) :
    q ∈ ((memcpyEntries destO so s d len fuel cursor acc).1.objects destO).pointsTo.get
      (specMemcpyLanding (size_of destO) mx s d e) := by
  induction fuel generalizing cursor acc with
  | zero =>
    obtain ⟨S, hS, _⟩ := (mem_get_iff_entry _ (hinv.2.2 so) e q).mp hq
    have he : e < WORD := key_lt_of_mem _ (hinv.2.2 so) (e, S) hS
    cases cursor with
    | none =>
      simp only [Option.elim] at hfuel
      unfold WORD at hfuel
      omega
    | some c =>
      simp only [Option.elim] at hfuel
      have := hafter c rfl
      omega
  | succ n ih =>
    obtain ⟨S, hS, hqS⟩ := (mem_get_iff_entry _ (hinv.2.2 so) e q).mp hq
    cases hnext : ((acc.1.objects so).pointsTo).next cursor with
    | none => exact absurd hafter (next_none _ cursor hnext (e, S) hS)
    | some src =>
      have hm := next_mem _ cursor src hnext
      have hk : src.1 < WORD := key_lt_of_mem _ (hinv.2.2 so) src hm.1
      have hle : src.1 ≤ e := next_le _ (hinv.2.2 so).1 cursor src hnext (e, S) hS hafter
      have hinv2 : memcpyInv size_of mx (memcpyEntry acc.1 destO s d len src).1 :=
        memcpyInv_memcpyEntry size_of mx acc.1 destO s d len src.1 src.2 hinv hmx hk
      have hfuel2 : WORD ≤ n + (some src.1).elim 0 (fun c => c + 1) := by
        simp only [Option.elim]
        cases cursor with
        | none =>
          simp only [Option.elim] at hfuel
          omega
        | some c =>
          simp only [Option.elim] at hfuel
          have := hm.2 c rfl
          omega
      unfold memcpyEntries
      simp only [hnext]
      by_cases hke : src.1 = e
      · have hsrc : src = (e, S) := by
          have h1 := find_of_mem_ordered _ src.1 src.2 (hinv.2.2 so).1 hm.1
          have h2 := find_of_mem_ordered _ e S (hinv.2.2 so).1 hS
          rw [hke, h2] at h1
          exact Prod.ext hke (Option.some.inj h1).symm
        have hin : q ∈ ((memcpyEntry acc.1 destO s d len src).1.objects destO).pointsTo.get
            (specMemcpyLanding (size_of destO) mx s d e) := by
          rw [hsrc, memcpyEntry_land size_of mx acc.1 destO s d len e S hinv hmx (hke ▸ hk),
            if_pos hc]
          exact (mem_get_addObjectPointsTo acc.1 destO _ S destO _ q).2
            (Or.inr ⟨rfl, rfl, hqS⟩)
        exact (sameButObjects_memcpyEntries destO so s d len n (some src.1)
          ((memcpyEntry acc.1 destO s d len src).1,
            acc.2 || (memcpyEntry acc.1 destO s d len src).2)).2.2.2.2.2 _ _ _ hin
      · apply ih (some src.1) ((memcpyEntry acc.1 destO s d len src).1,
          acc.2 || (memcpyEntry acc.1 destO s d len src).2) hinv2 hfuel2
        · intro c hc2
          cases hc2
          omega
        · exact (sameButObjects_memcpyEntry acc.1 destO s d len src).2.2.2.2.2 so e q hq

theorem memcpyEntries_only (size_of : Nat → Nat) (mx : Nat) (hmx : mx ≤ UNKNOWN)
    (destO so s d len fuel : Nat) (cursor : Option Nat) (acc : PointerAnalysis × Bool)
    (hinv : memcpyInv size_of mx acc.1) (o off : Nat) (q : Pointer)
    (hq : q ∈ ((memcpyEntries destO so s d len fuel cursor acc).1.objects o).pointsTo.get
      off) :
    q ∈ (acc.1.objects o).pointsTo.get off ∨
      (o = destO ∧ ∃ e, specMemcpyCopied s len e ∧
        off = specMemcpyLanding (size_of destO) mx s d e ∧
        q ∈ ((memcpyEntries destO so s d len fuel cursor acc).1.objects so).pointsTo.get
          e) := by
  induction fuel generalizing cursor acc with
  | zero => exact Or.inl hq
  | succ n ih =>
    unfold memcpyEntries at hq ⊢
    cases hnext : ((acc.1.objects so).pointsTo).next cursor with
    | none =>
      simp only [hnext] at hq ⊢
      exact Or.inl hq
    | some src =>
      simp only [hnext] at hq ⊢
      have hm := next_mem _ cursor src hnext
      have hk : src.1 < WORD := key_lt_of_mem _ (hinv.2.2 so) src hm.1
      have hinv2 : memcpyInv size_of mx (memcpyEntry acc.1 destO s d len src).1 :=
        memcpyInv_memcpyEntry size_of mx acc.1 destO s d len src.1 src.2 hinv hmx hk
      rcases ih (some src.1) ((memcpyEntry acc.1 destO s d len src).1,
          acc.2 || (memcpyEntry acc.1 destO s d len src).2) hinv2 hq with h1 | h2
      · have hland := memcpyEntry_land size_of mx acc.1 destO s d len src.1 src.2 hinv hmx hk
        simp only at h1
        rw [show src = (src.1, src.2) from rfl, hland] at h1
        by_cases hc : specMemcpyCopied s len src.1
        · rw [if_pos hc] at h1
          rcases (mem_get_addObjectPointsTo acc.1 destO _ src.2 o off q).1 h1 with h3 | h4
          · exact Or.inl h3
          · refine Or.inr ⟨h4.1, src.1, hc, h4.2.1, ?_⟩
            have hget : q ∈ (acc.1.objects so).pointsTo.get src.1 :=
              (mem_get_iff_entry _ (hinv.2.2 so) src.1 q).mpr ⟨src.2, hm.1, h4.2.2⟩
            exact (sameButObjects_memcpyEntries destO so s d len n (some src.1)
              ((memcpyEntry acc.1 destO s d len src).1,
                acc.2 || (memcpyEntry acc.1 destO s d len src).2)).2.2.2.2.2 _ _ _
              ((sameButObjects_memcpyEntry acc.1 destO s d len src).2.2.2.2.2 so _ q hget)
        · rw [if_neg hc] at h1
          exact Or.inl h1
      · exact Or.inr h2

theorem memcpyInv_memcpySources (size_of : Nat → Nat) (mx : Nat) (hmx : mx ≤ UNKNOWN)
    (destO s d len : Nat) (sos : List Nat) (acc : PointerAnalysis × Bool)
    (hinv : memcpyInv size_of mx acc.1) :
    memcpyInv size_of mx (memcpySources destO s d len sos acc).1 := by
  induction sos generalizing acc with
  | nil => exact hinv
  | cons so rest ih =>
    unfold memcpySources
    exact ih _ (memcpyInv_memcpyEntries size_of mx hmx destO so s d len WORD none acc hinv)

theorem objects_memcpySources_other (destO s d len : Nat) (sos : List Nat)
    (acc : PointerAnalysis × Bool) (o : Nat) (h : o ≠ destO) :
    (memcpySources destO s d len sos acc).1.objects o = acc.1.objects o := by
  induction sos generalizing acc with
  | nil => rfl
  | cons so rest ih =>
    unfold memcpySources
    rw [ih]
    exact objects_memcpyEntries_other destO so s d len WORD none acc o h

theorem memcpySources_copies (size_of : Nat → Nat) (mx : Nat) (hmx : mx ≤ UNKNOWN)
    (destO s d len : Nat) (sos : List Nat) (acc : PointerAnalysis × Bool)
    (hinv : memcpyInv size_of mx acc.1) (so : Nat) (hso : so ∈ sos)
    (e : Nat) (q : Pointer)
    (hq : q ∈ (acc.1.objects so).pointsTo.get e) (hc : specMemcpyCopied s len e) :
    q ∈ ((memcpySources destO s d len sos acc).1.objects destO).pointsTo.get
      (specMemcpyLanding (size_of destO) mx s d e) := by
  induction sos generalizing acc with
  | nil => exact absurd hso (List.not_mem_nil _)
  | cons x rest ih =>
    unfold memcpySources
    rcases List.mem_cons.mp hso with rfl | hrest
    · have h1 := memcpyEntries_copies size_of mx hmx destO so s d len WORD none acc hinv
        (Nat.le_add_right _ _) e q (fun c hc2 => Option.noConfusion hc2) hq hc
      exact (sameButObjects_memcpySources destO s d len rest
        (memcpyEntries destO so s d len WORD none acc)).2.2.2.2.2 _ _ _ h1
    · exact ih (memcpyEntries destO x s d len WORD none acc)
        (memcpyInv_memcpyEntries size_of mx hmx destO x s d len WORD none acc hinv) hrest
        ((sameButObjects_memcpyEntries destO x s d len WORD none acc).2.2.2.2.2 _ _ _ hq)

theorem memcpySources_only (size_of : Nat → Nat) (mx : Nat) (hmx : mx ≤ UNKNOWN)
    (destO s d len : Nat) (sos : List Nat) (acc : PointerAnalysis × Bool)
    (hinv : memcpyInv size_of mx acc.1) (o off : Nat) (q : Pointer)
    (hq : q ∈ ((memcpySources destO s d len sos acc).1.objects o).pointsTo.get off) :
    q ∈ (acc.1.objects o).pointsTo.get off ∨
      (o = destO ∧ ∃ so ∈ sos, ∃ e, specMemcpyCopied s len e ∧
        off = specMemcpyLanding (size_of destO) mx s d e ∧
        q ∈ ((memcpySources destO s d len sos acc).1.objects so).pointsTo.get e) := by
  induction sos generalizing acc with
  | nil => exact Or.inl hq
  | cons x rest ih =>
    unfold memcpySources at hq ⊢
    rcases ih (memcpyEntries destO x s d len WORD none acc)
      (memcpyInv_memcpyEntries size_of mx hmx destO x s d len WORD none acc hinv) hq
      with h1 | ⟨ho, so, hso, e, hc, hoff, hin⟩
    · rcases memcpyEntries_only size_of mx hmx destO x s d len WORD none acc hinv o off q h1
        with h2 | ⟨ho, e, hc, hoff, hin⟩
      · exact Or.inl h2
      · exact Or.inr ⟨ho, x, List.mem_cons_self _ _, e, hc, hoff,
          (sameButObjects_memcpySources destO s d len rest
            (memcpyEntries destO x s d len WORD none acc)).2.2.2.2.2 _ _ _ hin⟩
    · exact Or.inr ⟨ho, so, List.mem_cons_of_mem _ hso, e, hc, hoff, hin⟩

theorem memcpyDests_step (cn : Bool) (sos : List Nat) (s d len destO : Nat)
    (rest : List Nat) (acc : PointerAnalysis × Bool) :
    ∃ acc1 : PointerAnalysis × Bool,
      memcpyDests cn sos s d len (destO :: rest) acc =
        memcpyDests cn sos s d len rest (memcpySources destO s d len sos acc1) ∧
      sameButObjects acc.1 acc1.1 ∧
      (∀ size_of mx, memcpyInv size_of mx acc.1 → memcpyInv size_of mx acc1.1) ∧
      (∀ o, o ≠ destO → acc1.1.objects o = acc.1.objects o) ∧
      (∀ o off q, q ∈ (acc1.1.objects o).pointsTo.get off →
        q ∈ (acc.1.objects o).pointsTo.get off ∨
          (o = destO ∧ cn = true ∧ off = UNKNOWN ∧ q = PointerNull)) := by
  cases cn with
  | true =>
    refine ⟨((acc.1.addObjectPointsTo destO UNKNOWN [PointerNull]).1,
      acc.2 || (acc.1.addObjectPointsTo destO UNKNOWN [PointerNull]).2), ?_,
      sameButObjects_addObjectPointsTo acc.1 destO UNKNOWN [PointerNull], ?_, ?_, ?_⟩
    · simp only [memcpyDests, if_true]
    · intro size_of mx h
      exact memcpyInv_addObjectPointsTo size_of mx acc.1 destO UNKNOWN _ h (by decide)
    · intro o ho
      exact objects_addObjectPointsTo_other acc.1 destO UNKNOWN _ o ho
    · intro o off q hq
      rcases (mem_get_addObjectPointsTo acc.1 destO UNKNOWN [PointerNull] o off q).1 hq
        with h1 | ⟨h2, h3, h4⟩
      · exact Or.inl h1
      · exact Or.inr ⟨h2, rfl, h3, List.mem_singleton.mp h4⟩
  | false =>
    refine ⟨acc, ?_, sameButObjects_refl _, fun _ _ h => h, fun _ _ => rfl,
      fun _ _ _ h => Or.inl h⟩
    simp only [memcpyDests, Bool.false_eq_true, if_false]

theorem memcpyInv_memcpyDests (size_of : Nat → Nat) (mx : Nat) (hmx : mx ≤ UNKNOWN)
    (cn : Bool) (sos : List Nat) (s d len : Nat) (dests : List Nat)
    (acc : PointerAnalysis × Bool) (hinv : memcpyInv size_of mx acc.1) :
    memcpyInv size_of mx (memcpyDests cn sos s d len dests acc).1 := by
  induction dests generalizing acc with
  | nil => exact hinv
  | cons destO rest ih =>
    obtain ⟨acc1, heq, _, hinv1, _, _⟩ := memcpyDests_step cn sos s d len destO rest acc
    rw [heq]
    exact ih _ (memcpyInv_memcpySources size_of mx hmx destO s d len sos acc1
      (hinv1 size_of mx hinv))

theorem objects_memcpyDests_other (cn : Bool) (sos : List Nat) (s d len : Nat)
    (dests : List Nat) (acc : PointerAnalysis × Bool) (o : Nat) (h : o ∉ dests) :
    (memcpyDests cn sos s d len dests acc).1.objects o = acc.1.objects o := by
  induction dests generalizing acc with
  | nil => rfl
  | cons destO rest ih =>
    obtain ⟨acc1, heq, _, _, hother, _⟩ := memcpyDests_step cn sos s d len destO rest acc
    have hne : o ≠ destO := fun hc => h (hc ▸ List.mem_cons_self _ _)
    rw [heq, ih _ (fun hc => h (List.mem_cons_of_mem _ hc)),
      objects_memcpySources_other destO s d len sos acc1 o hne, hother o hne]

theorem memcpyDests_copies (size_of : Nat → Nat) (mx : Nat) (hmx : mx ≤ UNKNOWN)
    (cn : Bool) (sos : List Nat) (s d len : Nat) (dests : List Nat)
    (acc : PointerAnalysis × Bool) (hinv : memcpyInv size_of mx acc.1)
    (destO : Nat) (hdest : destO ∈ dests) (so : Nat) (hso : so ∈ sos)
    (e : Nat) (q : Pointer)
    (hq : q ∈ (acc.1.objects so).pointsTo.get e) (hc : specMemcpyCopied s len e) :
    q ∈ ((memcpyDests cn sos s d len dests acc).1.objects destO).pointsTo.get
      (specMemcpyLanding (size_of destO) mx s d e) := by
  induction dests generalizing acc with
  | nil => exact absurd hdest (List.not_mem_nil _)
  | cons x rest ih =>
    obtain ⟨acc1, heq, hsame, hinv1, _, _⟩ := memcpyDests_step cn sos s d len x rest acc
    rw [heq]
    have hq1 : q ∈ (acc1.1.objects so).pointsTo.get e := hsame.2.2.2.2.2 _ _ _ hq
    rcases List.mem_cons.mp hdest with rfl | hrest
    · have h1 := memcpySources_copies size_of mx hmx destO s d len sos acc1
        (hinv1 size_of mx hinv) so hso e q hq1 hc
      exact (sameButObjects_memcpyDests cn sos s d len rest
        (memcpySources destO s d len sos acc1)).2.2.2.2.2 _ _ _ h1
    · exact ih (memcpySources x s d len sos acc1)
        (memcpyInv_memcpySources size_of mx hmx x s d len sos acc1 (hinv1 size_of mx hinv))
        hrest ((sameButObjects_memcpySources x s d len sos acc1).2.2.2.2.2 _ _ _ hq1)

theorem memcpyDests_only (size_of : Nat → Nat) (mx : Nat) (hmx : mx ≤ UNKNOWN)
    (cn : Bool) (sos : List Nat) (s d len : Nat) (dests : List Nat)
    (acc : PointerAnalysis × Bool) (hinv : memcpyInv size_of mx acc.1)
    (o off : Nat) (q : Pointer)
    (hq : q ∈ ((memcpyDests cn sos s d len dests acc).1.objects o).pointsTo.get off) :
    q ∈ (acc.1.objects o).pointsTo.get off ∨
      (o ∈ dests ∧
        ((cn = true ∧ off = UNKNOWN ∧ q = PointerNull) ∨
          ∃ so ∈ sos, ∃ e, specMemcpyCopied s len e ∧
            off = specMemcpyLanding (size_of o) mx s d e ∧
            q ∈ ((memcpyDests cn sos s d len dests acc).1.objects so).pointsTo.get e)) := by
  induction dests generalizing acc with
  | nil => exact Or.inl hq
  | cons x rest ih =>
    obtain ⟨acc1, heq, _, hinv1, _, honly⟩ := memcpyDests_step cn sos s d len x rest acc
    rw [heq] at hq ⊢
    rcases ih (memcpySources x s d len sos acc1)
      (memcpyInv_memcpySources size_of mx hmx x s d len sos acc1 (hinv1 size_of mx hinv)) hq
      with h1 | ⟨ho, h2⟩
    · rcases memcpySources_only size_of mx hmx x s d len sos acc1 (hinv1 size_of mx hinv)
        o off q h1 with h3 | ⟨ho, so, hso, e, hc, hoff, hin⟩
      · rcases honly o off q h3 with h4 | ⟨ho, hcn, hoff, hnull⟩
        · exact Or.inl h4
        · exact Or.inr ⟨ho ▸ List.mem_cons_self _ _, Or.inl ⟨hcn, hoff, hnull⟩⟩
      · subst ho
        exact Or.inr ⟨List.mem_cons_self _ _, Or.inr ⟨so, hso, e, hc, hoff,
          (sameButObjects_memcpyDests cn sos s d len rest
            (memcpySources o s d len sos acc1)).2.2.2.2.2 _ _ _ hin⟩⟩
    · exact Or.inr ⟨List.mem_cons_of_mem _ ho, h2⟩

theorem processMemcpyObjects_eq (pa : PointerAnalysis) (srcObjects destObjects : List Nat)
    (sptr dptr : Pointer) (len : Nat) (hlen : len ≠ 0)
    (hs : (pa.nodes sptr.target).isAlloc = true)
    (hd : (pa.nodes dptr.target).isAlloc = true) :
    ∃ (pa1 : PointerAnalysis) (cn : Bool),
      processMemcpyObjects pa srcObjects destObjects sptr dptr len =
        some (memcpyDests cn srcObjects sptr.offset dptr.offset len destObjects
          (pa1, false)) ∧
      pa1.objects = pa.objects ∧ pa1.max_offset = pa.max_offset ∧
      (∀ n, (pa1.nodes n).size = (pa.nodes n).size) ∧
      (cn = true ↔ memcpyNullSomewhere pa sptr dptr len) := by
  unfold processMemcpyObjects memcpyNullSomewhere
  simp only [hlen, hs, hd, if_false, Bool.not_true, Bool.false_eq_true]
  refine ⟨_, _, rfl, ?_, ?_, ?_, ?_⟩
  · split
    · rfl
    · rfl
  · split
    · rfl
    · rfl
  · intro n
    split
    · unfold PointerAnalysis.setZeroInitialized
      by_cases h : n = dptr.target
      · subst h
        simp
      · simp [Function.update_noteq h]
    · rfl
  · simp only [Bool.and_eq_true, Bool.not_eq_true', decide_eq_false_iff_not]

/-- C12: the per-entry copy of MEMCPY, through the loops of
`processMemcpy(srcObjects, destObjects, sptr, dptr, len)`. Let the length be
not 0, both targets memory allocations, `max_offset` a 64-bit value and every
map of a memory object a `std::map` over 64-bit keys. The call returns, and
with `s = sptr.offset`, `d = dptr.offset`:
for every destination object, every source object and every entry `(e, S)` of
the source object with `e == UNKNOWN || s == UNKNOWN || s <= e < s + len` (no
upper bound for `len == UNKNOWN`), every pointer of `S` is afterwards in the
destination object under `e - s + d` if `e`, `s`, `d` are concrete, the sum
does not overflow and is below the size of the destination allocation and
below `max_offset`, and under `UNKNOWN` in every other case;
a pointer that is in an object afterwards was there before, or the object is a
destination object and the pointer is `NULLPTR` under `UNKNOWN` for a
zero-initialised source not copied whole, or it belongs to an entry of a source
object that passes the test and lands under this offset;
an object that is not a destination object is as it was;
so, when no source object is a destination object, a destination object holds
afterwards exactly what it held, the `NULLPTR` of the zero-initialisation
rule, and the sets of the entries of the source objects that pass the test,
each under its landing offset: an entry that fails the test adds nothing;
and one round of the innermost loop, in any state, inserts the set of the entry
under the landing offset when the entry passes the test and changes nothing
otherwise. -/
theorem processMemcpyObjects_copy (pa : PointerAnalysis)
    (srcObjects destObjects : List Nat) (sptr dptr : Pointer) (len : Nat)
    (hlen : len ≠ 0)
    (hs : (pa.nodes sptr.target).isAlloc = true)
    (hd : (pa.nodes dptr.target).isAlloc = true)
    (hmax : pa.max_offset ≤ UNKNOWN)
    (hord : ∀ o, (pa.objects o).pointsTo.ordered) :
    ∃ r, processMemcpyObjects pa srcObjects destObjects sptr dptr len = some r ∧
      (∀ destO ∈ destObjects, ∀ so ∈ srcObjects, ∀ e S,
        (e, S) ∈ (pa.objects so).pointsTo → specMemcpyCopied sptr.offset len e →
        ∀ q ∈ S, q ∈ (r.1.objects destO).pointsTo.get
          (specMemcpyLanding (pa.nodes (pa.objects destO).node).size pa.max_offset
            sptr.offset dptr.offset e)) ∧
      (∀ o off q, q ∈ (r.1.objects o).pointsTo.get off →
        q ∈ (pa.objects o).pointsTo.get off ∨
          (o ∈ destObjects ∧
            ((memcpyNullSomewhere pa sptr dptr len ∧ off = UNKNOWN ∧ q = PointerNull) ∨
              ∃ so ∈ srcObjects, ∃ e S, (e, S) ∈ (r.1.objects so).pointsTo ∧
                specMemcpyCopied sptr.offset len e ∧
                off = specMemcpyLanding (pa.nodes (pa.objects o).node).size pa.max_offset
                  sptr.offset dptr.offset e ∧
                q ∈ S))) ∧
      (∀ o, o ∉ destObjects → r.1.objects o = pa.objects o) ∧
      ((∀ so ∈ srcObjects, so ∉ destObjects) →
        ∀ o off q, q ∈ (r.1.objects o).pointsTo.get off ↔
          q ∈ (pa.objects o).pointsTo.get off ∨
            (o ∈ destObjects ∧
              ((memcpyNullSomewhere pa sptr dptr len ∧ off = UNKNOWN ∧ q = PointerNull) ∨
                ∃ so ∈ srcObjects, ∃ e S, (e, S) ∈ (pa.objects so).pointsTo ∧
                  specMemcpyCopied sptr.offset len e ∧
                  off = specMemcpyLanding (pa.nodes (pa.objects o).node).size pa.max_offset
                    sptr.offset dptr.offset e ∧
                  q ∈ S))) ∧
      (∀ (p : PointerAnalysis) (destO e : Nat) (S : PointsToSet),
        e < WORD → p.max_offset ≤ UNKNOWN →
        memcpyEntry p destO sptr.offset dptr.offset len (e, S) =
          if specMemcpyCopied sptr.offset len e then
            p.addObjectPointsTo destO
              (specMemcpyLanding (p.nodes (p.objects destO).node).size p.max_offset
                sptr.offset dptr.offset e) S
          else (p, false)) := by
  obtain ⟨pa1, cn, heq, hobj, hmx1, hsize, hcn⟩ :=
    processMemcpyObjects_eq pa srcObjects destObjects sptr dptr len hlen hs hd
  have hinv : memcpyInv (fun o => (pa.nodes (pa.objects o).node).size) pa.max_offset
      ((pa1, false) : PointerAnalysis × Bool).1 := by
    refine ⟨hmx1, ?_, ?_⟩
    · intro o
      show (pa1.nodes (pa1.objects o).node).size = _
      rw [hobj]
      exact hsize _
    · intro o
      show (pa1.objects o).pointsTo.ordered
      rw [hobj]
      exact hord o
  have hfinal := memcpyInv_memcpyDests _ _ hmax cn srcObjects sptr.offset dptr.offset len
    destObjects (pa1, false) hinv
  have hgrow := (sameButObjects_memcpyDests cn srcObjects sptr.offset dptr.offset len
    destObjects (pa1, false)).2.2.2.2.2
  have h1 : ∀ destO ∈ destObjects, ∀ so ∈ srcObjects, ∀ e S,
      (e, S) ∈ (pa.objects so).pointsTo → specMemcpyCopied sptr.offset len e →
      ∀ q ∈ S, q ∈ ((memcpyDests cn srcObjects sptr.offset dptr.offset len destObjects
          (pa1, false)).1.objects destO).pointsTo.get
        (specMemcpyLanding (pa.nodes (pa.objects destO).node).size pa.max_offset
          sptr.offset dptr.offset e) := by
    intro destO hdest so hso e S hS hc q hq
    have hget : q ∈ (pa1.objects so).pointsTo.get e := by
      rw [hobj]
      exact (mem_get_iff_entry _ (hord so) e q).mpr ⟨S, hS, hq⟩
    exact memcpyDests_copies _ _ hmax cn srcObjects sptr.offset dptr.offset len destObjects
      (pa1, false) hinv destO hdest so hso e q hget hc
  have h2 : ∀ o off q, q ∈ ((memcpyDests cn srcObjects sptr.offset dptr.offset len
        destObjects (pa1, false)).1.objects o).pointsTo.get off →
      q ∈ (pa.objects o).pointsTo.get off ∨
        (o ∈ destObjects ∧
          ((memcpyNullSomewhere pa sptr dptr len ∧ off = UNKNOWN ∧ q = PointerNull) ∨
            ∃ so ∈ srcObjects, ∃ e S,
              (e, S) ∈ ((memcpyDests cn srcObjects sptr.offset dptr.offset len destObjects
                (pa1, false)).1.objects so).pointsTo ∧
              specMemcpyCopied sptr.offset len e ∧
              off = specMemcpyLanding (pa.nodes (pa.objects o).node).size pa.max_offset
                sptr.offset dptr.offset e ∧
              q ∈ S)) := by
    intro o off q hq
    rcases memcpyDests_only _ _ hmax cn srcObjects sptr.offset dptr.offset len destObjects
      (pa1, false) hinv o off q hq with h | ⟨ho, h⟩
    · left
      have h3 : q ∈ (pa1.objects o).pointsTo.get off := h
      rw [hobj] at h3
      exact h3
    · right
      refine ⟨ho, ?_⟩
      rcases h with ⟨hcn2, hoff, hnull⟩ | ⟨so, hso, e, hc, hoff, hin⟩
      · exact Or.inl ⟨hcn.mp hcn2, hoff, hnull⟩
      · obtain ⟨S, hS, hqS⟩ := (mem_get_iff_entry _ (hfinal.2.2 so) e q).mp hin
        exact Or.inr ⟨so, hso, e, S, hS, hc, hoff, hqS⟩
  have h3 : ∀ o, o ∉ destObjects →
      (memcpyDests cn srcObjects sptr.offset dptr.offset len destObjects
        (pa1, false)).1.objects o = pa.objects o := by
    intro o ho
    rw [objects_memcpyDests_other cn srcObjects sptr.offset dptr.offset len destObjects
      (pa1, false) o ho]
    exact congrFun hobj o
  refine ⟨_, heq, h1, h2, h3, ?_, ?_⟩
  · intro hdisj o off q
    constructor
    · intro hq
      rcases h2 o off q hq with h | ⟨ho, hn | ⟨so, hso, e, S, hS, hc, hoff, hqS⟩⟩
      · exact Or.inl h
      · exact Or.inr ⟨ho, Or.inl hn⟩
      · rw [h3 so (hdisj so hso)] at hS
        exact Or.inr ⟨ho, Or.inr ⟨so, hso, e, S, hS, hc, hoff, hqS⟩⟩
    · rintro (h | ⟨ho, ⟨hn, hoff, hnull⟩ | ⟨so, hso, e, S, hS, hc, hoff, hqS⟩⟩)
      · apply hgrow o off q
        show q ∈ (pa1.objects o).pointsTo.get off
        rw [hobj]
        exact h
      · have hcn2 : cn = true := hcn.mpr hn
        subst hcn2
        rw [hoff, hnull]
        exact memcpyDests_null srcObjects sptr.offset dptr.offset len destObjects
          (pa1, false) o ho
      · rw [hoff]
        exact h1 o ho so hso e S hS hc q hqS
  · intro p destO e S he hp
    exact memcpyEntry_eq p destO sptr.offset dptr.offset len e S he hp

/-- C12 (witness): the memcpy scenario, `memcpy(dst, src, 64)` with `&x` under
offset 0 and `&y` under offset 8 of the source object: the call on the objects
returns, `&x` is under offset 0 and `&y` under offset 8 of the destination
object, and the source object is as it was. -/
theorem processMemcpyObjects_copy_witness :
    (64 : Nat) ≠ 0 ∧ (memcpyExample.nodes 40).isAlloc = true ∧
    (memcpyExample.nodes 41).isAlloc = true ∧ memcpyExample.max_offset ≤ UNKNOWN ∧
    (∀ o, (memcpyExample.objects o).pointsTo.ordered) ∧
    ∃ r, processMemcpyObjects memcpyExample [40] [41] ⟨40, 0⟩ ⟨41, 0⟩ 64 = some r ∧
      (⟨42, 0⟩ : Pointer) ∈ (r.1.objects 41).pointsTo.get 0 ∧
      (⟨43, 0⟩ : Pointer) ∈ (r.1.objects 41).pointsTo.get 8 ∧
      r.1.objects 40 = memcpyExample.objects 40 := by
  have hord : ∀ o, (memcpyExample.objects o).pointsTo.ordered := by
    intro o
    by_cases h : o = 40
    · subst h
      decide
    · have hnil : (memcpyExample.objects o).pointsTo = [] := by
        simp [memcpyExample, h]
      rw [hnil]
      decide
  obtain ⟨r, hr, h1, _, h3, _⟩ := processMemcpyObjects_copy memcpyExample [40] [41]
    ⟨40, 0⟩ ⟨41, 0⟩ 64 (by decide) (by decide) (by decide) (by decide) hord
  have hx := h1 41 (by decide) 40 (by decide) 0 [⟨42, 0⟩] (by decide) (by decide)
    ⟨42, 0⟩ (by decide)
  have hy := h1 41 (by decide) 40 (by decide) 8 [⟨43, 0⟩] (by decide) (by decide)
    ⟨43, 0⟩ (by decide)
  have hl0 : specMemcpyLanding (memcpyExample.nodes (memcpyExample.objects 41).node).size
      memcpyExample.max_offset (⟨40, 0⟩ : Pointer).offset (⟨41, 0⟩ : Pointer).offset 0 = 0 := by
    decide
  have hl8 : specMemcpyLanding (memcpyExample.nodes (memcpyExample.objects 41).node).size
      memcpyExample.max_offset (⟨40, 0⟩ : Pointer).offset (⟨41, 0⟩ : Pointer).offset 8 = 8 := by
    decide
  rw [hl0] at hx
  rw [hl8] at hy
  exact ⟨by decide, by decide, by decide, by decide, hord, r, hr, hx, hy, h3 40 (by decide)⟩

end dg
